import Mathlib

/-!
Shallow embedding of the bpf-optimizer per-section analyzer and rewriter
(Go sources: pkg/bpf instruction decoding, pkg/optimizer section pipeline,
CFG builder, data-flow dependency engine, and the four rewrite passes),
together with theorems settling the frozen specification claims.

Go maps are modelled as insertion-ordered association lists; Go's
`map[int]bool` sets as duplicate-free lists.  Places where the Go code
iterates a map in unspecified order are either explicitly sorted by the
source itself, rebuilt from scratch afterwards, or are parameterised by
the enumeration order where a claim is about that order.  Runtime panics
of the Go code (out-of-range slice indexing) are modelled by `Option`:
a function returns `none` exactly where the Go code would panic.
Unbounded recursion in the Go engine is modelled with an explicit fuel
parameter; fuel exhaustion also yields `none`.
-/

namespace BPFOpt

/-- Value of one hex digit, as accepted by Go's `strconv.ParseUint` base 16
and `hex.DecodeString` (both cases accepted). -/
def hexVal (c : Char) : Option Nat :=
  if '0' ≤ c ∧ c ≤ '9' then some (c.toNat - '0'.toNat)
  else if 'a' ≤ c ∧ c ≤ 'f' then some (c.toNat - 'a'.toNat + 10)
  else if 'A' ≤ c ∧ c ≤ 'F' then some (c.toNat - 'A'.toNat + 10)
  else none

/-- Accumulating base-16 parse; `none` on any non-hex character. -/
def parseHexCore : List Char → Nat → Option Nat
  | [], acc => some acc
  | c :: r, acc =>
    match hexVal c with
    | none => none
    | some d => parseHexCore r (acc * 16 + d)

/-- Go `strconv.ParseUint(s, 16, bits)`: rejects the empty string, any
non-hex character, and values that do not fit in `bits` bits. -/
def parseUint (s : List Char) (bits : Nat) : Option Nat :=
  match s with
  | [] => none
  | _ =>
    match parseHexCore s 0 with
    | none => none
    | some v => if v < 2 ^ bits then some v else none

/-- Go slice-of-string `s[a:b]`. -/
def sub (l : List Char) (a b : Nat) : List Char :=
  (l.drop a).take (b - a)

/-- Reinterpret an unsigned value as a signed 16-bit integer (Go `int16(u)`). -/
def toInt16 (v : Nat) : Int :=
  if v % 65536 < 32768 then ((v % 65536 : Nat) : Int)
  else ((v % 65536 : Nat) : Int) - 65536

/-- Reinterpret an unsigned value as a signed 32-bit integer (Go `int32(u)`). -/
def toInt32 (v : Nat) : Int :=
  if v % 4294967296 < 2147483648 then ((v % 4294967296 : Nat) : Int)
  else ((v % 4294967296 : Nat) : Int) - 4294967296

/-- Wrap an integer into signed 16-bit range (Go `int16` arithmetic). -/
def wrap16 (z : Int) : Int :=
  let m := z % 65536
  if m < 32768 then m else m - 65536

/-- Lowercase hex digit for a value `< 16` (Go `%x` formatting). -/
def hexDigitChar (n : Nat) : Char :=
  if n < 10 then Char.ofNat ('0'.toNat + n) else Char.ofNat ('a'.toNat + n - 10)

/-- Go `fmt.Sprintf("%02x", b)` for a byte value. -/
def hex2 (b : Nat) : List Char :=
  [hexDigitChar (b / 16 % 16), hexDigitChar (b % 16)]

/-- A decoded BPF instruction (pkg/bpf `Instruction`): the raw 16-hex-char
form plus the decoded fields. -/
structure Instruction where
  raw : List Char
  opcode : Nat
  dstReg : Nat
  srcReg : Nat
  off : Int
  imm : Int
deriving Repr, DecidableEq, Inhabited

/-- The "nil instruction": stands for a Go `nil` `*Instruction` pointer
(produced when `NewInstruction` fails and its error is ignored).  Its empty
raw string makes any later use observable. -/
def deadInstruction : Instruction :=
  { raw := [], opcode := 0, dstReg := 0, srcReg := 0, off := 0, imm := 0 }

/-- The canonical no-op raw hex (pkg/bpf constant `NOP`). -/
def nopRaw : List Char := "0500000000000000".toList

/-- pkg/bpf `(*Instruction).SetAsNOP`. -/
def setAsNOP : Instruction :=
  { raw := nopRaw, opcode := 0x05, dstReg := 0, srcReg := 0, off := 0, imm := 0 }

/-- pkg/bpf `NewInstruction` with the live parse semantics of `parse.go`
(`parseOpcode` / `parseRegisters` / `parseOffset` / `parseImmediate`):
opcode from chars 0..2, dst/src nibbles from chars 2..4, little-endian
16-bit offset from chars 4..8, little-endian 32-bit immediate from
chars 8..16. -/
def newInstruction (hexStr : List Char) : Option Instruction :=
  if hexStr.length ≠ 16 then none else
  match parseUint (sub hexStr 0 2) 8 with
  | none => none
  | some opcode =>
  match parseUint (sub hexStr 2 4) 8 with
  | none => none
  | some regs =>
  match parseUint (sub hexStr 6 8 ++ sub hexStr 4 6) 16 with
  | none => none
  | some offU =>
  match parseUint (sub hexStr 8 10) 8, parseUint (sub hexStr 10 12) 8,
        parseUint (sub hexStr 12 14) 8, parseUint (sub hexStr 14 16) 8 with
  | some b0, some b1, some b2, some b3 =>
    some { raw := hexStr, opcode := opcode,
           dstReg := regs % 16, srcReg := (regs / 16) % 16,
           off := toInt16 offU,
           imm := toInt32 (b0 + b1 * 256 + b2 * 65536 + b3 * 16777216) }
  | _, _, _, _ => none

/-- pkg/bpf `GetInstructionClass`. -/
def instructionClass (i : Instruction) : Nat := i.opcode &&& 0x07

end BPFOpt

namespace BPFOpt

/-- Result of analysing one instruction (optimizer `InstructionAnalysis`). -/
structure InstructionAnalysis where
  updatedReg : Int := -1
  updatedStack : List Int := []
  usedReg : List Int := []
  usedStack : List Int := []
  offset : Int := 0
  isCall : Bool := false
  isExit : Bool := false
deriving Repr, DecidableEq, Inhabited

/-- `InstructionAnalysis.ALU` (live version, alongside `calculateSizeBits`). -/
def analysisALU (opcode : Nat) (dst src : Int) : InstructionAnalysis :=
  let msb := opcode &&& 0xF0
  if msb = 0xd0 then -- ALU_END: byte exchange
    { updatedReg := dst, usedReg := [dst] }
  else if msb = 0xb0 then -- ALU_MOV
    if opcode &&& 0x08 = 0x08 then { updatedReg := dst, usedReg := [src] }
    else { updatedReg := dst }
  else -- regular arithmetic
    if opcode &&& 0x08 = 0x08 then { updatedReg := dst, usedReg := [dst, src] }
    else { updatedReg := dst, usedReg := [dst] }

/-- `InstructionAnalysis.JMP` (live version with the `opcode == 5` early
return and the per-helper-id call table). -/
def analysisJMP (opcode : Nat) (dst src : Int) (off : Int) (imm : Int) :
    InstructionAnalysis :=
  if opcode = 5 then { usedReg := [], offset := off }
  else
    let msb := opcode &&& 0xF0
    if msb = 0x80 then -- JMP_CALL
      if imm = 12 then -- tail call
        { usedReg := [1, 2, 3], usedStack := [0, 0] }
      else if imm = 1 ∨ imm = 3 ∨ imm = 23 ∨ imm = 44 then
        { usedReg := [1, 2], updatedReg := 0 }
      else if imm = 2 ∨ imm = 69 then
        { usedReg := [1, 2, 3, 4], updatedReg := 0 }
      else if imm = 4 ∨ imm = 51 then
        { usedReg := [1, 2, 3], updatedReg := 0 }
      else if imm = 5 ∨ imm = 7 ∨ imm = 8 then
        { updatedReg := 0 }
      else if imm = 9 ∨ imm = 10 ∨ imm = 11 then
        { usedReg := [1, 2, 3, 4, 5], updatedReg := 0 }
      else
        { usedReg := [1, 2, 3, 4, 5], updatedReg := 0, isCall := true }
    else if msb = 0x90 then -- JMP_EXIT
      { usedReg := [0], isExit := true }
    else -- conditional jump
      { usedReg := [dst, src], offset := off }

/-- `calculateSizeBits`: `2^((opcode & 0x18)/8 + 3)` bits (the float
computation in the source is exact on these four inputs). -/
def calculateSizeBits (opcode : Nat) : Int :=
  ((2 ^ ((opcode &&& 0x18) / 8 + 3) : Nat) : Int)

/-- `InstructionAnalysis.STX`. -/
def analysisSTX (opcode : Nat) (dst src : Int) (off : Int) : InstructionAnalysis :=
  let msb := opcode &&& 0xE0
  if msb = 0x60 ∨ msb = 0x80 ∨ msb = 0xc0 then -- MEM / MEMSX / ATOMIC
    if dst = 10 then
      { updatedStack := [off, calculateSizeBits opcode], usedReg := [src] }
    else
      { usedReg := [src] }
  else {}

/-- `InstructionAnalysis.ST`. -/
def analysisST (opcode : Nat) (dst : Int) (off : Int) : InstructionAnalysis :=
  let msb := opcode &&& 0xE0
  if msb = 0x60 ∨ msb = 0x80 ∨ msb = 0xc0 then
    if dst = 10 then { updatedStack := [off, calculateSizeBits opcode] }
    else {}
  else {}

/-- `InstructionAnalysis.LDX`. -/
def analysisLDX (opcode : Nat) (dst src : Int) (off : Int) : InstructionAnalysis :=
  let msb := opcode &&& 0xE0
  if msb = 0x60 ∨ msb = 0x80 then
    if src = 10 then
      { updatedReg := dst, usedStack := [off, calculateSizeBits opcode] }
    else
      { updatedReg := dst, usedReg := [src] }
  else {}

/-- `InstructionAnalysis.LD`. -/
def analysisLD (opcode : Nat) (dst src : Int) : InstructionAnalysis :=
  let msb := opcode &&& 0xE0
  if msb = 0x00 then { updatedReg := dst }
  else if msb = 0x20 ∨ msb = 0x40 then { updatedReg := dst, usedReg := [src] }
  else {}

/-- `analyzeInstruction`: dispatch on the instruction class (low 3 opcode
bits). -/
def analyzeInstruction (inst : Instruction) : InstructionAnalysis :=
  let opcode := inst.opcode
  let src : Int := (inst.srcReg : Int)
  let dst : Int := (inst.dstReg : Int)
  let lsb := opcode &&& 0x07
  if lsb = 0x07 ∨ lsb = 0x04 then analysisALU opcode dst src
  else if lsb = 0x06 ∨ lsb = 0x05 then analysisJMP opcode dst src inst.off inst.imm
  else if lsb = 0x03 then analysisSTX opcode dst src inst.off
  else if lsb = 0x02 then analysisST opcode dst inst.off
  else if lsb = 0x01 then analysisLDX opcode dst src inst.off
  else analysisLD opcode dst src

end BPFOpt

namespace BPFOpt

/-- Go map lookup (`v, exists := m[k]`) on an insertion-ordered
association list. -/
def mapGet {α : Type} (m : List (Int × α)) (k : Int) : Option α :=
  match m with
  | [] => none
  | (k', v) :: r => if k' = k then some v else mapGet r k

/-- Go map assignment `m[k] = v`: update in place, or append a new entry. -/
def mapSet {α : Type} (m : List (Int × α)) (k : Int) (v : α) : List (Int × α) :=
  match m with
  | [] => [(k, v)]
  | (k', v') :: r => if k' = k then (k, v) :: r else (k', v') :: mapSet r k v

/-- Go `delete(m, k)`. -/
def mapDelete {α : Type} (m : List (Int × α)) (k : Int) : List (Int × α) :=
  m.filter (fun p => p.1 ≠ k)

/-- Keys of a Go map, in insertion order. -/
def mapKeys {α : Type} (m : List (Int × α)) : List Int := m.map Prod.fst

/-- Membership in a Go `map[int]bool` set. -/
def doneHas (done : List Int) (k : Int) : Bool := done.contains k

/-- `done[k] = true` on a Go set. -/
def doneAdd (done : List Int) (k : Int) : List Int :=
  if done.contains k then done else done ++ [k]

/-- `delete(done, k)` on a Go set. -/
def doneRemove (done : List Int) (k : Int) : List Int := done.filter (· ≠ k)

/-- `removeDuplicates` (live order-preserving version used by the engine). -/
def removeDupAux : List Int → List Int → List Int
  | [], _ => []
  | x :: r, seen =>
    if seen.contains x then removeDupAux r seen else x :: removeDupAux r (x :: seen)

/-- Order-preserving duplicate removal (engine `removeDuplicates`). -/
def removeDuplicates (l : List Int) : List Int := removeDupAux l []

/-- Insertion into an ascending list. -/
def insertSorted (x : Int) : List Int → List Int
  | [] => [x]
  | y :: r => if x ≤ y then x :: y :: r else y :: insertSorted x r

/-- Ascending integer sort (`sort.Ints` / the engine's explicit
sort-by-offset loops). -/
def sortInts (l : List Int) : List Int := l.foldr insertSorted []

/-- Go slice read `l[i]`; `none` models the runtime panic on an
out-of-range index. -/
def getIdx {α : Type} (l : List α) (i : Int) : Option α :=
  if i < 0 then none else l.get? i.toNat

/-- Go slice write `l[i] = v`; `none` models the runtime panic. -/
def setIdx {α : Type} (l : List α) (i : Int) (v : α) : Option (List α) :=
  if i < 0 ∨ (l.length : Int) ≤ i then none else some (l.set i.toNat v)

/-- In-place update of one list element (used where the Go index is known
in range by construction). -/
def listModify {α : Type} (l : List α) (i : Nat) (f : α → α) : List α :=
  match l, i with
  | [], _ => []
  | x :: r, 0 => f x :: r
  | x :: r, n + 1 => x :: listModify r n f

/-- Abstract data-flow value (optimizer `RegisterState`). -/
structure RegisterState where
  registers : List (List Int)
  stackMap : List (Int × List Int)
  regAlias : List Int
deriving Repr, DecidableEq, Inhabited

/-- `NewRegisterState`: 11 empty register sets, empty stack map, all
aliases `-1`. -/
def newRegisterState : RegisterState :=
  { registers := List.replicate 11 [], stackMap := [],
    regAlias := List.replicate 11 (-1) }

/-- Per-instruction dependency record (optimizer `DependencyInfo`). -/
structure DependencyInfo where
  dependencies : List Int := []
  dependedBy : List Int := []
deriving Repr, DecidableEq, Inhabited

/-- A BPF code section (optimizer `Section`): instructions plus the two
parallel dependency arrays. -/
structure Section where
  instructions : List Instruction
  dependencies : List DependencyInfo
deriving Repr, DecidableEq, Inhabited

/-- `s.Dependencies[i].Dependencies = append(..., d)`. -/
def depsAppendDep (s : Section) (i : Int) (d : Int) : Section :=
  if i < 0 then s else
  let f : DependencyInfo → DependencyInfo :=
    fun di => { di with dependencies := di.dependencies ++ [d] }
  { s with dependencies := listModify s.dependencies i.toNat f }

/-- `s.Dependencies[i].DependedBy = append(..., d)`. -/
def depsAppendBy (s : Section) (i : Int) (d : Int) : Section :=
  if i < 0 then s else
  let f : DependencyInfo → DependencyInfo :=
    fun di => { di with dependedBy := di.dependedBy ++ [d] }
  { s with dependencies := listModify s.dependencies i.toNat f }

/-- optimizer `(*Section).FoundDependency`. -/
def FoundDependency (s : Section) (instIdx : Int) (depInstIdx : Int) : Bool :=
  if instIdx < 0 then false else
  ((s.dependencies.getD instIdx.toNat {}).dependencies).contains depInstIdx

/-- optimizer `(*Section).FoundDependedBy`. -/
def FoundDependedBy (s : Section) (instIdx : Int) (depInstIdx : Int) : Bool :=
  if instIdx < 0 then false else
  ((s.dependencies.getD instIdx.toNat {}).dependedBy).contains depInstIdx

/-- `calculateActualIndex`: Python-style negative index resolution. -/
def calculateActualIndex (index : Int) (arrayLength : Nat) : Int :=
  if index < 0 then (arrayLength : Int) + index else index

end BPFOpt

namespace BPFOpt

/-- The alias-tracking update performed for one used register
(`ProcessUsedRegisters` lines before the dependency loop): reading r10
installs alias 0 for the destination, an `ALU64` immediate add (opcode
`0x07`) advances a known alias, and any other non-call instruction clears
it.  `none` models the panic on `RegAlias[inst.DstReg]` when the dst
nibble exceeds 10. -/
def purAliasUpdate (regIdx : Int) (inst : Instruction) (state : RegisterState) :
    Option RegisterState :=
  if regIdx = 10 then
    (setIdx state.regAlias (inst.dstReg : Int) 0).map
      (fun ra => { state with regAlias := ra })
  else
    match getIdx state.regAlias (inst.dstReg : Int) with
    | none => none
    | some a =>
      if a ≠ -1 ∧ inst.opcode = 0x07 then
        (setIdx state.regAlias (inst.dstReg : Int) (wrap16 (a + wrap16 inst.imm))).map
          (fun ra => { state with regAlias := ra })
      else if inst.opcode ≠ 0x85 then
        (setIdx state.regAlias (inst.dstReg : Int) (-1)).map
          (fun ra => { state with regAlias := ra })
      else some state

/-- The stack-alias edge insertion of `ProcessUsedRegisters` (executed when
the used register has a concrete nonzero frame alias): every recorded
writer of the aliased slot becomes a dependency; a missing slot is
initialised to the `-1` sentinel. -/
def purAliasStack (s : Section) (instIdx : Int) (al : Int)
    (state : RegisterState) : Section × RegisterState :=
  match mapGet state.stackMap al with
  | some stackInsts =>
    (stackInsts.foldl
      (fun acc stackInstIdx =>
        let acc := depsAppendDep acc instIdx stackInstIdx
        let ai := calculateActualIndex stackInstIdx acc.dependencies.length
        if 0 ≤ ai ∧ ai < (acc.dependencies.length : Int) then
          depsAppendBy acc ai instIdx
        else acc) s,
     state)
  | none =>
    (depsAppendDep s instIdx (-1),
     { state with stackMap := mapSet state.stackMap al [-1] })

/-- Body of the inner dependency loop of `ProcessUsedRegisters`, for one
recorded writer `dep` of used register `regIdx`. -/
def purOneDep (s : Section) (instIdx regIdx dep : Int) (state : RegisterState) :
    Section × RegisterState :=
  let al := (getIdx state.regAlias regIdx).getD (-1)
  let p :=
    if al ≠ -1 ∧ al ≠ 0 then purAliasStack s instIdx al state else (s, state)
  let s1 :=
    if FoundDependency p.1 instIdx dep then p.1
    else
      let s2 := depsAppendDep p.1 instIdx dep
      let adi := calculateActualIndex dep s2.dependencies.length
      if 0 ≤ adi ∧ adi < (s2.dependencies.length : Int) then
        if FoundDependedBy s2 adi instIdx then s2 else depsAppendBy s2 adi instIdx
      else s2
  (s1, p.2)

/-- Body of the outer loop of `ProcessUsedRegisters`, for one used
register index. -/
def purOneReg (s : Section) (instIdx : Int) (regIdx : Int) (inst : Instruction)
    (state : RegisterState) : Option (Section × RegisterState) :=
  if regIdx < 0 ∨ 11 ≤ regIdx then some (s, state)
  else
    match purAliasUpdate regIdx inst state with
    | none => none
    | some state =>
      let regList := (getIdx state.registers regIdx).getD []
      if regList.length = 0 then some (s, state)
      else
        some (regList.foldl
          (fun acc dep => purOneDep acc.1 instIdx regIdx dep acc.2) (s, state))

/-- optimizer `(*Section).ProcessUsedRegisters`. -/
def ProcessUsedRegisters (s : Section) (instIdx : Int)
    (analysis : InstructionAnalysis) (inst : Instruction)
    (state : RegisterState) : Option (Section × RegisterState) :=
  analysis.usedReg.foldlM
    (fun acc regIdx => purOneReg acc.1 instIdx regIdx inst acc.2) (s, state)

/-- One recorded stack writer processed by the tail-call branch of
`ProcessUsedStack` (sentinel skipped, bounds checked, both edge
directions inserted if absent). -/
def pusTailOne (s : Section) (instIdx : Int) (stackInstIdx : Int) : Section :=
  if stackInstIdx = -1 then s
  else if 0 ≤ stackInstIdx ∧ stackInstIdx < (s.dependencies.length : Int) then
    let s :=
      if FoundDependency s instIdx stackInstIdx then s
      else depsAppendDep s instIdx stackInstIdx
    if FoundDependedBy s stackInstIdx instIdx then s
    else depsAppendBy s stackInstIdx instIdx
  else s

/-- One recorded stack writer processed by the single-offset branch of
`ProcessUsedStack`. -/
def pusNonTailOne (s : Section) (instIdx : Int) (stackInstIdx : Int) : Section :=
  let s :=
    if FoundDependency s instIdx stackInstIdx then s
    else depsAppendDep s instIdx stackInstIdx
  let ai := calculateActualIndex stackInstIdx s.dependencies.length
  if 0 ≤ ai ∧ ai < (s.dependencies.length : Int) then
    if FoundDependedBy s ai instIdx then s else depsAppendBy s ai instIdx
  else s

/-- optimizer `(*Section).ProcessUsedStack`: offset 0 is the tail-call
convention and walks every stack slot in ascending offset order; any other
offset reads its single slot, initialising an absent slot to the `-1`
sentinel. -/
def ProcessUsedStack (s : Section) (instIdx : Int)
    (analysis : InstructionAnalysis) (state : RegisterState) :
    Section × RegisterState :=
  if analysis.usedStack.length < 2 then (s, state)
  else
    let offset := analysis.usedStack.getD 0 0
    if offset = 0 then
      let stackOffsets := sortInts (mapKeys state.stackMap)
      (stackOffsets.foldl
        (fun acc off =>
          ((mapGet state.stackMap off).getD []).foldl
            (fun acc2 stackInstIdx => pusTailOne acc2 instIdx stackInstIdx) acc)
        s,
       state)
    else
      match mapGet state.stackMap offset with
      | some stackInsts =>
        (stackInsts.foldl
          (fun acc stackInstIdx => pusNonTailOne acc instIdx stackInstIdx) s,
         state)
      | none =>
        (depsAppendDep s instIdx (-1),
         { state with stackMap := mapSet state.stackMap offset [-1] })

/-- Clearing of the caller-saved registers r1..r5 after a call. -/
def clearCallerSaved (state : RegisterState) : RegisterState :=
  let r1 := listModify state.registers 1 (fun _ => [])
  let r2 := listModify r1 2 (fun _ => [])
  let r3 := listModify r2 3 (fun _ => [])
  let r4 := listModify r3 4 (fun _ => [])
  let r5 := listModify r4 5 (fun _ => [])
  { state with registers := r5 }

end BPFOpt

namespace BPFOpt

/-- The body of the `BuildRegisterDependencies` loop for one instruction:
alias reset, used-register processing, register/stack state update,
call clobber, stack usage, and exit bookkeeping.  `nodesRevLen` is
`len(cfg.NodesRev)`. -/
def buildRegStep (s : Section) (state : RegisterState) (done : List Int)
    (shouldRet : Bool) (nodesRevLen : Nat) (base instIdx : Int)
    (inst : Instruction) : Option (Section × RegisterState × List Int × Bool) :=
  if inst.opcode = 0 then some (s, state, done, shouldRet)
  else
    let analysis := analyzeInstruction inst
    match
      (if inst.opcode ≠ 0xBF ∧ inst.opcode ≠ 0x07 then
        (setIdx state.regAlias (inst.dstReg : Int) (-1)).map
          (fun ra => { state with regAlias := ra })
      else some state) with
    | none => none
    | some state =>
    match ProcessUsedRegisters s instIdx analysis inst state with
    | none => none
    | some (s, state) =>
    match
      (if 0 ≤ analysis.updatedReg then
        (setIdx state.registers analysis.updatedReg [instIdx]).map
          (fun r => { state with registers := r })
      else some state) with
    | none => none
    | some state =>
    let state := if analysis.isCall then clearCallerSaved state else state
    let state :=
      if 2 ≤ analysis.updatedStack.length then
        let sm := mapSet state.stackMap (analysis.updatedStack.getD 0 0) [instIdx]
        { state with stackMap := sm }
      else state
    let ps := ProcessUsedStack s instIdx analysis state
    let p : List Int × Bool :=
      if analysis.isExit then
        let done' := doneAdd done base
        (done', shouldRet || decide (nodesRevLen ≤ done'.length))
      else (done, shouldRet)
    some (ps.1, ps.2, p.1, p.2)

/-- The instruction loop of `BuildRegisterDependencies`: `rem` iterations
remain, the next instruction index is `base + i`; the loop breaks when the
index passes the end of the section. -/
def BRDLoop (nodesRevLen : Nat) (base : Int) :
    Nat → Nat → Section → RegisterState → List Int → Bool →
    Option (Section × RegisterState × List Int × Bool)
  | 0, _, s, state, done, shouldRet => some (s, state, done, shouldRet)
  | rem + 1, i, s, state, done, shouldRet =>
    let instIdx : Int := base + (i : Int)
    if (s.instructions.length : Int) ≤ instIdx then some (s, state, done, shouldRet)
    else
      match getIdx s.instructions instIdx with
      | none => none
      | some inst =>
        match buildRegStep s state done shouldRet nodesRevLen base instIdx inst with
        | none => none
        | some (s, state, done, shouldRet) =>
          BRDLoop nodesRevLen base rem (i + 1) s state done shouldRet

/-- optimizer `(*Section).BuildRegisterDependencies` (its boolean result is
discarded by the live caller but still computed). -/
def BuildRegisterDependencies (s : Section) (nodesRevLen : Nat)
    (nodeLen : Int) (base : Int) (state : RegisterState) (done : List Int) :
    Option (Section × RegisterState × List Int × Bool) :=
  BRDLoop nodesRevLen base nodeLen.toNat 0 s state done false

end BPFOpt

namespace BPFOpt

/-- optimizer `ControlFlowGraph`. -/
structure ControlFlowGraph where
  nodes : List (Int × List Int)
  nodesRev : List (Int × List Int)
  nodesLen : List (Int × Int)
  nodeStats : List (Int × RegisterState)
deriving Repr, DecidableEq, Inhabited

/-- Forward-edge construction (`buildInstructionNode`): scan for
branch/exit instructions, maintaining the current block start. -/
def buildNodeLoop (insts : List Instruction) (i : Int) (currentNode : Int)
    (nodes : List (Int × List Int)) : List (Int × List Int) :=
  match insts with
  | [] => nodes
  | inst :: rest =>
    let opcode := inst.opcode
    if opcode &&& 0x07 ≠ 0x05 ∧ opcode &&& 0x07 ≠ 0x06 then
      buildNodeLoop rest (i + 1) currentNode nodes
    else
      let off := inst.off
      let msb := opcode &&& 0xF0
      if msb = 0x80 then buildNodeLoop rest (i + 1) currentNode nodes
      else
        let nodes :=
          if msb = 0x90 then mapSet nodes currentNode []
          else if opcode = 5 then
            let jumpTarget := i + off + 1
            if 0 ≤ jumpTarget then mapSet nodes currentNode [jumpTarget]
            else mapSet nodes currentNode []
          else
            let jumpTarget := i + off + 1
            let fallThrough := i + 1
            let succ := (if 0 ≤ jumpTarget then [jumpTarget] else []) ++
                        (if 0 ≤ fallThrough then [fallThrough] else [])
            mapSet (mapSet nodes currentNode [i]) i succ
        buildNodeLoop rest (i + 1) (i + 1) nodes

/-- `buildInstructionNode`. -/
def buildInstructionNode (insts : List Instruction) : List (Int × List Int) :=
  buildNodeLoop insts 0 0 []

/-- `buildInstructionNodeReverse`: invert the forward map (in forward-map
iteration order; a nonzero forward key gets an empty entry first). -/
def buildInstructionNodeReverse (nodes : List (Int × List Int)) :
    List (Int × List Int) :=
  nodes.foldl
    (fun rev p =>
      let rev :=
        if p.1 ≠ 0 ∧ (mapGet rev p.1).isNone then mapSet rev p.1 [] else rev
      p.2.foldl
        (fun rev succ => mapSet rev succ ((mapGet rev succ).getD [] ++ [p.1]))
        rev)
    []

/-- Adjacent-difference fold assigning block lengths from the sorted list
of block starts (auxiliary carrying the previous element). -/
def adjacentLenFoldAux (x : Int) : List Int → List (Int × Int) → List (Int × Int)
  | [], m => m
  | y :: r, m => adjacentLenFoldAux y r (mapSet m x (y - x))

/-- Adjacent-difference fold assigning block lengths from the sorted list
of block starts. -/
def adjacentLenFold : List Int → List (Int × Int) → List (Int × Int)
  | [], m => m
  | x :: r, m => adjacentLenFoldAux x r m

/-- `buildInstructionNodeLength`: block lengths from sorted starts, then a
fresh empty reverse map over all starts except the virtual end node. -/
def buildInstructionNodeLength (instLen : Nat)
    (nodesRev : List (Int × List Int)) :
    List (Int × Int) × List (Int × List Int) :=
  let allNodes := sortInts (mapKeys nodesRev ++ [0, (instLen : Int)])
  let nodesLen := adjacentLenFold allNodes []
  let fresh := (allNodes.dropLast).foldl (fun m node => mapSet m node []) []
  (nodesLen, mapDelete fresh (instLen : Int))

/-- Inner instruction scan of `rebuildInstructionNodeRev` for one block. -/
def rebuildRevInner (insts : List Instruction) (node : Int) (nodeLen : Int) :
    Nat → Nat → List (Int × List Int) → List (Int × List Int)
  | 0, _, rev => rev
  | rem + 1, i, rev =>
    let instIdx : Int := node + (i : Int)
    if (insts.length : Int) ≤ instIdx then rev
    else
      let inst := (getIdx insts instIdx).getD deadInstruction
      let opcode := inst.opcode
      let off := inst.off
      let msb := opcode &&& 0xF0
      if opcode &&& 0x07 = 0x05 ∨ opcode &&& 0x07 = 0x06 then
        if msb = 0x80 then
          -- calls: no control-flow edge, but block-end fall-through applies
          let rev :=
            if (i : Int) = nodeLen - 1 ∧ node + nodeLen < (insts.length : Int) then
              match mapGet rev (node + nodeLen) with
              | some l => mapSet rev (node + nodeLen) (l ++ [node])
              | none => rev
            else rev
          rebuildRevInner insts node nodeLen rem (i + 1) rev
        else if msb = 0x90 then
          rebuildRevInner insts node nodeLen rem (i + 1) rev
        else if opcode = 0x05 then
          let jumpTarget := instIdx + off + 1
          let rev :=
            if 0 ≤ jumpTarget ∧ jumpTarget < (insts.length : Int) then
              match mapGet rev jumpTarget with
              | some l => mapSet rev jumpTarget (l ++ [node])
              | none => rev
            else rev
          rebuildRevInner insts node nodeLen rem (i + 1) rev
        else
          let jumpTarget := instIdx + off + 1
          let fallThrough := instIdx + 1
          let rev :=
            if 0 ≤ jumpTarget ∧ jumpTarget < (insts.length : Int) then
              match mapGet rev jumpTarget with
              | some l => mapSet rev jumpTarget (l ++ [instIdx])
              | none => rev
            else rev
          let rev :=
            if 0 ≤ fallThrough ∧ fallThrough < (insts.length : Int) then
              match mapGet rev fallThrough with
              | some l => mapSet rev fallThrough (l ++ [instIdx])
              | none => rev
            else rev
          rebuildRevInner insts node nodeLen rem (i + 1) rev
      else
        let rev :=
          if (i : Int) = nodeLen - 1 ∧ node + nodeLen < (insts.length : Int) then
            match mapGet rev (node + nodeLen) with
            | some l => mapSet rev (node + nodeLen) (l ++ [node])
            | none => rev
          else rev
        rebuildRevInner insts node nodeLen rem (i + 1) rev

/-- `rebuildInstructionNodeRev`: walk every block (ascending start order)
and append the producing block / branch index to each target's
predecessor list. -/
def rebuildInstructionNodeRev (insts : List Instruction)
    (nodesLen : List (Int × Int)) (nodesRev : List (Int × List Int)) :
    List (Int × List Int) :=
  (sortInts (mapKeys nodesLen)).foldl
    (fun rev node =>
      let nodeLen := (mapGet nodesLen node).getD 0
      rebuildRevInner insts node nodeLen nodeLen.toNat 0 rev)
    nodesRev

/-- `updateInstructionNode`: reconcile the forward map with the rebuilt
reverse map and sort each predecessor list. -/
def updateInstructionNode (nodes nodesRev : List (Int × List Int)) :
    List (Int × List Int) × List (Int × List Int) :=
  nodesRev.foldl
    (fun acc p =>
      let (nodes, rev) := acc
      let nodes :=
        if (mapGet nodes p.1).isNone then mapSet nodes p.1 [] else nodes
      let nodes := p.2.foldl
        (fun nodes source =>
          let succs := (mapGet nodes source).getD []
          if succs.contains p.1 then nodes
          else mapSet nodes source (succs ++ [p.1]))
        nodes
      (nodes, mapSet rev p.1 (sortInts p.2)))
    (nodes, nodesRev)

/-- `(*Section).buildControlFlowGraph`: the two-phase CFG construction. -/
def buildControlFlowGraph (insts : List Instruction) : ControlFlowGraph :=
  let nodes := buildInstructionNode insts
  let rev0 := buildInstructionNodeReverse nodes
  let (nodesLen, rev1) := buildInstructionNodeLength insts.length rev0
  let rev2 := rebuildInstructionNodeRev insts nodesLen rev1
  let (nodes', rev3) := updateInstructionNode nodes rev2
  { nodes := nodes', nodesRev := rev3, nodesLen := nodesLen, nodeStats := [] }

end BPFOpt

namespace BPFOpt

/-- `MergeRegisterStates`: register-wise union with order-preserving
dedup; stack maps merged per offset; aliases reset to the fresh state's. -/
def MergeRegisterStates (states : List RegisterState) : RegisterState :=
  if states.length = 0 then newRegisterState
  else
    let regs := (List.range 11).map
      (fun i => removeDuplicates
        (states.foldl (fun acc st => acc ++ (st.registers.getD i [])) []))
    let sm := states.foldl
      (fun m st =>
        st.stackMap.foldl
          (fun m p =>
            match mapGet m p.1 with
            | some existing => mapSet m p.1 (removeDuplicates (existing ++ p.2))
            | none => mapSet m p.1 p.2)
          m)
      []
    { registers := regs, stackMap := sm, regAlias := newRegisterState.regAlias }

/-- `intSlicesEqual`: length-sensitive unordered comparison. -/
def intSlicesEqual (a b : List Int) : Bool :=
  if a.length ≠ b.length then false
  else
    let sa := removeDuplicates a
    let sb := removeDuplicates b
    if sa.length ≠ sb.length then false
    else sa.all (fun x => sb.contains x)

/-- `(*RegisterState).IsEqual`. -/
def isEqualRS (rs other : RegisterState) : Bool :=
  ((List.range 11).all
    (fun i => intSlicesEqual (rs.registers.getD i []) (other.registers.getD i []))) &&
  (rs.stackMap.length = other.stackMap.length) &&
  rs.stackMap.all
    (fun p =>
      match mapGet other.stackMap p.1 with
      | some ol => intSlicesEqual p.2 ol
      | none => false)

/-- Scan of one block for a `0x95` (EXIT) opcode, as in `findNextNode`'s
in-loop exclusion. -/
def exitScan (insts : List Instruction) (node : Int) : Nat → Nat → Bool
  | 0, _ => false
  | rem + 1, i =>
    let instIdx : Int := node + (i : Int)
    if instIdx < (insts.length : Int) then
      if ((getIdx insts instIdx).getD deadInstruction).opcode = 0x95 then true
      else exitScan insts node rem (i + 1)
    else exitScan insts node rem (i + 1)

/-- Whether a block contains an EXIT instruction (per its recorded
length); blocks without a recorded length are not skipped. -/
def containsExitBlock (insts : List Instruction) (nodesLen : List (Int × Int))
    (node : Int) : Bool :=
  match mapGet nodesLen node with
  | none => false
  | some nodeLen => exitScan insts node nodeLen.toNat 0

/-- optimizer `(*Section).findNextNode`: scan all reverse-map keys in
ascending order and keep overwriting the result with every ready block
(the source's `break` is commented out), merging the predecessors'
recorded states. -/
def findNextNode (s : Section) (cfg : ControlFlowGraph) (done : List Int)
    (loopNonNil : Bool) : Int × Option RegisterState :=
  (sortInts (mapKeys cfg.nodesRev)).foldl
    (fun acc node =>
      if done.contains node then acc
      else if loopNonNil && containsExitBlock s.instructions cfg.nodesLen node then acc
      else
        let preds := (mapGet cfg.nodesRev node).getD []
        if preds.all (fun p => done.contains p) then
          let predStates := preds.filterMap (fun p => mapGet cfg.nodeStats p)
          (node, some (MergeRegisterStates predStates))
        else acc)
    (0, none)

/-- One active-loop record (optimizer `LoopInfo`, parent pointer modelled
by list nesting). -/
structure LoopFrame where
  head : Int
  processed : List Int
  waiting : List Int
deriving Repr, DecidableEq, Inhabited

/-- `(*Section).detectLoop` (Python `get_loop`): bounded DFS from `start`
back to `stop`, threading the shared `visited` set. -/
def detectLoop : Nat → Int → Int → List (Int × List Int) → List Int →
    (List Int × List Int)
  | 0, _, _, _, visited => ([-1], visited)
  | fuel + 1, start, stop, nodes, visited =>
    match mapGet nodes start with
    | none => ([-1], visited)
    | some succs =>
      if succs.length = 0 then ([-1], visited)
      else if succs.contains stop then ([], visited)
      else
        let r := succs.foldl
          (fun acc succ =>
            let (path, found, visited) := acc
            if visited.contains succ then acc
            else
              let visited := doneAdd visited succ
              let (subPath, visited) := detectLoop fuel succ stop nodes visited
              if (0 < subPath.length ∧ ¬ subPath.contains (-1)) ∨
                  subPath.length = 0 then
                (path ++ subPath, true, visited)
              else (path, found, visited))
          ([start], false, visited)
        if ¬ r.2.1 then ([-1], r.2.2)
        else (removeDuplicates r.1, r.2.2)

/-- Candidate collection of `findLoopCandidates`: not-yet-done successors
of completed blocks, in the enumeration order of the done set. -/
def collectLoopCandidates (nodes : List (Int × List Int)) (done : List Int) :
    List Int :=
  done.foldl
    (fun cands doneNode =>
      match mapGet nodes doneNode with
      | some succs =>
        succs.foldl
          (fun cands succ =>
            if done.contains succ then cands else doneAdd cands succ)
          cands
      | none => cands)
    []

/-- The candidate scan of `findLoopCandidates`, parameterised by the
enumeration order of the candidate set (a Go map, whose iteration order
is unspecified): the first enumerated candidate with a cycle back to
itself is chosen. -/
def findLoopCandidatesFrom (fuel : Nat) (nodes : List (Int × List Int)) :
    List Int → Int
  | [] => 0
  | c :: r =>
    let loopPath := (detectLoop fuel c c nodes []).1
    if 0 < loopPath.length ∧ ¬ loopPath.contains (-1) then c
    else findLoopCandidatesFrom fuel nodes r

/-- `(*Section).findLoopCandidates`, with the candidate set enumerated in
its insertion order (one deterministic refinement of the Go map order). -/
def findLoopCandidates (fuel : Nat) (cfg : ControlFlowGraph)
    (done : List Int) : Int :=
  findLoopCandidatesFrom fuel cfg.nodes (collectLoopCandidates cfg.nodes done)

/-- `buildLoopState`: merge the recorded states of the loop head's
predecessors. -/
def buildLoopState (cfg : ControlFlowGraph) (loopHead : Int) : RegisterState :=
  let preds := (mapGet cfg.nodesRev loopHead).getD []
  MergeRegisterStates (preds.filterMap (fun p => mapGet cfg.nodeStats p))

end BPFOpt

namespace BPFOpt

/-- Fuel bound for the bounded DFS of `detectLoop` (recursion depth in the
source is bounded by the visited set; any bound at least the total CFG
size is exact). -/
def cfgSize (nodes : List (Int × List Int)) : Nat :=
  nodes.foldl (fun a p => a + 1 + p.2.length) 0

/-- A pending engine step: `main` is the body of the source’s
`updateDependencies`, `cont` its continuation after the loop-context
handling (from `loopInfo.Processed[base] = true` to the end).  A single
fuel-indexed function keeps the recursion structural. -/
inductive EngineStep where
  | main (base : Int) (state : RegisterState) (loops : List LoopFrame)
      (inferOnly : Bool)
  | cont (base : Int) (state : RegisterState) (loops : List LoopFrame)

/-- The recursive engine shared by `updateDependencies` and its
continuation; every recursive call consumes one unit of fuel (the source
recursion carries no bound). -/
def updEngine : Nat → Section → ControlFlowGraph → List Int → EngineStep →
    Option (Section × ControlFlowGraph × List Int × RegisterState)
  | 0, _, _, _, _ => none
  | fuel + 1, s, cfg, done, EngineStep.main base state loops inferOnly =>
    (match mapGet cfg.nodesLen base with
    | none => some (s, cfg, done, state)
    | some nodeLen =>
      match BuildRegisterDependencies s cfg.nodesRev.length nodeLen base state done with
      | none => none
      | some (s, state, done, _) =>
        let cfg := { cfg with nodeStats := mapSet cfg.nodeStats base state }
        if inferOnly then some (s, cfg, done, state)
        else
          let done := doneAdd done base
          match loops with
          | frame :: parents =>
            let predecessors :=
              removeDuplicates ((mapGet cfg.nodesRev frame.head).getD [])
            if predecessors.all (fun p => done.contains p) then
              let predStates :=
                predecessors.filterMap (fun p => mapGet cfg.nodeStats p)
              let mergedState := MergeRegisterStates predStates
              match updEngine fuel s cfg done
                  (EngineStep.main frame.head mergedState (frame :: parents) true) with
              | none => none
              | some (s, cfg, done, simulatedState) =>
                let continueLoop : Bool :=
                  match mapGet cfg.nodeStats frame.head with
                  | some hs => ! isEqualRS simulatedState hs
                  | none => true
                if continueLoop then
                  let cfg :=
                    { cfg with nodeStats := mapSet cfg.nodeStats frame.head mergedState }
                  let done := frame.processed.foldl doneRemove done
                  let done := frame.waiting.foldl doneRemove done
                  let frame := { frame with processed := [], waiting := [] }
                  updEngine fuel s cfg done
                    (EngineStep.main frame.head mergedState (frame :: parents) false)
                else
                  let parentsUpd :=
                    match parents with
                    | p :: rest =>
                      { p with waiting := doneRemove p.waiting frame.head } :: rest
                    | [] => []
                  let done := doneAdd done frame.head
                  match parentsUpd with
                  | _ :: _ =>
                    updEngine fuel s cfg done
                      (EngineStep.main base state parentsUpd inferOnly)
                  | [] =>
                    updEngine fuel s cfg done
                      (EngineStep.cont base state (frame :: parents))
            else
              let frame := { frame with waiting := doneAdd frame.waiting base }
              updEngine fuel s cfg done
                (EngineStep.cont base state (frame :: parents))
          | [] => updEngine fuel s cfg done (EngineStep.cont base state []))
  | fuel + 1, s, cfg, done, EngineStep.cont base state loops =>
    let loops :=
      match loops with
      | frame :: parents =>
        { frame with processed := doneAdd frame.processed base } :: parents
      | [] => []
    let r := findNextNode s cfg done (¬ loops.isEmpty)
    let newBase := r.1
    let newStateOpt := r.2.map (fun ns => { ns with regAlias := state.regAlias })
    if newBase = 0 then
      let loopHead := findLoopCandidates (cfgSize cfg.nodes + 1) cfg done
      if loopHead ≠ 0 then
        let newLoops :=
          ({ head := loopHead, processed := [], waiting := [] } : LoopFrame) :: loops
        let loopState := buildLoopState cfg loopHead
        updEngine fuel s cfg done (EngineStep.main loopHead loopState newLoops false)
      else some (s, cfg, done, state)
    else if newBase ≠ base then
      match newStateOpt with
      | some ns => updEngine fuel s cfg done (EngineStep.main newBase ns loops false)
      | none => none
    else some (s, cfg, done, state)

/-- optimizer `(*Section).updateDependencies` (live version), as the
`main` entry of the fuel-indexed engine. -/
def updateDependencies (fuel : Nat) (s : Section) (cfg : ControlFlowGraph)
    (done : List Int) (base : Int) (state : RegisterState)
    (loops : List LoopFrame) (inferOnly : Bool) :
    Option (Section × ControlFlowGraph × List Int × RegisterState) :=
  updEngine fuel s cfg done (EngineStep.main base state loops inferOnly)

/-- Initial abstract state of `buildDependencies`: r1 and r10 carry the
`-1` entry sentinel. -/
def initialRegisterState : RegisterState :=
  let r1 := listModify newRegisterState.registers 1 (fun _ => [-1])
  let r10 := listModify r1 10 (fun _ => [-1])
  { newRegisterState with registers := r10 }

/-- `(*Section).buildDependencies`: CFG construction followed by the
data-flow traversal from block 0. -/
def buildDependencies (fuel : Nat) (s : Section) :
    Option (Section × ControlFlowGraph) :=
  let cfg := buildControlFlowGraph s.instructions
  match updateDependencies fuel s cfg [] 0 initialRegisterState [] false with
  | none => none
  | some (s, cfg, _, _) => some (s, cfg)

end BPFOpt

namespace BPFOpt

/-- `isMaskPattern`'s binary formatting (`fmt.Sprintf("%b", val)`), core
for nonzero values: most-significant bit first, no leading zeros.  The
fuel bounds the digit count; 64 suffices for every 64-bit value. -/
def natToBinAux : Nat → Nat → List Char
  | 0, _ => []
  | fuel + 1, n =>
    if n = 0 then []
    else natToBinAux fuel (n / 2) ++ [if n % 2 = 1 then '1' else '0']

/-- `fmt.Sprintf("%b", val)` (zero formats as `"0"`). -/
def natToBin (n : Nat) : List Char :=
  if n = 0 then ['0'] else natToBinAux 64 n

/-- The character scan of `isMaskPattern`: reject a `'1'` after any
`'0'`. -/
def maskScan : List Char → Bool → Bool
  | [], _ => true
  | c :: rest, inZeros =>
    if c = '0' then maskScan rest true
    else if inZeros ∧ c = '1' then false
    else maskScan rest inZeros

/-- optimizer `isMaskPattern`: parse the hex string as a 64-bit unsigned
value; its binary string must have no `'1'` after a `'0'` and contain at
least one `'1'`. -/
def isMaskPattern (hexStr : List Char) : Bool :=
  match parseUint hexStr 64 with
  | none => false
  | some val => maskScan (natToBin val) false && (natToBin val).contains '1'

/-- The `canPropagate` check of `applyConstantPropagation` for one
dependent instruction. -/
def cpDepOk (s : Section) (depIdx : Int) : Bool :=
  let depInst := (getIdx s.instructions depIdx).getD deadInstruction
  instructionClass depInst = 0x03 ∧
  (s.dependencies.getD depIdx.toNat {}).dependencies.length = 1 ∧
  depInst.opcode ≠ 0xDB ∧ depInst.opcode ≠ 0xC3

/-- Rewrite of one dependent store by `applyConstantPropagation`:
same-size immediate store with the candidate MOV's immediate bytes. -/
def cpApplyDep (candRaw : List Char) (s : Section) (depIdx : Int) : Section :=
  let depInst := (getIdx s.instructions depIdx).getD deadInstruction
  let newOpcode := (depInst.opcode &&& 0xF8) ||| 0x02
  let newHex := hex2 newOpcode ++ ['0'] ++ sub depInst.raw 3 8 ++ (candRaw.drop 8)
  let newInst := (newInstruction newHex).getD deadInstruction
  let s :=
    if 0 ≤ depIdx then
      let insts := listModify s.instructions depIdx.toNat (fun _ => newInst)
      let deps := listModify s.dependencies depIdx.toNat
        (fun d => { d with dependencies := [] })
      { s with instructions := insts, dependencies := deps }
    else s
  s

/-- Application of one constant-propagation candidate. -/
def cpApplyCand (s : Section) (candIdx : Nat) : Section :=
  let inst := s.instructions.getD candIdx deadInstruction
  let s := ((s.dependencies.getD candIdx {}).dependedBy).foldl
    (fun s depIdx => cpApplyDep inst.raw s depIdx) s
  let insts := listModify s.instructions candIdx (fun _ => setAsNOP)
  let deps := listModify s.dependencies candIdx (fun d => { d with dependedBy := [] })
  { s with instructions := insts, dependencies := deps }

/-- optimizer `(*Section).applyConstantPropagation`. -/
def applyConstantPropagation (s : Section) : Section :=
  let candidates := (List.range s.instructions.length).filter
    (fun i =>
      let inst := s.instructions.getD i deadInstruction
      (inst.opcode = 0xB7 ∨ inst.opcode = 0xB4) ∧
      ((s.dependencies.getD i {}).dependedBy).all (fun depIdx => cpDepOk s depIdx))
  candidates.foldl cpApplyCand s

/-- Candidate condition of `applyCompaction` for the pair `(i, i+1)`
(note: the live source does not compare the two dst registers). -/
def compactionCond (insts : List Instruction) (i : Nat) : Bool :=
  let inst1 := insts.getD i deadInstruction
  let inst2 := insts.getD (i + 1) deadInstruction
  inst1.opcode = 0x67 ∧ inst2.opcode = 0x77 ∧
  inst1.raw.drop 8 = "20000000".toList ∧ inst2.raw.drop 8 = "20000000".toList

/-- optimizer `(*Section).applyCompaction`. -/
def applyCompaction (s : Section) : Section :=
  let candidates := (List.range (s.instructions.length - 1)).filter
    (fun i => compactionCond s.instructions i)
  candidates.foldl
    (fun s candIdx =>
      let targetReg := sub (s.instructions.getD candIdx deadInstruction).raw 3 4
      let newHex := "bc".toList ++ targetReg ++ targetReg ++ "000000000000".toList
      let newInst := (newInstruction newHex).getD deadInstruction
      let insts := listModify s.instructions candIdx (fun _ => newInst)
      let insts := listModify insts (candIdx + 1) (fun _ => setAsNOP)
      { s with instructions := insts })
    s

/-- The big-endian immediate hex extraction used by the peephole pass
(`inst.Raw[14:16]+inst.Raw[12:14]+inst.Raw[10:12]+inst.Raw[8:10]`). -/
def rawImmHex (inst : Instruction) : List Char :=
  sub inst.raw 14 16 ++ sub inst.raw 12 14 ++ sub inst.raw 10 12 ++ sub inst.raw 8 10

/-- Mask-candidate condition of `applyPeepholeOptimization` for the pair
`(i, i+1)`. -/
def peepholeMaskCond (insts : List Instruction) (i : Nat) : Bool :=
  let inst1 := insts.getD i deadInstruction
  let inst2 := insts.getD (i + 1) deadInstruction
  inst1.opcode = 0x18 ∧ inst2.opcode = 0x00 ∧ inst1.srcReg = 0 ∧
  rawImmHex inst2 = "00000000".toList ∧ isMaskPattern (rawImmHex inst1)

/-- optimizer `(*Section).applyPeepholeOptimization` (the live filter.go
version using `isMaskPattern`). -/
def applyPeepholeOptimization (s : Section) : Section :=
  let maskCandidates := (List.range (s.instructions.length - 1)).filter
    (fun i => peepholeMaskCond s.instructions i)
  let candidates := maskCandidates.foldl
    (fun acc maskIdx =>
      acc ++ ((s.dependencies.getD maskIdx {}).dependedBy).filterMap
        (fun depIdx =>
          let depInst := (getIdx s.instructions depIdx).getD deadInstruction
          if depInst.opcode = 0x5F ∧
              ((s.dependencies.getD depIdx.toNat {}).dependedBy).all
                (fun nd => ((getIdx s.instructions nd).getD deadInstruction).opcode = 0x77)
          then some (maskIdx, depIdx) else none))
    []
  candidates.foldl
    (fun s c =>
      let targetReg := sub ((getIdx s.instructions c.2).getD deadInstruction).raw 3 4
      let newHex := "bc".toList ++ targetReg ++ targetReg ++ "000000000000".toList
      let newInst := (newInstruction newHex).getD deadInstruction
      let insts :=
        if 0 ≤ c.2 then listModify s.instructions c.2.toNat (fun _ => newInst)
        else s.instructions
      let insts := listModify insts c.1 (fun _ => setAsNOP)
      let insts := listModify insts (c.1 + 1) (fun _ => setAsNOP)
      { s with instructions := insts })
    s

/-- section.go `isMemoryOperation`. -/
def isMemoryOperation (inst : Instruction) : Bool :=
  let c := instructionClass inst
  c = 0x00 ∨ c = 0x01 ∨ c = 0x02 ∨ c = 0x03

/-- section.go `getMemorySize`. -/
def getMemorySize (inst : Instruction) : Int :=
  let sizeMask := inst.opcode &&& 0x18
  if sizeMask = 0x10 then 1
  else if sizeMask = 0x08 then 2
  else if sizeMask = 0x00 then 4
  else if sizeMask = 0x18 then 8
  else 1

/-- section.go `canMergeMemoryOps` (16-bit offset arithmetic). -/
def canMergeMemoryOps (inst1 inst2 : Instruction) : Bool :=
  inst1.dstReg = inst2.dstReg ∧ inst1.srcReg = inst2.srcReg ∧
  inst2.off = wrap16 (inst1.off + getMemorySize inst1)

/-- section.go `createMergedMemoryOp` ("simplified implementation": a
clone of the first instruction). -/
def createMergedMemoryOp (inst1 : Instruction) : Instruction := inst1

/-- Loop of the live `applySuperwordMerge` placeholder: adjacent memory
operations with consecutive addresses are "merged" in place. -/
def swLoop (s : Section) : Nat → Nat → Section
  | 0, _ => s
  | rem + 1, i =>
    if i + 1 < s.instructions.length then
      let inst1 := s.instructions.getD i deadInstruction
      let inst2 := s.instructions.getD (i + 1) deadInstruction
      if isMemoryOperation inst1 ∧ isMemoryOperation inst2 ∧
          canMergeMemoryOps inst1 inst2 then
        let insts := listModify s.instructions i (fun _ => createMergedMemoryOp inst1)
        let insts := listModify insts (i + 1) (fun _ => setAsNOP)
        swLoop { s with instructions := insts } rem (i + 1)
      else swLoop s rem (i + 1)
    else s

/-- optimizer `(*Section).applySuperwordMerge` (the live placeholder
wired into the pipeline; the full `SuperwordMerger` is never invoked). -/
def applySuperwordMerge (s : Section) : Section :=
  swLoop s s.instructions.length 0

/-- `(*Section).applyOptimizations`: the fixed pass order. -/
def applyOptimizations (s : Section) : Section :=
  applySuperwordMerge (applyPeepholeOptimization (applyCompaction (applyConstantPropagation s)))

/-- Byte decoding of `(*Section).Dump`'s hex string. -/
def hexPairsToBytes : List Char → List Nat
  | c1 :: c2 :: r => (parseUint [c1, c2] 8).getD 0 :: hexPairsToBytes r
  | _ => []

/-- optimizer `(*Section).Dump`: concatenate every raw hex and decode to
bytes (a parse failure stores byte 0, as the source ignores the error). -/
def Dump (s : Section) : List Nat :=
  hexPairsToBytes (s.instructions.foldl (fun acc i => acc ++ i.raw) [])

/-- Window-by-window instruction parse of `NewSection`, driven by the
window count (`len/16` iterations, as in the source loop). -/
def parseInstructionsCount : Nat → List Char → Option (List Instruction)
  | 0, _ => some []
  | k + 1, l =>
    match newInstruction (l.take 16) with
    | none => none
    | some i =>
      match parseInstructionsCount k (l.drop 16) with
      | none => none
      | some r => some (i :: r)

/-- Window-by-window instruction parse of `NewSection`. -/
def parseInstructions (hexData : List Char) : Option (List Instruction) :=
  parseInstructionsCount (hexData.length / 16) hexData

/-- Engine fuel used by the embedded pipeline (the Go recursion carries no
bound; any sufficiently large fuel gives the same result). -/
def engineFuel (n : Nat) : Nat := (n + 2) * (n + 2) * (n + 2)

/-- optimizer `NewSection`: length check, instruction parse, dependency
analysis, then (unless skipped) the optimization passes. -/
def newSection (hexData : List Char) (skipOptimization : Bool) :
    Option Section :=
  if hexData.length % 16 ≠ 0 then none
  else
    match parseInstructions hexData with
    | none => none
    | some insts =>
      let sec : Section :=
        { instructions := insts,
          dependencies := List.replicate insts.length {} }
      match buildDependencies (engineFuel insts.length) sec with
      | none => none
      | some (sec, _) =>
        if skipOptimization then some sec else some (applyOptimizations sec)

/-- Hex encoding of a byte slice (`hex.EncodeToString`). -/
def hexEncode (bytes : List Nat) : List Char :=
  bytes.foldr (fun b acc => hex2 b ++ acc) []

/-- The full pipeline on section bytes: construct with all optimization
passes and serialize (`NewSection` + `Dump`). -/
def runPipeline (bytes : List Nat) : Option (List Nat) :=
  (newSection (hexEncode bytes) false).map Dump

end BPFOpt

namespace BPFOpt

/-- Dependency list of instruction `i` (empty for out-of-range `i`). -/
def depsAtI (sec : Section) (i : Int) : List Int :=
  if 0 ≤ i then (sec.dependencies.getD i.toNat {}).dependencies else []

/-- Depended-by list of instruction `i` (empty for out-of-range `i`). -/
def depByAtI (sec : Section) (i : Int) : List Int :=
  if 0 ≤ i then (sec.dependencies.getD i.toNat {}).dependedBy else []

end BPFOpt

namespace BPFOpt

/-- The two-instruction section used against claim C1. -/
def c1hex : List Char := "bf12000000000000".toList

/-- C1 counterexample input: the one-instruction section `mov r2, r1`.
After analysis, the engine's Python-style negative indexing maps the `-1`
entry sentinel to the last slot of `depended_by`, so `0 ∈ depended_by[0]`
while `0 ∉ dependencies[0] = [-1]`. -/
theorem C1_counterexample :
    (newSection c1hex true).map
      (fun sec => (depsAtI sec 0, depByAtI sec 0)) = some ([-1], [0]) := by
  decide

/-- C2 counterexample input: eight bytes `b7 0f 00 00 00 00 00 00`
(a MOV whose dst nibble is 15). -/
def c2bytes : List Nat := [0xb7, 0x0f, 0, 0, 0, 0, 0, 0]

/-- C2 counterexample: the input length is a multiple of 8, yet the
pipeline produces no output at all — the engine indexes `RegAlias[15]`
on an 11-element array (a runtime panic in the source), so no byte slice
of any length is returned. -/
theorem C2_counterexample :
    c2bytes.length % 8 = 0 ∧ runPipeline c2bytes = none := by
  constructor
  · decide
  · decide

/-- CFG with two independent two-block cycles (4↔6 and 8↔10), both
reachable from the completed block 0 — the candidate set of
`findLoopCandidates` is `{4, 8}`. -/
def c3nodes : List (Int × List Int) :=
  [(0, [4, 8]), (4, [6]), (6, [4]), (8, [10]), (10, [8])]

/-- C3: the loop head selected by `findLoopCandidates` depends on the
enumeration order of its candidate set, which in the source is a Go map
iterated in unspecified order: enumerating the same candidate set
`{4, 8}` in its two orders selects different loop heads. -/
theorem C3_map_order_dependent :
    findLoopCandidatesFrom 16 c3nodes [4, 8] = 4 ∧
    findLoopCandidatesFrom 16 c3nodes [8, 4] = 8 ∧
    ([4, 8] : List Int).Perm [8, 4] := by
  refine ⟨by decide, by decide, ?_⟩
  decide

/-- A call with helper id 1 (`8500000001000000`). -/
def c4inst : Instruction := (newInstruction "8500000001000000".toList).getD deadInstruction

/-- A two-slot section with empty dependency records. -/
def c4sec : Section :=
  { instructions := [setAsNOP, c4inst],
    dependencies := [{}, {}] }

/-- State in which r1 has recorded writer 0. -/
def c4state : RegisterState :=
  { newRegisterState with
      registers := listModify newRegisterState.registers 1 (fun _ => [0]) }

/-- C4 counterexample: processing the CALL with helper-id immediate 1 at
index 1 leaves `regs[1] = [0]` (not cleared) while `regs[0] = [1]`; the
claim requires `regs[1..5]` to be empty after every call. -/
theorem C4_counterexample :
    (buildRegStep c4sec c4state [] false 1 0 1 c4inst).map
      (fun r => (r.2.1.registers.getD 1 [], r.2.1.registers.getD 0 []))
    = some ([0], [1]) := by
  decide

/-- CFG for the C6 counterexample: blocks 4 and 8 are both ready once
block 0 is done. -/
def c6cfg : ControlFlowGraph :=
  { nodes := [], nodesRev := [(0, []), (4, [0]), (8, [0])],
    nodesLen := [], nodeStats := [] }

/-- Empty section for the C6 counterexample. -/
def c6sec : Section := { instructions := [], dependencies := [] }

/-- C6 counterexample: with blocks 4 and 8 both not done and all their
predecessors done, `findNextNode` returns 8 — the largest ready id — not
the first (4), because the scan keeps overwriting its result. -/
theorem C6_counterexample :
    (findNextNode c6sec c6cfg [0] false).1 = 8 ∧
    doneHas [0] 4 = false ∧
    ((mapGet c6cfg.nodesRev 4).getD []).all (fun p => doneHas [0] p) = true := by
  refine ⟨by decide, by decide, by decide⟩

/-- Section for the C7 counterexample: LSH r1 32 followed by RSH r2 32
(different dst registers). -/
def c7sec : Section :=
  { instructions :=
      [(newInstruction "6701000020000000".toList).getD deadInstruction,
       (newInstruction "7702000020000000".toList).getD deadInstruction],
    dependencies := [{}, {}] }

/-- C7 counterexample: the pair has different dst registers (1 and 2),
yet `applyCompaction` rewrites it anyway — the live source never compares
the dst registers. -/
theorem C7_counterexample :
    (c7sec.instructions.getD 0 deadInstruction).dstReg = 1 ∧
    (c7sec.instructions.getD 1 deadInstruction).dstReg = 2 ∧
    (applyCompaction c7sec).instructions.map Instruction.raw
      = ["bc11000000000000".toList, nopRaw] := by
  refine ⟨by decide, by decide, by decide⟩

/-- The SC-MERGE-2 input bytes. -/
def c8bytes : List Nat :=
  [0x62, 0, 0, 0, 0x12, 0, 0, 0, 0x62, 0, 4, 0, 0x34, 0, 0, 0]

/-- C8: on the SC-MERGE-2 input the pipeline leaves instruction 0 as the
original 32-bit store `6200000012000000` (opcode size-mask 0x00, not the
claimed 0x18) and only NOPs instruction 1: the live
`applySuperwordMerge` is a placeholder that installs a clone of the first
instruction, and the real `SuperwordMerger` is never invoked. -/
theorem C8_placeholder_merge :
    (newSection (hexEncode c8bytes) false).map
      (fun sec => sec.instructions.map Instruction.raw)
      = some ["6200000012000000".toList, nopRaw] ∧
    (newSection (hexEncode c8bytes) false).map
      (fun sec => (sec.instructions.getD 0 deadInstruction).opcode &&& 0x18)
      = some 0x00 := by
  refine ⟨by decide, by decide⟩

end BPFOpt


namespace BPFOpt


def natToHexAux : Nat → Nat → List Char
  | 0, _ => []
  | fuel + 1, n =>
    if n = 0 then [] else natToHexAux fuel (n / 16) ++ [hexDigitChar (n % 16)]

def natToHex (n : Nat) : List Char :=
  if n = 0 then ['0'] else natToHexAux 16 n

def binVal (l : List Char) : Nat :=
  l.foldl (fun acc c => acc * 2 + (if c = '1' then 1 else 0)) 0

theorem parseHexCore_append (l1 l2 : List Char) (acc : Nat) :
    parseHexCore (l1 ++ l2) acc =
      match parseHexCore l1 acc with
      | none => none
      | some a => parseHexCore l2 a := by
  induction l1 generalizing acc with
  | nil => simp [parseHexCore]
  | cons c r ih =>
    simp only [List.cons_append, parseHexCore]
    cases hexVal c with
    | none => rfl
    | some d => exact ih _

theorem hexVal_hexDigitChar : ∀ d, d < 16 → hexVal (hexDigitChar d) = some d := by
  decide

theorem parseHexCore_natToHexAux :
    ∀ fuel n acc, n < 16 ^ fuel →
      parseHexCore (natToHexAux fuel n) acc =
        some (acc * 16 ^ (natToHexAux fuel n).length + n) := by
  intro fuel
  induction fuel with
  | zero =>
    intro n acc h
    have : n = 0 := by simpa using h
    subst this
    simp [natToHexAux, parseHexCore]
  | succ fuel ih =>
    intro n acc h
    by_cases hn : n = 0
    · subst hn; simp [natToHexAux, parseHexCore]
    · have hdiv : n / 16 < 16 ^ fuel := by
        have h1 : n < 16 ^ fuel * 16 := by
          have : (16 : Nat) ^ (fuel + 1) = 16 ^ fuel * 16 := by ring
          omega
        exact Nat.div_lt_of_lt_mul (by omega)
      have hrec := ih (n / 16) acc hdiv
      rw [natToHexAux, if_neg hn, parseHexCore_append, hrec]
      have hd := hexVal_hexDigitChar (n % 16) (Nat.mod_lt _ (by norm_num))
      simp only [parseHexCore, hd, List.length_append, List.length_cons,
        List.length_nil]
      congr 1
      have : 16 ^ ((natToHexAux fuel (n / 16)).length + (0 + 1)) =
          16 ^ (natToHexAux fuel (n / 16)).length * 16 := by ring
      rw [this]
      have hm := Nat.div_add_mod n 16
      ring_nf
      omega

theorem natToHexAux_ne_nil (fuel n : Nat) (h0 : 0 < n) (h : n < 16 ^ fuel) :
    natToHexAux fuel n ≠ [] := by
  cases fuel with
  | zero => simp at h; omega
  | succ fuel =>
    rw [natToHexAux, if_neg (by omega)]
    simp

theorem parseUint_natToHex (v : Nat) (hv : v < 2 ^ 64) :
    parseUint (natToHex v) 64 = some v := by
  by_cases h0 : v = 0
  · subst h0; decide
  · have hb : v < 16 ^ 16 := by
      have : (16 : Nat) ^ 16 = 2 ^ 64 := by norm_num
      omega
    have hne := natToHexAux_ne_nil 16 v (by omega) hb
    have hp := parseHexCore_natToHexAux 16 v 0 hb
    unfold natToHex
    rw [if_neg h0]
    unfold parseUint
    match hx : natToHexAux 16 v with
    | [] => exact absurd hx hne
    | c :: r =>
      rw [hx] at hp
      simp only [hp, Nat.zero_mul, Nat.zero_add]
      rw [if_pos hv]


theorem binVal_go (l : List Char) (acc : Nat) :
    l.foldl (fun acc c => acc * 2 + (if c = '1' then 1 else 0)) acc =
      acc * 2 ^ l.length + binVal l := by
  induction l generalizing acc with
  | nil => simp [binVal]
  | cons c r ih =>
    simp only [List.foldl_cons, List.length_cons, binVal]
    rw [ih (acc * 2 + (if c = '1' then 1 else 0)),
        ih (0 * 2 + (if c = '1' then 1 else 0))]
    ring

theorem binVal_append (l1 l2 : List Char) :
    binVal (l1 ++ l2) = binVal l1 * 2 ^ l2.length + binVal l2 := by
  unfold binVal
  rw [List.foldl_append]
  exact binVal_go l2 _

theorem maskScan_inZeros (l : List Char) (hl : ∀ c ∈ l, c = '0' ∨ c = '1') :
    maskScan l true = true ↔ ∃ b, l = List.replicate b '0' := by
  induction l with
  | nil =>
    constructor
    · intro _; exact ⟨0, rfl⟩
    · intro _; rfl
  | cons c r ih =>
    have hr : ∀ c ∈ r, c = '0' ∨ c = '1' := fun x hx => hl x (by simp [hx])
    rcases hl c (by simp) with hc | hc
    · subst hc
      rw [maskScan, if_pos rfl, ih hr]
      constructor
      · rintro ⟨b, rfl⟩
        refine ⟨b + 1, ?_⟩
        rw [List.replicate_succ]
      · rintro ⟨b, hb⟩
        cases b with
        | zero => simp at hb
        | succ b =>
          rw [List.replicate_succ] at hb
          exact ⟨b, (List.cons.injEq _ _ _ _ ▸ hb).2⟩
    · subst hc
      have h1 : maskScan ('1' :: r) true = false := by
        rw [maskScan]
        rw [if_neg (by decide : ¬ ('1' : Char) = '0')]
        rw [if_pos (by exact ⟨rfl, rfl⟩)]
      rw [h1]
      constructor
      · intro h; cases h
      · rintro ⟨b, hb⟩
        cases b with
        | zero => simp at hb
        | succ b =>
          rw [List.replicate_succ] at hb
          have := (List.cons.injEq _ _ _ _ ▸ hb).1
          cases this

theorem maskScan_shape (l : List Char) (hl : ∀ c ∈ l, c = '0' ∨ c = '1') :
    maskScan l false = true ↔
      ∃ a b, l = List.replicate a '1' ++ List.replicate b '0' := by
  induction l with
  | nil =>
    constructor
    · intro _; exact ⟨0, 0, rfl⟩
    · intro _; rfl
  | cons c r ih =>
    have hr : ∀ c ∈ r, c = '0' ∨ c = '1' := fun x hx => hl x (by simp [hx])
    rcases hl c (by simp) with hc | hc
    · subst hc
      rw [maskScan, if_pos rfl, maskScan_inZeros r hr]
      constructor
      · rintro ⟨b, rfl⟩
        refine ⟨0, b + 1, ?_⟩
        rw [List.replicate_succ]
        rfl
      · rintro ⟨a, b, hab⟩
        cases a with
        | zero =>
          rw [List.replicate] at hab
          rw [List.nil_append] at hab
          cases b with
          | zero => simp at hab
          | succ b =>
            rw [List.replicate_succ] at hab
            exact ⟨b, (List.cons.injEq _ _ _ _ ▸ hab).2⟩
        | succ a =>
          rw [List.replicate_succ] at hab
          have := (List.cons.injEq _ _ _ _ ▸ hab).1
          cases this
    · subst hc
      have h1 : maskScan ('1' :: r) false = maskScan r false := by
        rw [maskScan]
        rw [if_neg (by decide : ¬ ('1' : Char) = '0')]
        rw [if_neg (by simp)]
      rw [h1, ih hr]
      constructor
      · rintro ⟨a, b, rfl⟩
        refine ⟨a + 1, b, ?_⟩
        rw [List.replicate_succ]
        rfl
      · rintro ⟨a, b, hab⟩
        cases a with
        | zero =>
          rw [List.replicate] at hab
          rw [List.nil_append] at hab
          cases b with
          | zero => simp at hab
          | succ b =>
            rw [List.replicate_succ] at hab
            have := (List.cons.injEq _ _ _ _ ▸ hab).1
            cases this
        | succ a =>
          rw [List.replicate_succ] at hab
          refine ⟨a, b, (List.cons.injEq _ _ _ _ ▸ hab).2⟩

theorem containsOne_replicate (b : Nat) :
    (List.replicate b '0').contains '1' = false := by
  induction b with
  | zero => rfl
  | succ b ih =>
    rw [List.replicate_succ]
    simp only [List.contains] at ih ⊢
    simp [ih]

theorem containsOne_shape (a b : Nat) :
    (List.replicate a '1' ++ List.replicate b '0').contains '1' = true ↔ 0 < a := by
  cases a with
  | zero =>
    rw [List.replicate, List.nil_append]
    rw [containsOne_replicate]
    constructor
    · intro h; cases h
    · intro h; omega
  | succ a =>
    constructor
    · intro _; omega
    · intro _
      rw [List.replicate_succ]
      simp [List.contains]

theorem binVal_replicate_one (a : Nat) :
    binVal (List.replicate a '1') = 2 ^ a - 1 := by
  induction a with
  | zero => rfl
  | succ a ih =>
    rw [List.replicate_succ']
    rw [binVal_append, ih]
    have h2 : (0 : Nat) < 2 ^ a := Nat.pos_pow_of_pos a (by norm_num)
    simp [binVal]
    ring_nf
    omega

theorem binVal_replicate_zero (b : Nat) :
    binVal (List.replicate b '0') = 0 := by
  induction b with
  | zero => rfl
  | succ b ih =>
    rw [List.replicate_succ']
    rw [binVal_append, ih]
    simp [binVal]

theorem natToBinAux_chars :
    ∀ fuel n, ∀ c ∈ natToBinAux fuel n, c = '0' ∨ c = '1' := by
  intro fuel
  induction fuel with
  | zero => intro n c hc; simp [natToBinAux] at hc
  | succ fuel ih =>
    intro n c hc
    rw [natToBinAux] at hc
    by_cases hn : n = 0
    · rw [if_pos hn] at hc; simp at hc
    · rw [if_neg hn] at hc
      rcases List.mem_append.mp hc with h | h
      · exact ih _ _ h
      · simp only [List.mem_singleton] at h
        subst h
        by_cases h2 : n % 2 = 1
        · right; rw [if_pos h2]
        · left; rw [if_neg h2]

theorem binVal_natToBinAux :
    ∀ fuel n, n < 2 ^ fuel → binVal (natToBinAux fuel n) = n := by
  intro fuel
  induction fuel with
  | zero =>
    intro n h
    have hn : n = 0 := by
      have : (2 : Nat) ^ 0 = 1 := rfl
      omega
    subst hn; rfl
  | succ fuel ih =>
    intro n h
    by_cases hn : n = 0
    · subst hn; rw [natToBinAux, if_pos rfl]; rfl
    · rw [natToBinAux, if_neg hn, binVal_append]
      have hdiv : n / 2 < 2 ^ fuel := by
        have h1 : n < 2 ^ fuel * 2 := by
          have he : (2 : Nat) ^ (fuel + 1) = 2 ^ fuel * 2 := by ring
          omega
        exact Nat.div_lt_of_lt_mul (by omega)
      rw [ih _ hdiv]
      have hm := Nat.div_add_mod n 2
      have h2 : n % 2 < 2 := Nat.mod_lt _ (by norm_num)
      have hone : binVal [(if n % 2 = 1 then '1' else '0')] = n % 2 := by
        by_cases hb : n % 2 = 1
        · rw [if_pos hb]; simp [binVal]; omega
        · rw [if_neg hb]; simp [binVal]; omega
      rw [hone]
      simp only [List.length_singleton]
      omega

theorem natToBinAux_zero : ∀ fuel, natToBinAux fuel 0 = [] := by
  intro fuel
  cases fuel with
  | zero => rfl
  | succ fuel => rw [natToBinAux, if_pos rfl]

theorem natToBinAux_repr :
    ∀ fuel a b, 0 < a → (2 ^ a - 1) * 2 ^ b < 2 ^ fuel →
      natToBinAux fuel ((2 ^ a - 1) * 2 ^ b) =
        List.replicate a '1' ++ List.replicate b '0' := by
  intro fuel
  induction fuel with
  | zero =>
    intro a b ha h
    exfalso
    have h2a : (2 : Nat) ^ a = 2 ^ (a - 1) * 2 := by
      rw [← pow_succ]
      congr 1
      omega
    have hp1 : (1 : Nat) ≤ 2 ^ (a - 1) := Nat.one_le_two_pow
    have hpb : (1 : Nat) ≤ 2 ^ b := Nat.one_le_two_pow
    have h3 : (1 : Nat) ≤ (2 ^ a - 1) * 2 ^ b :=
      Nat.one_le_iff_ne_zero.mpr (Nat.mul_ne_zero (by omega) (by omega))
    have hz : (2 : Nat) ^ 0 = 1 := rfl
    omega
  | succ fuel ih =>
    intro a b ha h
    have h2a : (2 : Nat) ^ a = 2 ^ (a - 1) * 2 := by
      rw [← pow_succ]
      congr 1
      omega
    have hp1 : (1 : Nat) ≤ 2 ^ (a - 1) := Nat.one_le_two_pow
    have hpb : (1 : Nat) ≤ 2 ^ b := Nat.one_le_two_pow
    have hn0 : (2 ^ a - 1) * 2 ^ b ≠ 0 :=
      Nat.mul_ne_zero (by omega) (by omega)
    rw [natToBinAux, if_neg hn0]
    have hfe : (2 : Nat) ^ (fuel + 1) = 2 ^ fuel * 2 := by ring
    cases b with
    | zero =>
      have hone : (2 ^ a - 1) * 2 ^ 0 = 2 ^ (a - 1) * 2 - 1 := by
        simp only [pow_zero, Nat.mul_one]
        omega
      have hodd : (2 ^ a - 1) * 2 ^ 0 % 2 = 1 := by
        rw [hone]
        omega
      have hd2 : (2 ^ a - 1) * 2 ^ 0 / 2 = 2 ^ (a - 1) - 1 := by
        rw [hone]
        omega
      rw [if_pos hodd, hd2]
      rcases Nat.lt_or_ge 1 a with h1 | h1
      · have ha1 : 0 < a - 1 := by omega
        have hb1 : (2 ^ (a - 1) - 1) * 2 ^ 0 < 2 ^ fuel := by
          have hdiv : (2 ^ a - 1) * 2 ^ 0 / 2 < 2 ^ fuel :=
            Nat.div_lt_of_lt_mul (by omega)
          rw [hd2] at hdiv
          simpa using hdiv
        have hrec := ih (a - 1) 0 ha1 hb1
        simp only [pow_zero, Nat.mul_one, List.replicate_zero, List.append_nil]
          at hrec ⊢
        rw [hrec]
        have hsplit : List.replicate a '1' = List.replicate ((a - 1) + 1) '1' := by
          congr 1
          omega
        rw [hsplit, List.replicate_succ']
      · have ha1 : a = 1 := by omega
        subst ha1
        have hz : (2 : Nat) ^ (1 - 1) - 1 = 0 := by norm_num
        rw [hz, natToBinAux_zero]
        rfl
    | succ b =>
      have heven : (2 ^ a - 1) * 2 ^ (b + 1) % 2 = 0 := by
        have hx : (2 ^ a - 1) * 2 ^ (b + 1) = ((2 ^ a - 1) * 2 ^ b) * 2 := by
          ring
        rw [hx]
        exact Nat.mul_mod_left _ 2
      have hd2 : (2 ^ a - 1) * 2 ^ (b + 1) / 2 = (2 ^ a - 1) * 2 ^ b := by
        have hx : (2 ^ a - 1) * 2 ^ (b + 1) = ((2 ^ a - 1) * 2 ^ b) * 2 := by
          ring
        rw [hx]
        exact Nat.mul_div_cancel _ (by norm_num)
      rw [if_neg (by omega), hd2]
      have hb1 : (2 ^ a - 1) * 2 ^ b < 2 ^ fuel := by
        have hdiv : (2 ^ a - 1) * 2 ^ (b + 1) / 2 < 2 ^ fuel :=
          Nat.div_lt_of_lt_mul (by omega)
        rw [hd2] at hdiv
        exact hdiv
      rw [ih a b ha hb1, List.append_assoc]
      congr 1
      rw [← List.replicate_succ']

theorem isMaskPattern_natToHex (v : Nat) (hv : v < 2 ^ 64) :
    isMaskPattern (natToHex v) =
      (maskScan (natToBin v) false && (natToBin v).contains '1') := by
  unfold isMaskPattern
  rw [parseUint_natToHex v hv]

/-- Claim C9: the mask-pattern recognizer `isMaskPattern`, applied to the
hex-string form of any 64-bit unsigned value, returns true exactly when
the value's leading-zero-trimmed binary representation is one or more
1-bits followed by zero or more 0-bits — arithmetically, when the value
is `(2^m - 1) * 2^k` for some `m ≥ 1`. -/
theorem C9_mask_pattern (v : Nat) (hv : v < 2 ^ 64) :
    isMaskPattern (natToHex v) = true ↔
      ∃ m k, 0 < m ∧ v = (2 ^ m - 1) * 2 ^ k := by
  rw [isMaskPattern_natToHex v hv]
  by_cases h0 : v = 0
  · subst h0
    constructor
    · intro h
      exact absurd h (by decide)
    · rintro ⟨m, k, hm, he⟩
      exfalso
      have h2a : (2 : Nat) ^ m = 2 ^ (m - 1) * 2 := by
        rw [← pow_succ]
        congr 1
        omega
      have hp1 : (1 : Nat) ≤ 2 ^ (m - 1) := Nat.one_le_two_pow
      have hpk : (1 : Nat) ≤ 2 ^ k := Nat.one_le_two_pow
      have : (1 : Nat) ≤ (2 ^ m - 1) * 2 ^ k :=
        Nat.one_le_iff_ne_zero.mpr (Nat.mul_ne_zero (by omega) (by omega))
      omega
  · rw [natToBin, if_neg h0]
    constructor
    · intro h
      rw [Bool.and_eq_true] at h
      obtain ⟨hsc, hct⟩ := h
      obtain ⟨a, b, hab⟩ :=
        (maskScan_shape _ (natToBinAux_chars 64 v)).mp hsc
      have ha : 0 < a := (containsOne_shape a b).mp (hab ▸ hct)
      have hval := binVal_natToBinAux 64 v hv
      rw [hab, binVal_append, binVal_replicate_one, binVal_replicate_zero,
        List.length_replicate] at hval
      exact ⟨a, b, ha, by omega⟩
    · rintro ⟨m, k, hm, he⟩
      have hrep := natToBinAux_repr 64 m k hm (he ▸ hv)
      rw [he, hrep]
      rw [Bool.and_eq_true]
      refine ⟨?_, ?_⟩
      · refine (maskScan_shape _ ?_).mpr ⟨m, k, rfl⟩
        intro c hc
        rcases List.mem_append.mp hc with h | h
        · right; exact List.eq_of_mem_replicate h
        · left; exact List.eq_of_mem_replicate h
      · exact (containsOne_shape m k).mpr hm

/-- Claim C9 witness: the theorem applied at the concrete value 6
(binary `110`). -/
theorem C9_witness :
    (6 : Nat) < 2 ^ 64 ∧ isMaskPattern (natToHex 6) = true :=
  ⟨by decide, (C9_mask_pattern 6 (by decide)).mpr ⟨2, 1, by decide, by decide⟩⟩

end BPFOpt

namespace BPFOpt

theorem depsAppendDep_instructions (s : Section) (i d : Int) :
    (depsAppendDep s i d).instructions = s.instructions := by
  unfold depsAppendDep
  split <;> rfl

theorem depsAppendBy_instructions (s : Section) (i d : Int) :
    (depsAppendBy s i d).instructions = s.instructions := by
  unfold depsAppendBy
  split <;> rfl

theorem foldl_sec_instructions {α : Type} (f : Section → α → Section)
    (h : ∀ s a, (f s a).instructions = s.instructions) :
    ∀ (l : List α) (s : Section), (l.foldl f s).instructions = s.instructions := by
  intro l
  induction l with
  | nil => intro s; rfl
  | cons x r ih => intro s; rw [List.foldl_cons, ih, h]

theorem foldl_pair_instructions {α β : Type}
    (f : (Section × β) → α → (Section × β))
    (h : ∀ p a, ((f p a).1).instructions = p.1.instructions) :
    ∀ (l : List α) (p : Section × β),
      ((l.foldl f p).1).instructions = p.1.instructions := by
  intro l
  induction l with
  | nil => intro p; rfl
  | cons x r ih => intro p; rw [List.foldl_cons, ih, h]

theorem purAliasStack_instructions (s : Section) (instIdx al : Int)
    (state : RegisterState) :
    (purAliasStack s instIdx al state).1.instructions = s.instructions := by
  unfold purAliasStack
  split
  · refine foldl_sec_instructions _ ?_ _ _
    intro s a
    simp only
    split
    · rw [depsAppendBy_instructions, depsAppendDep_instructions]
    · rw [depsAppendDep_instructions]
  · simp only
    rw [depsAppendDep_instructions]

theorem purOneDep_instructions (s : Section) (instIdx regIdx dep : Int)
    (state : RegisterState) :
    (purOneDep s instIdx regIdx dep state).1.instructions = s.instructions := by
  unfold purOneDep
  dsimp only
  repeat' split
  all_goals simp [depsAppendDep_instructions, depsAppendBy_instructions,
    purAliasStack_instructions]

theorem foldlM_pair_instructions {α β : Type}
    (f : (Section × β) → α → Option (Section × β))
    (h : ∀ p a q, f p a = some q → q.1.instructions = p.1.instructions) :
    ∀ (l : List α) (p : Section × β) r,
      l.foldlM f p = some r → r.1.instructions = p.1.instructions := by
  intro l
  induction l with
  | nil =>
    intro p r hr
    simp only [List.foldlM_nil, pure, Option.some.injEq] at hr
    rw [← hr]
  | cons x rest ih =>
    intro p r hr
    rw [List.foldlM_cons] at hr
    cases hfx : f p x with
    | none => rw [hfx] at hr; simp at hr
    | some q =>
      rw [hfx] at hr
      simp only [Option.bind_eq_bind, Option.some_bind] at hr
      rw [ih q r hr, h p x q hfx]

theorem purOneReg_instructions (s : Section) (instIdx regIdx : Int)
    (inst : Instruction) (state : RegisterState) (r : Section × RegisterState)
    (h : purOneReg s instIdx regIdx inst state = some r) :
    r.1.instructions = s.instructions := by
  unfold purOneReg at h
  split at h
  · simp only [Option.some.injEq] at h; rw [← h]
  · split at h
    · exact absurd h (by simp)
    · rename_i state1 hst
      dsimp only at h
      split at h
      · simp only [Option.some.injEq] at h; rw [← h]
      · simp only [Option.some.injEq] at h
        rw [← h]
        refine foldl_pair_instructions _ ?_ _ _
        intro p a
        exact purOneDep_instructions p.1 instIdx regIdx a p.2

theorem ProcessUsedRegisters_instructions (s : Section) (instIdx : Int)
    (analysis : InstructionAnalysis) (inst : Instruction)
    (state : RegisterState) (r : Section × RegisterState)
    (h : ProcessUsedRegisters s instIdx analysis inst state = some r) :
    r.1.instructions = s.instructions := by
  unfold ProcessUsedRegisters at h
  exact foldlM_pair_instructions _
    (fun p a q hq => purOneReg_instructions p.1 instIdx a inst p.2 q hq)
    _ _ _ h

theorem pusTailOne_instructions (s : Section) (instIdx stackInstIdx : Int) :
    (pusTailOne s instIdx stackInstIdx).instructions = s.instructions := by
  unfold pusTailOne
  dsimp only
  repeat' split
  all_goals simp [depsAppendDep_instructions, depsAppendBy_instructions]

theorem pusNonTailOne_instructions (s : Section) (instIdx stackInstIdx : Int) :
    (pusNonTailOne s instIdx stackInstIdx).instructions = s.instructions := by
  unfold pusNonTailOne
  dsimp only
  repeat' split
  all_goals simp [depsAppendDep_instructions, depsAppendBy_instructions]

theorem ProcessUsedStack_instructions (s : Section) (instIdx : Int)
    (analysis : InstructionAnalysis) (state : RegisterState) :
    (ProcessUsedStack s instIdx analysis state).1.instructions = s.instructions := by
  unfold ProcessUsedStack
  split
  · rfl
  · dsimp only
    split
    · refine foldl_sec_instructions _ ?_ _ _
      intro s2 off
      refine foldl_sec_instructions _ ?_ _ _
      intro s3 st
      exact pusTailOne_instructions s3 instIdx st
    · split
      · refine foldl_sec_instructions _ ?_ _ _
        intro s2 st
        exact pusNonTailOne_instructions s2 instIdx st
      · rw [depsAppendDep_instructions]

theorem buildRegStep_instructions (s : Section) (state : RegisterState)
    (done : List Int) (shouldRet : Bool) (nodesRevLen : Nat) (base instIdx : Int)
    (inst : Instruction) (r : Section × RegisterState × List Int × Bool)
    (h : buildRegStep s state done shouldRet nodesRevLen base instIdx inst = some r) :
    r.1.instructions = s.instructions := by
  unfold buildRegStep at h
  split at h
  · simp only [Option.some.injEq] at h; rw [← h]
  · split at h
    · exact absurd h (by simp)
    · rename_i state1 h1
      dsimp only at h
      split at h
      · exact absurd h (by simp)
      · rename_i s2 state2 hp
        split at h
        · exact absurd h (by simp)
        · rename_i state3 h3
          simp only [Option.some.injEq] at h
          rw [← h]
          dsimp only
          rw [ProcessUsedStack_instructions]
          exact ProcessUsedRegisters_instructions s instIdx
            (analyzeInstruction inst) inst state1 (s2, state2) hp

theorem BRDLoop_instructions (nodesRevLen : Nat) (base : Int) :
    ∀ (rem i : Nat) (s : Section) (state : RegisterState) (done : List Int)
      (shouldRet : Bool) (r : Section × RegisterState × List Int × Bool),
      BRDLoop nodesRevLen base rem i s state done shouldRet = some r →
      r.1.instructions = s.instructions := by
  intro rem
  induction rem with
  | zero =>
    intro i s state done sr r h
    simp only [BRDLoop, Option.some.injEq] at h
    rw [← h]
  | succ rem ih =>
    intro i s state done sr r h
    rw [BRDLoop] at h
    split at h
    · simp only [Option.some.injEq] at h; rw [← h]
    · split at h
      · exact absurd h (by simp)
      · rename_i inst hinst
        split at h
        · exact absurd h (by simp)
        · rename_i s1 state1 done1 sr1 hstep
          rw [ih _ _ _ _ _ _ h]
          exact buildRegStep_instructions _ _ _ _ _ _ _ _ _ hstep

theorem BuildRegisterDependencies_instructions (s : Section)
    (nodesRevLen : Nat) (nodeLen base : Int) (state : RegisterState)
    (done : List Int) (r : Section × RegisterState × List Int × Bool)
    (h : BuildRegisterDependencies s nodesRevLen nodeLen base state done = some r) :
    r.1.instructions = s.instructions := by
  unfold BuildRegisterDependencies at h
  exact BRDLoop_instructions _ _ _ _ _ _ _ _ _ h

theorem updEngine_instructions :
    ∀ (fuel : Nat) (s : Section) (cfg : ControlFlowGraph) (done : List Int)
      (step : EngineStep) (r : Section × ControlFlowGraph × List Int × RegisterState),
      updEngine fuel s cfg done step = some r →
      r.1.instructions = s.instructions := by
  intro fuel
  induction fuel with
  | zero =>
    intro s cfg done step r h
    exact absurd h (by simp [updEngine])
  | succ fuel ih =>
    intro s cfg done step r h
    cases step with
    | cont base state loops =>
      rw [updEngine.eq_def] at h
      dsimp only at h
      split at h
      · split at h
        · exact ih _ _ _ _ _ h
        · simp only [Option.some.injEq] at h; rw [← h]
      · split at h
        · split at h
          · exact ih _ _ _ _ _ h
          · exact absurd h (by simp)
        · simp only [Option.some.injEq] at h; rw [← h]
    | main base state loops inferOnly =>
      rw [updEngine.eq_def] at h
      dsimp only at h
      split at h
      · simp only [Option.some.injEq] at h; rw [← h]
      · split at h
        · exact absurd h (by simp)
        · rename_i s1 state1 done1 sr1 hbrd
          have hs1 : s1.instructions = s.instructions :=
            BuildRegisterDependencies_instructions _ _ _ _ _ _ _ hbrd
          split at h
          · simp only [Option.some.injEq] at h
            rw [← h]
            exact hs1
          · split at h
            · rename_i frame parents
              split at h
              · split at h
                · exact absurd h (by simp)
                · rename_i s2 cfg2 done2 sim hsim
                  have hs2 : s2.instructions = s1.instructions :=
                    ih _ _ _ _ _ hsim
                  split at h
                  · rw [ih _ _ _ _ _ h, hs2, hs1]
                  · split at h
                    · rw [ih _ _ _ _ _ h, hs2, hs1]
                    · rw [ih _ _ _ _ _ h, hs2, hs1]
              · rw [ih _ _ _ _ _ h, hs1]
            · rw [ih _ _ _ _ _ h, hs1]

theorem buildDependencies_instructions (fuel : Nat) (s : Section)
    (r : Section × ControlFlowGraph)
    (h : buildDependencies fuel s = some r) :
    r.1.instructions = s.instructions := by
  unfold buildDependencies at h
  dsimp only at h
  split at h
  · exact absurd h (by simp)
  · rename_i s1 cfg1 done1 st1 heng
    simp only [Option.some.injEq] at h
    rw [← h]
    unfold updateDependencies at heng
    exact updEngine_instructions _ _ _ _ _ _ heng

/-- Claim C10: dependency analysis never modifies instructions — a
section constructed with optimization skipped carries exactly the
instructions decoded from the input hex; the CFG builder and the
data-flow engine write only the dependency arrays and CFG structures. -/
theorem C10_analysis_frame (hexData : List Char) (sec : Section)
    (insts : List Instruction)
    (h : newSection hexData true = some sec)
    (hp : parseInstructions hexData = some insts) :
    sec.instructions = insts := by
  unfold newSection at h
  split at h
  · exact absurd h (by simp)
  · rw [hp] at h
    dsimp only at h
    split at h
    · exact absurd h (by simp)
    · rename_i sec1 cfg1 hbd
      rw [if_pos rfl] at h
      simp only [Option.some.injEq] at h
      rw [← h]
      exact buildDependencies_instructions _ _ _ hbd

/-- Claim C10 witness: the theorem applied to a concrete one-instruction
section. -/
theorem C10_witness :
    (newSection ("b70100000a000000".toList) true).map Section.instructions =
      parseInstructions ("b70100000a000000".toList) := by
  rcases hs : newSection ("b70100000a000000".toList) true with _ | sec
  · exact absurd hs (by decide)
  · rcases hp : parseInstructions ("b70100000a000000".toList) with _ | insts
    · exact absurd hp (by decide)
    · simp only [Option.map_some']
      exact congrArg some (C10_analysis_frame _ sec insts hs hp)

end BPFOpt
namespace BPFOpt

/-- A well-formed raw instruction string: 16 hex characters. -/
def RawOK (r : List Char) : Prop :=
  r.length = 16 ∧ ∀ c ∈ r, (hexVal c).isSome

theorem parseHexCore_chars (l : List Char) (acc v : Nat)
    (h : parseHexCore l acc = some v) : ∀ c ∈ l, (hexVal c).isSome := by
  induction l generalizing acc with
  | nil => intro c hc; cases hc
  | cons x r ih =>
    intro c hc
    rw [parseHexCore] at h
    rcases hx : hexVal x with _ | d
    · rw [hx] at h; cases h
    · rw [hx] at h
      rcases List.mem_cons.mp hc with rfl | hc
      · rw [hx]; rfl
      · exact ih _ h c hc

theorem parseUint_chars (l : List Char) (bits v : Nat)
    (h : parseUint l bits = some v) : ∀ c ∈ l, (hexVal c).isSome := by
  unfold parseUint at h
  split at h
  · intro c hc; cases hc
  · rcases hp : parseHexCore l 0 with _ | w
    · rw [hp] at h; cases h
    · exact parseHexCore_chars l 0 w hp

theorem drop_sub_decomp (l : List Char) (a b : Nat) (hb : b = a + 2) :
    l.drop a = sub l a b ++ l.drop b := by
  subst hb
  unfold sub
  have h1 : a + 2 - a = 2 := by omega
  rw [h1]
  have h2 : l.drop (a + 2) = (l.drop a).drop 2 := by
    rw [List.drop_drop]
  rw [h2, List.take_append_drop]

theorem mem_sub (l : List Char) (a b : Nat) (c : Char) (h : c ∈ sub l a b) :
    c ∈ l := by
  unfold sub at h
  exact List.mem_of_mem_drop (List.mem_of_mem_take h)

theorem mem_chunks (h : List Char) (hlen : h.length = 16) (c : Char) (hc : c ∈ h) :
    c ∈ sub h 0 2 ∨ c ∈ sub h 2 4 ∨ c ∈ sub h 4 6 ∨ c ∈ sub h 6 8 ∨
    c ∈ sub h 8 10 ∨ c ∈ sub h 10 12 ∨ c ∈ sub h 12 14 ∨ c ∈ sub h 14 16 := by
  have d16 : h.drop 16 = [] := by
    apply List.drop_eq_nil_of_le
    omega
  have e : h = sub h 0 2 ++ (sub h 2 4 ++ (sub h 4 6 ++ (sub h 6 8 ++
      (sub h 8 10 ++ (sub h 10 12 ++ (sub h 12 14 ++ sub h 14 16)))))) := by
    calc h = h.drop 0 := (List.drop_zero h).symm
    _ = sub h 0 2 ++ h.drop 2 := drop_sub_decomp h 0 2 (by norm_num)
    _ = sub h 0 2 ++ (sub h 2 4 ++ h.drop 4) := by
        rw [drop_sub_decomp h 2 4 (by norm_num)]
    _ = sub h 0 2 ++ (sub h 2 4 ++ (sub h 4 6 ++ h.drop 6)) := by
        rw [drop_sub_decomp h 4 6 (by norm_num)]
    _ = sub h 0 2 ++ (sub h 2 4 ++ (sub h 4 6 ++ (sub h 6 8 ++ h.drop 8))) := by
        rw [drop_sub_decomp h 6 8 (by norm_num)]
    _ = sub h 0 2 ++ (sub h 2 4 ++ (sub h 4 6 ++ (sub h 6 8 ++
          (sub h 8 10 ++ h.drop 10)))) := by
        rw [drop_sub_decomp h 8 10 (by norm_num)]
    _ = sub h 0 2 ++ (sub h 2 4 ++ (sub h 4 6 ++ (sub h 6 8 ++
          (sub h 8 10 ++ (sub h 10 12 ++ h.drop 12))))) := by
        rw [drop_sub_decomp h 10 12 (by norm_num)]
    _ = sub h 0 2 ++ (sub h 2 4 ++ (sub h 4 6 ++ (sub h 6 8 ++
          (sub h 8 10 ++ (sub h 10 12 ++ (sub h 12 14 ++ h.drop 14)))))) := by
        rw [drop_sub_decomp h 12 14 (by norm_num)]
    _ = sub h 0 2 ++ (sub h 2 4 ++ (sub h 4 6 ++ (sub h 6 8 ++
          (sub h 8 10 ++ (sub h 10 12 ++ (sub h 12 14 ++
            (sub h 14 16 ++ h.drop 16))))))) := by
        rw [drop_sub_decomp h 14 16 (by norm_num)]
    _ = _ := by rw [d16, List.append_nil]
  have hc2 : c ∈ sub h 0 2 ++ (sub h 2 4 ++ (sub h 4 6 ++ (sub h 6 8 ++
      (sub h 8 10 ++ (sub h 10 12 ++ (sub h 12 14 ++ sub h 14 16)))))) := by
    rw [← e]; exact hc
  simpa only [List.mem_append] using hc2

theorem newInstruction_some_raw (h : List Char) (i : Instruction)
    (hi : newInstruction h = some i) : i.raw = h ∧ RawOK h := by
  unfold newInstruction at hi
  split at hi
  · cases hi
  · rename_i hlen
    have hlen16 : h.length = 16 := by omega
    rcases h1 : parseUint (sub h 0 2) 8 with _ | opcode <;> rw [h1] at hi
    · cases hi
    rcases h2 : parseUint (sub h 2 4) 8 with _ | regs <;> rw [h2] at hi
    · cases hi
    rcases h3 : parseUint (sub h 6 8 ++ sub h 4 6) 16 with _ | offU <;> rw [h3] at hi
    · cases hi
    rcases h4 : parseUint (sub h 8 10) 8 with _ | b0 <;> rw [h4] at hi
    · cases hi
    rcases h5 : parseUint (sub h 10 12) 8 with _ | b1 <;> rw [h5] at hi
    · cases hi
    rcases h6 : parseUint (sub h 12 14) 8 with _ | b2 <;> rw [h6] at hi
    · cases hi
    rcases h7 : parseUint (sub h 14 16) 8 with _ | b3 <;> rw [h7] at hi
    · cases hi
    cases hi
    refine ⟨rfl, hlen16, ?_⟩
    intro c hc
    rcases mem_chunks h hlen16 c hc with hm | hm | hm | hm | hm | hm | hm | hm
    · exact parseUint_chars _ _ _ h1 c hm
    · exact parseUint_chars _ _ _ h2 c hm
    · exact parseUint_chars _ _ _ h3 c (List.mem_append.mpr (Or.inr hm))
    · exact parseUint_chars _ _ _ h3 c (List.mem_append.mpr (Or.inl hm))
    · exact parseUint_chars _ _ _ h4 c hm
    · exact parseUint_chars _ _ _ h5 c hm
    · exact parseUint_chars _ _ _ h6 c hm
    · exact parseUint_chars _ _ _ h7 c hm

end BPFOpt

namespace BPFOpt

theorem hexVal_le_15 (c : Char) (d : Nat) (h : hexVal c = some d) : d ≤ 15 := by
  unfold hexVal at h
  split at h
  · rename_i hc
    obtain ⟨h1, h2⟩ := hc
    rw [Char.le_def] at h1 h2
    cases h
    have ha : c.toNat ≤ 57 := h2
    have hb : 48 ≤ c.toNat := h1
    have h0b : Char.toNat '0' = 48 := rfl
    omega
  · split at h
    · rename_i hc
      obtain ⟨h1, h2⟩ := hc
      rw [Char.le_def] at h1 h2
      cases h
      have ha : c.toNat ≤ 102 := h2
      have hb : 97 ≤ c.toNat := h1
      have h0b : Char.toNat 'a' = 97 := rfl
      omega
    · split at h
      · rename_i hc
        obtain ⟨h1, h2⟩ := hc
        rw [Char.le_def] at h1 h2
        cases h
        have ha : c.toNat ≤ 70 := h2
        have hb : 65 ≤ c.toNat := h1
        have h0b : Char.toNat 'A' = 65 := rfl
        omega
      · cases h

theorem parseHexCore_some_of_hex (l : List Char) (acc : Nat)
    (h : ∀ c ∈ l, (hexVal c).isSome) :
    ∃ v, parseHexCore l acc = some v ∧ v < (acc + 1) * 16 ^ l.length := by
  induction l generalizing acc with
  | nil =>
    refine ⟨acc, rfl, ?_⟩
    simp
  | cons x r ih =>
    have hx : (hexVal x).isSome := h x (List.mem_cons_self x r)
    rcases Option.isSome_iff_exists.mp hx with ⟨d, hd⟩
    have hd15 : d ≤ 15 := hexVal_le_15 x d hd
    obtain ⟨v, hv, hvlt⟩ := ih (acc * 16 + d) (fun c hc => h c (List.mem_cons_of_mem x hc))
    refine ⟨v, ?_, ?_⟩
    · rw [parseHexCore, hd]
      exact hv
    · calc v < (acc * 16 + d + 1) * 16 ^ r.length := hvlt
      _ ≤ (acc + 1) * 16 ^ (x :: r).length := by
          rw [List.length_cons, pow_succ]
          nlinarith [pow_pos (by norm_num : (0:ℕ) < 16) r.length]

theorem parseUint_some_of_hex (l : List Char) (bits : Nat)
    (hne : l ≠ []) (h : ∀ c ∈ l, (hexVal c).isSome)
    (hbits : 16 ^ l.length ≤ 2 ^ bits) :
    ∃ v, parseUint l bits = some v := by
  obtain ⟨v, hv, hvlt⟩ := parseHexCore_some_of_hex l 0 h
  have hlt : v < 2 ^ bits := lt_of_lt_of_le (by simpa using hvlt) hbits
  refine ⟨v, ?_⟩
  rcases l with _ | ⟨x, r⟩
  · exact absurd rfl hne
  · simp [parseUint, hv, hlt]

theorem sub_length (l : List Char) (a b : Nat) (h16 : l.length = 16)
    (hab : a ≤ b) (hb : b ≤ 16) : (sub l a b).length = b - a := by
  unfold sub
  rw [List.length_take, List.length_drop, h16]
  omega

theorem sub_hex (l : List Char) (a b : Nat) (h : ∀ c ∈ l, (hexVal c).isSome) :
    ∀ c ∈ sub l a b, (hexVal c).isSome :=
  fun c hc => h c (mem_sub l a b c hc)

theorem newInstruction_of_RawOK (h : List Char) (hok : RawOK h) :
    ∃ i, newInstruction h = some i ∧ i.raw = h := by
  obtain ⟨hlen, hhex⟩ := hok
  have hsub : ∀ a b, a < b → b ≤ 16 → (sub h a b).length = b - a := by
    intro a b hab hb
    exact sub_length h a b hlen (by omega) hb
  have hne : ∀ a b, a < b → b ≤ 16 → sub h a b ≠ [] := by
    intro a b hab hb hnil
    have := hsub a b hab hb
    rw [hnil] at this
    simp at this
    omega
  have p1 : ∃ v, parseUint (sub h 0 2) 8 = some v := by
    apply parseUint_some_of_hex _ _ (hne 0 2 (by norm_num) (by norm_num)) (sub_hex h 0 2 hhex)
    rw [hsub 0 2 (by norm_num) (by norm_num)]
    norm_num
  have p2 : ∃ v, parseUint (sub h 2 4) 8 = some v := by
    apply parseUint_some_of_hex _ _ (hne 2 4 (by norm_num) (by norm_num)) (sub_hex h 2 4 hhex)
    rw [hsub 2 4 (by norm_num) (by norm_num)]
    norm_num
  have p3 : ∃ v, parseUint (sub h 6 8 ++ sub h 4 6) 16 = some v := by
    apply parseUint_some_of_hex
    · intro hnil
      rcases List.append_eq_nil.mp hnil with ⟨ha, _⟩
      exact hne 6 8 (by norm_num) (by norm_num) ha
    · intro c hc
      rcases List.mem_append.mp hc with hm | hm
      · exact sub_hex h 6 8 hhex c hm
      · exact sub_hex h 4 6 hhex c hm
    · rw [List.length_append, hsub 6 8 (by norm_num) (by norm_num),
        hsub 4 6 (by norm_num) (by norm_num)]
      norm_num
  have p4 : ∃ v, parseUint (sub h 8 10) 8 = some v := by
    apply parseUint_some_of_hex _ _ (hne 8 10 (by norm_num) (by norm_num)) (sub_hex h 8 10 hhex)
    rw [hsub 8 10 (by norm_num) (by norm_num)]
    norm_num
  have p5 : ∃ v, parseUint (sub h 10 12) 8 = some v := by
    apply parseUint_some_of_hex _ _ (hne 10 12 (by norm_num) (by norm_num)) (sub_hex h 10 12 hhex)
    rw [hsub 10 12 (by norm_num) (by norm_num)]
    norm_num
  have p6 : ∃ v, parseUint (sub h 12 14) 8 = some v := by
    apply parseUint_some_of_hex _ _ (hne 12 14 (by norm_num) (by norm_num)) (sub_hex h 12 14 hhex)
    rw [hsub 12 14 (by norm_num) (by norm_num)]
    norm_num
  have p7 : ∃ v, parseUint (sub h 14 16) 8 = some v := by
    apply parseUint_some_of_hex _ _ (hne 14 16 (by norm_num) (by norm_num)) (sub_hex h 14 16 hhex)
    rw [hsub 14 16 (by norm_num) (by norm_num)]
    norm_num
  obtain ⟨v1, hv1⟩ := p1
  obtain ⟨v2, hv2⟩ := p2
  obtain ⟨v3, hv3⟩ := p3
  obtain ⟨v4, hv4⟩ := p4
  obtain ⟨v5, hv5⟩ := p5
  obtain ⟨v6, hv6⟩ := p6
  obtain ⟨v7, hv7⟩ := p7
  have hni : newInstruction h =
      some { raw := h, opcode := v1, dstReg := v2 % 16, srcReg := (v2 / 16) % 16,
             off := toInt16 v3,
             imm := toInt32 (v4 + v5 * 256 + v6 * 65536 + v7 * 16777216) } := by
    unfold newInstruction
    rw [if_neg (by omega), hv1, hv2, hv3, hv4, hv5, hv6, hv7]
  exact ⟨_, hni, rfl⟩

end BPFOpt

namespace BPFOpt

/-- All instructions of a section carry well-formed raw strings. -/
def SecRawOK (s : Section) : Prop :=
  ∀ i ∈ s.instructions, RawOK i.raw

theorem RawOK_nop : RawOK nopRaw :=
  ⟨by decide, by decide⟩

theorem listModify_length {α : Type} (l : List α) (i : Nat) (f : α → α) :
    (listModify l i f).length = l.length := by
  induction l generalizing i with
  | nil => rfl
  | cons x r ih =>
    cases i with
    | zero => rfl
    | succ n => simp [listModify, ih]

theorem listModify_mem {α : Type} (l : List α) (i : Nat) (f : α → α) (x : α)
    (hx : x ∈ listModify l i f) :
    x ∈ l ∨ (i < l.length ∧ ∃ y ∈ l, x = f y) := by
  induction l generalizing i with
  | nil => cases hx
  | cons z r ih =>
    cases i with
    | zero =>
      rcases List.mem_cons.mp hx with rfl | hx
      · exact Or.inr ⟨by simp, z, List.mem_cons_self z r, rfl⟩
      · exact Or.inl (List.mem_cons_of_mem z hx)
    | succ n =>
      rcases List.mem_cons.mp hx with rfl | hx
      · exact Or.inl (List.mem_cons_self x r)
      · rcases ih n hx with hm | ⟨hn, y, hy, hxy⟩
        · exact Or.inl (List.mem_cons_of_mem z hm)
        · exact Or.inr ⟨by simp; omega, y, List.mem_cons_of_mem z hy, hxy⟩

theorem getD_mem_of_lt {α : Type} (l : List α) (n : Nat) (d : α)
    (h : n < l.length) : l.getD n d ∈ l := by
  induction l generalizing n with
  | nil => simp at h
  | cons x r ih =>
    cases n with
    | zero => exact List.mem_cons_self x r
    | succ m =>
      simp only [List.getD_cons_succ]
      exact List.mem_cons_of_mem x (ih m (by simp at h; omega))

theorem getIdx_mem {α : Type} (l : List α) (i : Int) (e : α)
    (h : getIdx l i = some e) : e ∈ l := by
  unfold getIdx at h
  split at h
  · cases h
  · exact List.get?_mem h

/-- A generic fold-preservation principle with membership. -/
theorem foldl_pres {α β : Type} (P : α → Prop) (f : α → β → α) (l : List β)
    (hf : ∀ a b, b ∈ l → P a → P (f a b)) (s : α) (hs : P s) :
    P (l.foldl f s) := by
  induction l generalizing s with
  | nil => exact hs
  | cons x r ih =>
    exact ih (fun a b hb ha => hf a b (List.mem_cons_of_mem x hb) ha)
      (f s x) (hf s x (List.mem_cons_self x r) hs)

theorem cp_newHex_RawOK (dep cand : List Char) (op : Nat)
    (hdep : RawOK dep) (hcand : RawOK cand) :
    RawOK (hex2 op ++ ['0'] ++ sub dep 3 8 ++ cand.drop 8) := by
  obtain ⟨hdl, hdh⟩ := hdep
  obtain ⟨hcl, hch⟩ := hcand
  constructor
  · rw [List.length_append, List.length_append, List.length_append,
      sub_length dep 3 8 hdl (by norm_num) (by norm_num), List.length_drop, hcl]
    rfl
  · intro c hc
    rcases List.mem_append.mp hc with hc | hc
    swap
    · exact hch c (List.mem_of_mem_drop hc)
    rcases List.mem_append.mp hc with hc | hc
    swap
    · exact hdh c (mem_sub dep 3 8 c hc)
    rcases List.mem_append.mp hc with hc | hc
    swap
    · have : c = (Char.ofNat 48) := by
        simpa using hc
      subst this
      decide
    · unfold hex2 at hc
      rcases List.mem_cons.mp hc with rfl | hc
      · rw [hexVal_hexDigitChar (op / 16 % 16) (Nat.mod_lt _ (by norm_num))]
        rfl
      · rcases List.mem_cons.mp hc with rfl | hc
        · rw [hexVal_hexDigitChar (op % 16) (Nat.mod_lt _ (by norm_num))]
          rfl
        · cases hc

theorem bc_newHex_RawOK (t : List Char) (hlen : t.length = 1)
    (hhex : ∀ c ∈ t, (hexVal c).isSome) :
    RawOK ("bc".toList ++ t ++ t ++ "000000000000".toList) := by
  constructor
  · simp [hlen]
  · intro c hc
    have hbc : ∀ x ∈ String.toList "bc", (hexVal x).isSome := by decide
    have hz : ∀ x ∈ String.toList "000000000000", (hexVal x).isSome := by decide
    rcases List.mem_append.mp hc with hc | hc
    swap
    · exact hz c hc
    rcases List.mem_append.mp hc with hc | hc
    swap
    · exact hhex c hc
    rcases List.mem_append.mp hc with hc | hc
    · exact hbc c hc
    · exact hhex c hc

end BPFOpt

namespace BPFOpt

theorem cpApplyDep_pres (cand : List Char) (s : Section) (d : Int)
    (hs : SecRawOK s) (hc : RawOK cand) :
    SecRawOK (cpApplyDep cand s d) ∧
      (cpApplyDep cand s d).instructions.length = s.instructions.length := by
  unfold cpApplyDep
  dsimp only
  split
  · rename_i hd
    constructor
    · intro i hi
      dsimp only at hi
      rcases listModify_mem _ _ _ _ hi with hm | ⟨hlt, y, hy, rfl⟩
      · exact hs i hm
      · have hget : getIdx s.instructions d =
            some (s.instructions.get ⟨d.toNat, hlt⟩) := by
          unfold getIdx
          rw [if_neg (by omega), List.get?_eq_get hlt]
        have hdep : RawOK ((getIdx s.instructions d).getD deadInstruction).raw := by
          rw [hget]
          exact hs _ (List.get_mem _ _ _)
        have hok := cp_newHex_RawOK
          ((getIdx s.instructions d).getD deadInstruction).raw cand
          ((((getIdx s.instructions d).getD deadInstruction).opcode &&& 0xF8) ||| 0x02)
          hdep hc
        obtain ⟨j, hj, hjraw⟩ := newInstruction_of_RawOK _ hok
        rw [hj]
        dsimp only [Option.getD]
        rw [hjraw]
        exact hok
    · dsimp only
      rw [listModify_length]
  · exact ⟨hs, rfl⟩

theorem cpApplyCand_pres (s : Section) (c : Nat)
    (hcn : c < s.instructions.length) (hs : SecRawOK s) :
    SecRawOK (cpApplyCand s c) ∧
      (cpApplyCand s c).instructions.length = s.instructions.length := by
  unfold cpApplyCand
  dsimp only
  have hcraw : RawOK (s.instructions.getD c deadInstruction).raw :=
    hs _ (getD_mem_of_lt _ _ _ hcn)
  have hfold := foldl_pres
    (fun t => SecRawOK t ∧ t.instructions.length = s.instructions.length)
    (fun t depIdx => cpApplyDep (s.instructions.getD c deadInstruction).raw t depIdx)
    ((s.dependencies.getD c {}).dependedBy)
    (fun a b _ ha =>
      ⟨(cpApplyDep_pres _ a b ha.1 hcraw).1,
       ((cpApplyDep_pres _ a b ha.1 hcraw).2).trans ha.2⟩)
    s ⟨hs, rfl⟩
  constructor
  · intro i hi
    dsimp only at hi
    rcases listModify_mem _ _ _ _ hi with hm | ⟨_, y, hy, rfl⟩
    · exact hfold.1 i hm
    · exact RawOK_nop
  · dsimp only
    rw [listModify_length]
    exact hfold.2

theorem applyConstantPropagation_pres (s : Section) (hs : SecRawOK s) :
    SecRawOK (applyConstantPropagation s) ∧
      (applyConstantPropagation s).instructions.length = s.instructions.length := by
  unfold applyConstantPropagation
  dsimp only
  apply foldl_pres
    (fun t => SecRawOK t ∧ t.instructions.length = s.instructions.length)
  · intro a b hb ha
    have hbn : b < s.instructions.length := by
      have := List.mem_filter.mp hb
      exact List.mem_range.mp this.1
    have := cpApplyCand_pres a b (by rw [ha.2]; exact hbn) ha.1
    exact ⟨this.1, this.2.trans ha.2⟩
  · exact ⟨hs, rfl⟩

end BPFOpt

namespace BPFOpt

theorem sub34_RawOK (r : List Char) (h : RawOK r) :
    (sub r 3 4).length = 1 ∧ ∀ c ∈ sub r 3 4, (hexVal c).isSome :=
  ⟨sub_length r 3 4 h.1 (by norm_num) (by norm_num),
   fun c hc => h.2 c (mem_sub r 3 4 c hc)⟩

theorem applyCompaction_pres (s : Section) (hs : SecRawOK s) :
    SecRawOK (applyCompaction s) ∧
      (applyCompaction s).instructions.length = s.instructions.length := by
  unfold applyCompaction
  dsimp only
  apply foldl_pres
    (fun t => SecRawOK t ∧ t.instructions.length = s.instructions.length)
  · intro a b hb ha
    have hbn : b < s.instructions.length := by
      have := List.mem_range.mp (List.mem_filter.mp hb).1
      omega
    have hbn2 : b < a.instructions.length := by rw [ha.2]; exact hbn
    have hbraw : RawOK (a.instructions.getD b deadInstruction).raw :=
      ha.1 _ (getD_mem_of_lt _ _ _ hbn2)
    obtain ⟨htl, hth⟩ := sub34_RawOK _ hbraw
    have hok := bc_newHex_RawOK _ htl hth
    obtain ⟨j, hj, hjraw⟩ := newInstruction_of_RawOK _ hok
    constructor
    · intro i hi
      dsimp only at hi
      rcases listModify_mem _ _ _ _ hi with hm | ⟨_, y, hy, rfl⟩
      swap
      · exact RawOK_nop
      rcases listModify_mem _ _ _ _ hm with hm2 | ⟨_, y, hy, rfl⟩
      · exact ha.1 i hm2
      · rw [hj]
        dsimp only [Option.getD]
        rw [hjraw]
        exact hok
    · dsimp only
      rw [listModify_length, listModify_length]
      exact ha.2
  · exact ⟨hs, rfl⟩

theorem applyPeepholeOptimization_pres (s : Section) (hs : SecRawOK s) :
    SecRawOK (applyPeepholeOptimization s) ∧
      (applyPeepholeOptimization s).instructions.length = s.instructions.length := by
  unfold applyPeepholeOptimization
  dsimp only
  apply foldl_pres
    (fun t => SecRawOK t ∧ t.instructions.length = s.instructions.length)
  · intro a c _ ha
    constructor
    · intro i hi
      dsimp only at hi
      rcases listModify_mem _ _ _ _ hi with hm | ⟨_, y, hy, rfl⟩
      swap
      · exact RawOK_nop
      rcases listModify_mem _ _ _ _ hm with hm2 | ⟨_, y, hy, rfl⟩
      swap
      · exact RawOK_nop
      clear hm hi
      split at hm2
      · rename_i hpos
        rcases listModify_mem _ _ _ _ hm2 with hm3 | ⟨hlt, y, hy, rfl⟩
        · exact ha.1 i hm3
        · have hget : getIdx a.instructions c.2 =
              some (a.instructions.get ⟨c.2.toNat, hlt⟩) := by
            unfold getIdx
            rw [if_neg (by omega), List.get?_eq_get hlt]
          have hdraw : RawOK ((getIdx a.instructions c.2).getD deadInstruction).raw := by
            rw [hget]
            exact ha.1 _ (List.get_mem _ _ _)
          obtain ⟨htl, hth⟩ := sub34_RawOK _ hdraw
          have hok := bc_newHex_RawOK _ htl hth
          obtain ⟨j, hj, hjraw⟩ := newInstruction_of_RawOK _ hok
          rw [hj]
          dsimp only [Option.getD]
          rw [hjraw]
          exact hok
      · exact ha.1 i hm2
    · dsimp only
      rw [listModify_length, listModify_length]
      split
      · rw [listModify_length]
        exact ha.2
      · exact ha.2
  · exact ⟨hs, rfl⟩

theorem swLoop_pres (fuel : Nat) :
    ∀ (s : Section) (i : Nat), SecRawOK s →
    SecRawOK (swLoop s fuel i) ∧
      (swLoop s fuel i).instructions.length = s.instructions.length := by
  induction fuel with
  | zero => intro s i hs; exact ⟨hs, rfl⟩
  | succ rem ih =>
    intro s i hs
    rw [swLoop]
    split
    · rename_i hlt
      dsimp only
      split
      · rename_i hcond
        have hin : i < s.instructions.length := by omega
        have hiraw : RawOK (s.instructions.getD i deadInstruction).raw :=
          hs _ (getD_mem_of_lt _ _ _ hin)
        have hnew : SecRawOK (Section.mk (listModify (listModify s.instructions i (fun _ => createMergedMemoryOp (s.instructions.getD i deadInstruction))) (i + 1) (fun _ => setAsNOP)) s.dependencies) := by
          intro x hx
          dsimp only at hx
          rcases listModify_mem _ _ _ _ hx with hm | ⟨_, y, hy, rfl⟩
          swap
          · exact RawOK_nop
          rcases listModify_mem _ _ _ _ hm with hm2 | ⟨_, y, hy, rfl⟩
          · exact hs x hm2
          · exact hiraw
        have hres := ih _ (i + 1) hnew
        refine ⟨hres.1, hres.2.trans ?_⟩
        dsimp only
        rw [listModify_length, listModify_length]
      · exact ih s (i + 1) hs
    · exact ⟨hs, rfl⟩

theorem applySuperwordMerge_pres (s : Section) (hs : SecRawOK s) :
    SecRawOK (applySuperwordMerge s) ∧
      (applySuperwordMerge s).instructions.length = s.instructions.length := by
  unfold applySuperwordMerge
  exact swLoop_pres _ s 0 hs

theorem applyOptimizations_pres (s : Section) (hs : SecRawOK s) :
    SecRawOK (applyOptimizations s) ∧
      (applyOptimizations s).instructions.length = s.instructions.length := by
  unfold applyOptimizations
  obtain ⟨h1, h1l⟩ := applyConstantPropagation_pres s hs
  obtain ⟨h2, h2l⟩ := applyCompaction_pres _ h1
  obtain ⟨h3, h3l⟩ := applyPeepholeOptimization_pres _ h2
  obtain ⟨h4, h4l⟩ := applySuperwordMerge_pres _ h3
  exact ⟨h4, h4l.trans (h3l.trans (h2l.trans h1l))⟩

end BPFOpt

namespace BPFOpt

theorem hexPairsToBytes_len_aux :
    ∀ (n : Nat) (l : List Char), l.length ≤ n →
      (hexPairsToBytes l).length = l.length / 2 := by
  intro n
  induction n with
  | zero =>
    intro l hl
    rcases l with _ | ⟨c, t⟩
    · rfl
    · simp at hl
  | succ m ih =>
    intro l hl
    rcases l with _ | ⟨c1, t⟩
    · rfl
    rcases t with _ | ⟨c2, r⟩
    · simp [hexPairsToBytes]
    · have hr : r.length ≤ m := by
        simp at hl
        omega
      have := ih r hr
      simp only [hexPairsToBytes, List.length_cons, this]
      omega

theorem hexPairsToBytes_len (l : List Char) :
    (hexPairsToBytes l).length = l.length / 2 :=
  hexPairsToBytes_len_aux l.length l le_rfl

theorem foldl_append_len (insts : List Instruction) :
    ∀ acc : List Char, (∀ i ∈ insts, i.raw.length = 16) →
      (insts.foldl (fun acc i => acc ++ i.raw) acc).length =
        acc.length + 16 * insts.length := by
  induction insts with
  | nil => intro acc _; simp
  | cons x r ih =>
    intro acc h
    simp only [List.foldl_cons]
    rw [ih (acc ++ x.raw) (fun i hi => h i (List.mem_cons_of_mem x hi))]
    rw [List.length_append, h x (List.mem_cons_self x r)]
    simp only [List.length_cons]
    ring

theorem Dump_len (s : Section) (hs : SecRawOK s) :
    (Dump s).length = 8 * s.instructions.length := by
  unfold Dump
  rw [hexPairsToBytes_len,
    foldl_append_len s.instructions [] (fun i hi => (hs i hi).1)]
  simp
  omega

theorem parseInstructionsCount_len :
    ∀ (k : Nat) (l : List Char) (r : List Instruction),
      parseInstructionsCount k l = some r → r.length = k := by
  intro k
  induction k with
  | zero =>
    intro l r h
    cases h
    rfl
  | succ m ih =>
    intro l r h
    rw [parseInstructionsCount] at h
    rcases h1 : newInstruction (l.take 16) with _ | i <;> rw [h1] at h
    · cases h
    rcases h2 : parseInstructionsCount m (l.drop 16) with _ | t <;> rw [h2] at h
    · cases h
    cases h
    simp only [List.length_cons, ih _ _ h2]

theorem parseInstructionsCount_RawOK :
    ∀ (k : Nat) (l : List Char) (r : List Instruction),
      parseInstructionsCount k l = some r → ∀ i ∈ r, RawOK i.raw := by
  intro k
  induction k with
  | zero =>
    intro l r h i hi
    cases h
    cases hi
  | succ m ih =>
    intro l r h i hi
    rw [parseInstructionsCount] at h
    rcases h1 : newInstruction (l.take 16) with _ | j <;> rw [h1] at h
    · cases h
    rcases h2 : parseInstructionsCount m (l.drop 16) with _ | t <;> rw [h2] at h
    · cases h
    cases h
    rcases List.mem_cons.mp hi with rfl | hi
    · obtain ⟨hraw, hok⟩ := newInstruction_some_raw _ _ h1
      rw [hraw]
      exact hok
    · exact ih _ _ h2 i hi

theorem hexEncode_len (bytes : List Nat) :
    (hexEncode bytes).length = 2 * bytes.length := by
  induction bytes with
  | nil => rfl
  | cons b r ih =>
    unfold hexEncode at ih ⊢
    rw [List.foldr_cons, List.length_append, ih]
    have h2 : (hex2 b).length = 2 := rfl
    rw [h2]
    simp only [List.length_cons]
    omega

end BPFOpt

namespace BPFOpt

/-- Claim C2 (amended: conditioned on the pipeline completing, which the
recorded counterexample shows is not guaranteed for every length-multiple
of 8): whenever the full pipeline (section construction with all
optimization passes, then serialization) produces an output byte slice,
that output has exactly the length of the input byte slice — every
instruction slot survives the passes (removed instructions are overwritten
in place, e.g. by the canonical no-op, never deleted). -/
theorem C2_size_preserved (bytes out : List Nat)
    (h : runPipeline bytes = some out) : out.length = bytes.length := by
  unfold runPipeline at h
  rcases hsec : newSection (hexEncode bytes) false with _ | sec <;> rw [hsec] at h
  · cases h
  cases h
  unfold newSection at hsec
  split at hsec
  · cases hsec
  rename_i hmod
  rcases hp : parseInstructions (hexEncode bytes) with _ | insts <;> rw [hp] at hsec
  · cases hsec
  dsimp only at hsec
  rcases hb : buildDependencies (engineFuel insts.length)
      (Section.mk insts (List.replicate insts.length {})) with _ | r <;>
    rw [hb] at hsec
  · cases hsec
  rcases r with ⟨sec1, cfg⟩
  dsimp only at hsec
  rw [if_neg (by simp)] at hsec
  cases hsec
  have hinsts : sec1.instructions = insts :=
    buildDependencies_instructions _ _ _ hb
  have hrawok : SecRawOK sec1 := by
    intro i hi
    rw [hinsts] at hi
    exact parseInstructionsCount_RawOK _ _ _ hp i hi
  have hn : insts.length = (hexEncode bytes).length / 16 :=
    parseInstructionsCount_len _ _ _ hp
  obtain ⟨hok, hlen⟩ := applyOptimizations_pres sec1 hrawok
  rw [Dump_len _ hok, hlen, hinsts, hn, hexEncode_len]
  have hmul : (2 * bytes.length) % 16 = 0 := by
    rw [hexEncode_len] at hmod
    omega
  omega

end BPFOpt

namespace BPFOpt

/-- Concrete run discharging the hypothesis of the C2 theorem: an 8-byte
input whose pipeline output is the canonical no-op, of the same length. -/
theorem C2_size_preserved_witness :
    ([5, 0, 0, 0, 0, 0, 0, 0] : List Nat).length =
      ([0xb7, 0x01, 0, 0, 0x0a, 0, 0, 0] : List Nat).length :=
  C2_size_preserved [0xb7, 0x01, 0, 0, 0x0a, 0, 0, 0]
    [5, 0, 0, 0, 0, 0, 0, 0] (by decide)

end BPFOpt
namespace BPFOpt

/-- The readiness test applied to each candidate inside `findNextNode`:
not yet done, not excluded as an EXIT block while a loop is active, and
all predecessors done. -/
def readyNode (s : Section) (cfg : ControlFlowGraph) (done : List Int)
    (loopNonNil : Bool) (node : Int) : Bool :=
  !done.contains node &&
  !(loopNonNil && containsExitBlock s.instructions cfg.nodesLen node) &&
  ((mapGet cfg.nodesRev node).getD []).all (fun p => done.contains p)

theorem mem_insertSorted (x y : Int) (l : List Int) :
    y ∈ insertSorted x l ↔ y = x ∨ y ∈ l := by
  induction l with
  | nil => simp [insertSorted]
  | cons z r ih =>
    rw [insertSorted]
    split
    · simp
    · simp only [List.mem_cons, ih]
      tauto

theorem insertSorted_pairwise (x : Int) (l : List Int)
    (h : l.Pairwise (· ≤ ·)) : (insertSorted x l).Pairwise (· ≤ ·) := by
  induction l with
  | nil => simp [insertSorted]
  | cons z r ih =>
    rw [insertSorted]
    rw [List.pairwise_cons] at h
    split
    · rename_i hxz
      rw [List.pairwise_cons]
      constructor
      · intro b hb
        rcases List.mem_cons.mp hb with rfl | hb
        · exact hxz
        · exact le_trans hxz (h.1 b hb)
      · exact List.pairwise_cons.mpr h
    · rename_i hxz
      rw [List.pairwise_cons]
      constructor
      · intro b hb
        rcases (mem_insertSorted x b r).mp hb with rfl | hb
        · omega
        · exact h.1 b hb
      · exact ih h.2

theorem mem_sortInts (y : Int) (l : List Int) : y ∈ sortInts l ↔ y ∈ l := by
  unfold sortInts
  induction l with
  | nil => simp
  | cons z r ih =>
    simp only [List.foldr_cons, mem_insertSorted, List.mem_cons, ih]

theorem sortInts_pairwise (l : List Int) : (sortInts l).Pairwise (· ≤ ·) := by
  unfold sortInts
  induction l with
  | nil => simp
  | cons z r ih => exact insertSorted_pairwise z _ ih

/-- Characterization of a fold that overwrites its accumulator with every
element passing a test: over an ascending list it returns the largest
passing element (or the initial accumulator when none passes). -/
theorem lastReady_char (ready : Int → Bool) (g : Int → Int × Option RegisterState)
    (hg : ∀ n, (g n).1 = n) :
    ∀ (l : List Int), l.Pairwise (· ≤ ·) →
      ∀ acc : Int × Option RegisterState,
      ((∀ n ∈ l, ready n = false) →
        l.foldl (fun a n => if ready n then g n else a) acc = acc) ∧
      ((∃ n ∈ l, ready n = true) →
        ready (l.foldl (fun a n => if ready n then g n else a) acc).1 = true ∧
        (l.foldl (fun a n => if ready n then g n else a) acc).1 ∈ l ∧
        ∀ n ∈ l, ready n = true →
          n ≤ (l.foldl (fun a n => if ready n then g n else a) acc).1) := by
  intro l
  induction l with
  | nil =>
    intro _ acc
    refine ⟨fun _ => rfl, ?_⟩
    rintro ⟨n, hn, _⟩
    cases hn
  | cons x r ih =>
    intro hsort acc
    rw [List.pairwise_cons] at hsort
    have ihr := ih hsort.2
    constructor
    · intro hall
      have hx : ready x = false := hall x (List.mem_cons_self x r)
      rw [List.foldl_cons, if_neg (by rw [hx]; exact Bool.false_ne_true)]
      exact (ihr acc).1 (fun n hn => hall n (List.mem_cons_of_mem x hn))
    · rintro ⟨n0, hn0, hready0⟩
      by_cases hx : ready x = true
      · rw [List.foldl_cons, if_pos hx]
        by_cases hr : ∃ n ∈ r, ready n = true
        · obtain ⟨h1, h2, h3⟩ := (ihr (g x)).2 hr
          refine ⟨h1, List.mem_cons_of_mem x h2, ?_⟩
          intro n hn hready
          rcases List.mem_cons.mp hn with rfl | hn
          · exact hsort.1 _ h2
          · exact h3 n hn hready
        · have hall : ∀ n ∈ r, ready n = false := by
            intro n hn
            by_contra hc
            exact hr ⟨n, hn, by revert hc; cases ready n <;> simp⟩
          rw [(ihr (g x)).1 hall]
          refine ⟨by rw [hg]; exact hx, by rw [hg]; exact List.mem_cons_self x r, ?_⟩
          intro n hn hready
          rcases List.mem_cons.mp hn with rfl | hn
          · rw [hg]
          · rw [hall n hn] at hready
            cases hready
      · have hxf : ready x = false := by revert hx; cases ready x <;> simp
        rw [List.foldl_cons, if_neg (by rw [hxf]; exact Bool.false_ne_true)]
        have hr : ∃ n ∈ r, ready n = true := by
          rcases List.mem_cons.mp hn0 with rfl | hn
          · rw [hxf] at hready0; cases hready0
          · exact ⟨n0, hn, hready0⟩
        obtain ⟨h1, h2, h3⟩ := (ihr acc).2 hr
        refine ⟨h1, List.mem_cons_of_mem x h2, ?_⟩
        intro n hn hready
        rcases List.mem_cons.mp hn with rfl | hn
        · rw [hxf] at hready; cases hready
        · exact h3 n hn hready

end BPFOpt

namespace BPFOpt

theorem findNextNode_eq_fold (s : Section) (cfg : ControlFlowGraph)
    (done : List Int) (loopNonNil : Bool) :
    findNextNode s cfg done loopNonNil =
      (sortInts (mapKeys cfg.nodesRev)).foldl
        (fun a n => if readyNode s cfg done loopNonNil n = true
          then (n, some (MergeRegisterStates
            (((mapGet cfg.nodesRev n).getD []).filterMap
              (fun p => mapGet cfg.nodeStats p))))
          else a)
        (0, none) := by
  unfold findNextNode
  apply List.foldl_ext
  intro a n hn
  by_cases h1 : done.contains n = true
  · simp only [readyNode, h1]
    simp
  · have h1f : done.contains n = false := by
      revert h1
      cases done.contains n <;> simp
    by_cases h2 : (loopNonNil && containsExitBlock s.instructions cfg.nodesLen n) = true
    · simp only [readyNode, h1f, h2]
      simp
    · have h2f : (loopNonNil && containsExitBlock s.instructions cfg.nodesLen n) = false := by
        revert h2
        cases (loopNonNil && containsExitBlock s.instructions cfg.nodesLen n) <;> simp
      by_cases h3 : ((mapGet cfg.nodesRev n).getD []).all (fun p => done.contains p) = true
      · simp only [readyNode, h1f, h2f, h3]
        simp
      · have h3f : ((mapGet cfg.nodesRev n).getD []).all (fun p => done.contains p) = false := by
          revert h3
          cases ((mapGet cfg.nodesRev n).getD []).all (fun p => done.contains p) <;> simp
        simp only [readyNode, h1f, h2f, h3f]
        simp

/-- Claim C6 (amended: the source's `break` is commented out, so the scan
keeps overwriting its result with every ready block and therefore selects
the LARGEST ready id, not the first in ascending order): among the
reverse-map block ids, if none is ready the scan returns `(0, none)`; if
any is ready it returns a ready block id that is an upper bound of all
ready block ids (subject to the in-loop exclusion of EXIT blocks). -/
theorem C6_largest_ready (s : Section) (cfg : ControlFlowGraph)
    (done : List Int) (loopNonNil : Bool) :
    ((∀ n ∈ mapKeys cfg.nodesRev, readyNode s cfg done loopNonNil n = false) →
      findNextNode s cfg done loopNonNil = (0, none)) ∧
    ((∃ n ∈ mapKeys cfg.nodesRev, readyNode s cfg done loopNonNil n = true) →
      readyNode s cfg done loopNonNil (findNextNode s cfg done loopNonNil).1 = true ∧
      (findNextNode s cfg done loopNonNil).1 ∈ mapKeys cfg.nodesRev ∧
      ∀ n ∈ mapKeys cfg.nodesRev, readyNode s cfg done loopNonNil n = true →
        n ≤ (findNextNode s cfg done loopNonNil).1) := by
  have hchar := lastReady_char (readyNode s cfg done loopNonNil)
    (fun n => (n, some (MergeRegisterStates
      (((mapGet cfg.nodesRev n).getD []).filterMap
        (fun p => mapGet cfg.nodeStats p)))))
    (fun n => rfl)
    (sortInts (mapKeys cfg.nodesRev)) (sortInts_pairwise _) (0, none)
  rw [findNextNode_eq_fold]
  constructor
  · intro hall
    exact hchar.1 (fun n hn => hall n ((mem_sortInts n _).mp hn))
  · rintro ⟨n0, hn0, hr0⟩
    obtain ⟨h1, h2, h3⟩ := hchar.2 ⟨n0, (mem_sortInts n0 _).mpr hn0, hr0⟩
    exact ⟨h1, (mem_sortInts _ _).mp h2,
      fun n hn hr => h3 n ((mem_sortInts n _).mpr hn) hr⟩

/-- Concrete instance discharging the hypotheses of the C6 theorem: in the
two-ready-block CFG, the selected block is ready and is at least 8 (so it
is 8, the largest, not 4, the first). -/
theorem C6_largest_ready_witness :
    readyNode c6sec c6cfg [0] false (findNextNode c6sec c6cfg [0] false).1 = true ∧
    (8 : Int) ≤ (findNextNode c6sec c6cfg [0] false).1 := by
  have h := (C6_largest_ready c6sec c6cfg [0] false).2 ⟨8, by decide, by decide⟩
  exact ⟨h.1, h.2.2 8 (by decide) (by decide)⟩

end BPFOpt
namespace BPFOpt

theorem listModify_getD_ne {α : Type} (l : List α) (j : Nat) (f : α → α)
    (p : Nat) (d : α) (h : p ≠ j) :
    (listModify l j f).getD p d = l.getD p d := by
  induction l generalizing j p with
  | nil => rfl
  | cons x r ih =>
    cases j with
    | zero =>
      cases p with
      | zero => exact absurd rfl h
      | succ q => rfl
    | succ m =>
      cases p with
      | zero => rfl
      | succ q =>
        simp only [listModify, List.getD_cons_succ]
        exact ih m q (by omega)

theorem listModify_getD_eq {α : Type} (l : List α) (j : Nat) (f : α → α)
    (d : α) (h : j < l.length) :
    (listModify l j f).getD j d = f (l.getD j d) := by
  induction l generalizing j with
  | nil => simp at h
  | cons x r ih =>
    cases j with
    | zero => rfl
    | succ m =>
      simp only [listModify, List.getD_cons_succ]
      exact ih m (by simp at h; omega)

/-- The replacement written at a compaction candidate: a zero-extending
MOV of the candidate's dst-nibble register. -/
def bcOf (insts : List Instruction) (p : Nat) : Instruction :=
  (newInstruction ("bc".toList ++ sub (insts.getD p deadInstruction).raw 3 4 ++
    sub (insts.getD p deadInstruction).raw 3 4 ++
    "000000000000".toList)).getD deadInstruction

theorem compactionCond_opcode2 (insts : List Instruction) (i : Nat)
    (h : compactionCond insts i = true) :
    (insts.getD (i + 1) deadInstruction).opcode = 0x77 := by
  unfold compactionCond at h
  simp only [decide_eq_true_eq] at h
  exact h.2.1

theorem compactionCond_opcode1 (insts : List Instruction) (i : Nat)
    (h : compactionCond insts i = true) :
    (insts.getD i deadInstruction).opcode = 0x67 := by
  unfold compactionCond at h
  simp only [decide_eq_true_eq] at h
  exact h.1

theorem compactionCond_not_adjacent (insts : List Instruction) (i : Nat)
    (h : compactionCond insts i = true) :
    compactionCond insts (i + 1) = false := by
  by_contra hc
  have h2 : compactionCond insts (i + 1) = true := by
    revert hc
    cases compactionCond insts (i + 1) <;> simp
  have ha := compactionCond_opcode2 insts i h
  have hb := compactionCond_opcode1 insts (i + 1) h2
  rw [ha] at hb
  cases hb

theorem compactFold (s0 : List Instruction) :
    ∀ (cs : List Nat) (sec : Section),
      sec.instructions.length = s0.length →
      (∀ c ∈ cs, c + 1 < s0.length ∧ compactionCond s0 c = true) →
      cs.Pairwise (fun a b => a + 2 ≤ b) →
      (∀ c ∈ cs, sec.instructions.getD c deadInstruction =
        s0.getD c deadInstruction) →
      (∀ p : Nat,
        (cs.foldl
          (fun s candIdx =>
            let targetReg := sub (s.instructions.getD candIdx deadInstruction).raw 3 4
            let newHex := "bc".toList ++ targetReg ++ targetReg ++ "000000000000".toList
            let newInst := (newInstruction newHex).getD deadInstruction
            let insts := listModify s.instructions candIdx (fun _ => newInst)
            let insts := listModify insts (candIdx + 1) (fun _ => setAsNOP)
            { s with instructions := insts })
          sec).instructions.getD p deadInstruction =
        if p ∈ cs then bcOf s0 p
        else if ∃ c ∈ cs, p = c + 1 then setAsNOP
        else sec.instructions.getD p deadInstruction) := by
  intro cs
  induction cs with
  | nil =>
    intro sec _ _ _ _ p
    simp
  | cons c rest ih =>
    intro sec hlen hcs hpw hsame p
    rw [List.pairwise_cons] at hpw
    have hc := hcs c (List.mem_cons_self c rest)
    have hcur : sec.instructions.getD c deadInstruction = s0.getD c deadInstruction :=
      hsame c (List.mem_cons_self c rest)
    rw [List.foldl_cons]
    dsimp only
    have hlen2 : (listModify (listModify sec.instructions c
        (fun _ => (newInstruction ("bc".toList ++
          sub (sec.instructions.getD c deadInstruction).raw 3 4 ++
          sub (sec.instructions.getD c deadInstruction).raw 3 4 ++
          "000000000000".toList)).getD deadInstruction))
        (c + 1) (fun _ => setAsNOP)).length = s0.length := by
      rw [listModify_length, listModify_length]
      exact hlen
    have hres := ih (Section.mk (listModify (listModify sec.instructions c
        (fun _ => (newInstruction ("bc".toList ++
          sub (sec.instructions.getD c deadInstruction).raw 3 4 ++
          sub (sec.instructions.getD c deadInstruction).raw 3 4 ++
          "000000000000".toList)).getD deadInstruction))
        (c + 1) (fun _ => setAsNOP)) sec.dependencies)
      hlen2
      (fun c' hc' => hcs c' (List.mem_cons_of_mem c hc'))
      hpw.2
      (fun c' hc' => by
        have hgap : c + 2 ≤ c' := hpw.1 c' hc'
        dsimp only
        rw [listModify_getD_ne _ _ _ _ _ (by omega),
          listModify_getD_ne _ _ _ _ _ (by omega)]
        exact hsame c' (List.mem_cons_of_mem c hc'))
      p
    rw [hres]
    by_cases hp1 : p ∈ rest
    · have hgap : c + 2 ≤ p := hpw.1 p hp1
      rw [if_pos hp1, if_pos (List.mem_cons_of_mem c hp1)]
    · rw [if_neg hp1]
      by_cases hp2 : ∃ c' ∈ rest, p = c' + 1
      · obtain ⟨c', hc', rfl⟩ := hp2
        have hgap : c + 2 ≤ c' := hpw.1 c' hc'
        rw [if_pos ⟨c', hc', rfl⟩]
        rw [if_neg ?hne]
        case hne =>
          intro hmem
          rcases List.mem_cons.mp hmem with heq | hmem
          · omega
          · exact hp1 hmem
        rw [if_pos ⟨c', List.mem_cons_of_mem c hc', rfl⟩]
      · rw [if_neg hp2]
        dsimp only
        by_cases hpc : p = c
        · subst hpc
          rw [if_pos (List.mem_cons_self p rest)]
          rw [listModify_getD_ne _ _ _ _ _ (by omega),
            listModify_getD_eq _ _ _ _ (by omega)]
          unfold bcOf
          rw [hcur]
        · by_cases hpc1 : p = c + 1
          · subst hpc1
            rw [if_neg ?hne2]
            case hne2 =>
              intro hmem
              rcases List.mem_cons.mp hmem with heq | hmem
              · omega
              · exact hp1 hmem
            rw [if_pos ⟨c, List.mem_cons_self c rest, rfl⟩]
            rw [listModify_getD_eq _ _ _ _ (by rw [listModify_length]; omega)]
          · rw [if_neg ?hne3]
            case hne3 =>
              intro hmem
              rcases List.mem_cons.mp hmem with heq | hmem
              · exact hpc heq
              · exact hp1 hmem
            rw [if_neg ?hne4]
            case hne4 =>
              rintro ⟨c', hc', rfl⟩
              rcases List.mem_cons.mp hc' with heq | hmem
              · omega
              · exact hp2 ⟨c', hmem, rfl⟩
            rw [listModify_getD_ne _ _ _ _ _ (by omega),
              listModify_getD_ne _ _ _ _ _ (by omega)]

end BPFOpt

namespace BPFOpt

/-- Claim C7 (amended: the live pass does NOT compare the two dst
registers): `applyCompaction` rewrites position `i` to the zero-extending
MOV `bcRR000000000000` and position `i+1` to the canonical no-op exactly
when instruction `i` is LSH-immediate 0x67, instruction `i+1` is
RSH-immediate 0x77 and both raw immediate tails are `20000000` (imm 32) —
with NO same-dst-register requirement; every other position is unchanged. -/
theorem C7_compaction_characterization (s : Section) (p : Nat) :
    (applyCompaction s).instructions.getD p deadInstruction =
      if p < s.instructions.length - 1 ∧ compactionCond s.instructions p = true
      then bcOf s.instructions p
      else if 1 ≤ p ∧ p - 1 < s.instructions.length - 1 ∧
          compactionCond s.instructions (p - 1) = true
      then setAsNOP
      else s.instructions.getD p deadInstruction := by
  have hmem : ∀ q, q ∈ (List.range (s.instructions.length - 1)).filter
      (fun i => compactionCond s.instructions i) ↔
      (q < s.instructions.length - 1 ∧ compactionCond s.instructions q = true) := by
    intro q
    rw [List.mem_filter, List.mem_range]
  have hpwlt : ((List.range (s.instructions.length - 1)).filter
      (fun i => compactionCond s.instructions i)).Pairwise (· < ·) :=
    (List.pairwise_lt_range _).filter _
  have hpw : ((List.range (s.instructions.length - 1)).filter
      (fun i => compactionCond s.instructions i)).Pairwise (fun a b => a + 2 ≤ b) := by
    apply List.Pairwise.imp_of_mem ?_ hpwlt
    intro a b ha hb hab
    by_cases hadj : b = a + 1
    · subst hadj
      have hca := ((hmem a).mp ha).2
      have hcb := ((hmem (a + 1)).mp hb).2
      rw [compactionCond_not_adjacent s.instructions a hca] at hcb
      cases hcb
    · omega
  have hcs : ∀ c ∈ (List.range (s.instructions.length - 1)).filter
      (fun i => compactionCond s.instructions i),
      c + 1 < s.instructions.length ∧ compactionCond s.instructions c = true := by
    intro c hc
    have := (hmem c).mp hc
    exact ⟨by omega, this.2⟩
  have heq := compactFold s.instructions
    ((List.range (s.instructions.length - 1)).filter
      (fun i => compactionCond s.instructions i))
    s rfl hcs hpw (fun c _ => rfl) p
  unfold applyCompaction
  dsimp only
  rw [heq]
  by_cases h1 : p ∈ (List.range (s.instructions.length - 1)).filter
      (fun i => compactionCond s.instructions i)
  · rw [if_pos h1, if_pos ((hmem p).mp h1)]
  · rw [if_neg h1, if_neg (fun hcond => h1 ((hmem p).mpr hcond))]
    by_cases h2 : ∃ c ∈ (List.range (s.instructions.length - 1)).filter
        (fun i => compactionCond s.instructions i), p = c + 1
    · obtain ⟨c, hc, rfl⟩ := h2
      have hcc := (hmem c).mp hc
      rw [if_pos ⟨c, hc, rfl⟩, if_pos ⟨by omega, by
        constructor
        · omega
        · have : c + 1 - 1 = c := by omega
          rw [this]
          exact hcc.2⟩]
    · rw [if_neg h2, if_neg ?hne]
      case hne =>
        rintro ⟨hp1, hp2, hp3⟩
        exact h2 ⟨p - 1, (hmem (p - 1)).mpr ⟨hp2, hp3⟩, by omega⟩

end BPFOpt
namespace BPFOpt

theorem purAliasUpdate_registers (r : Int) (inst : Instruction)
    (st st' : RegisterState) (h : purAliasUpdate r inst st = some st') :
    st'.registers = st.registers := by
  unfold purAliasUpdate at h
  split at h
  · rcases hs : setIdx st.regAlias (inst.dstReg : Int) 0 with _ | ra <;> rw [hs] at h
    · cases h
    · cases h
      rfl
  · rcases hg : getIdx st.regAlias (inst.dstReg : Int) with _ | a <;> rw [hg] at h
    · cases h
    dsimp only at h
    split at h
    · rcases hs : setIdx st.regAlias (inst.dstReg : Int)
          (wrap16 (a + wrap16 inst.imm)) with _ | ra <;> rw [hs] at h
      · cases h
      · cases h
        rfl
    split at h
    · rcases hs : setIdx st.regAlias (inst.dstReg : Int) (-1) with _ | ra <;>
        rw [hs] at h
      · cases h
      · cases h
        rfl
    · cases h
      rfl

theorem purAliasStack_registers (s : Section) (i al : Int) (st : RegisterState) :
    (purAliasStack s i al st).2.registers = st.registers := by
  unfold purAliasStack
  rcases mapGet st.stackMap al with _ | l
  · rfl
  · rfl

theorem purOneDep_registers (s : Section) (i r d : Int) (st : RegisterState) :
    (purOneDep s i r d st).2.registers = st.registers := by
  unfold purOneDep
  dsimp only
  split
  · exact purAliasStack_registers _ _ _ _
  · rfl

theorem foldl_purOneDep_registers (l : List Int) (i r : Int) :
    ∀ (acc : Section × RegisterState),
      ((l.foldl (fun acc dep => purOneDep acc.1 i r dep acc.2) acc).2).registers =
        acc.2.registers := by
  induction l with
  | nil => intro acc; rfl
  | cons d rest ih =>
    intro acc
    rw [List.foldl_cons]
    rw [ih]
    exact purOneDep_registers _ _ _ _ _

theorem purOneReg_registers (s : Section) (i r : Int) (inst : Instruction)
    (st : RegisterState) (p : Section × RegisterState)
    (h : purOneReg s i r inst st = some p) :
    p.2.registers = st.registers := by
  unfold purOneReg at h
  split at h
  · cases h
    rfl
  · rcases ha : purAliasUpdate r inst st with _ | st1 <;> rw [ha] at h
    · cases h
    have hreg := purAliasUpdate_registers r inst st st1 ha
    dsimp only at h
    split at h
    · cases h
      exact hreg
    · cases h
      rw [foldl_purOneDep_registers]
      exact hreg

theorem ProcessUsedRegisters_registers (l : List Int) (i : Int)
    (inst : Instruction) :
    ∀ (acc : Section × RegisterState) (p : Section × RegisterState),
      (l.foldlM (fun acc regIdx => purOneReg acc.1 i regIdx inst acc.2) acc =
        some p) → p.2.registers = acc.2.registers := by
  induction l with
  | nil =>
    intro acc p h
    cases h
    rfl
  | cons r rest ih =>
    intro acc p h
    rw [List.foldlM_cons] at h
    rcases h1 : purOneReg acc.1 i r inst acc.2 with _ | q <;> rw [h1] at h
    · cases h
    · rw [ih q p h]
      exact purOneReg_registers _ _ _ _ _ _ h1

theorem PUR_registers (s : Section) (i : Int) (a : InstructionAnalysis)
    (inst : Instruction) (st : RegisterState) (p : Section × RegisterState)
    (h : ProcessUsedRegisters s i a inst st = some p) :
    p.2.registers = st.registers :=
  ProcessUsedRegisters_registers a.usedReg i inst (s, st) p h

end BPFOpt

namespace BPFOpt

/-- The pure registers-effect of `clearCallerSaved`. -/
def clearRegs (l : List (List Int)) : List (List Int) :=
  listModify (listModify (listModify (listModify (listModify l 1 (fun _ => []))
    2 (fun _ => [])) 3 (fun _ => [])) 4 (fun _ => [])) 5 (fun _ => [])

theorem clearCallerSaved_registers (st : RegisterState) :
    (clearCallerSaved st).registers = clearRegs st.registers := rfl

theorem PUS_state (s : Section) (i : Int) (a : InstructionAnalysis)
    (st : RegisterState) (h : a.usedStack = [] ∨ a.usedStack = [0, 0]) :
    (ProcessUsedStack s i a st).2 = st := by
  unfold ProcessUsedStack
  rcases h with h | h <;> rw [h]
  · rfl
  · rfl

theorem aliasReset_registers (inst : Instruction) (state st1 : RegisterState)
    (h : (if inst.opcode ≠ 0xBF ∧ inst.opcode ≠ 0x07 then
        (setIdx state.regAlias (inst.dstReg : Int) (-1)).map
          (fun ra => { state with regAlias := ra })
      else some state) = some st1) :
    st1.registers = state.registers := by
  split at h
  · rcases hs : setIdx state.regAlias (inst.dstReg : Int) (-1) with _ | ra <;>
      rw [hs] at h
    · cases h
    · cases h
      rfl
  · cases h
    rfl

theorem buildRegStep_registers (s : Section) (state : RegisterState)
    (done : List Int) (sr : Bool) (nrl : Nat) (base instIdx : Int)
    (inst : Instruction) (A : InstructionAnalysis) (s' : Section)
    (st' : RegisterState) (d' : List Int) (r' : Bool)
    (hop0 : inst.opcode ≠ 0)
    (hana : analyzeInstruction inst = A)
    (hus : A.usedStack = [] ∨ A.usedStack = [0, 0])
    (hupd : A.updatedStack = [])
    (hres : buildRegStep s state done sr nrl base instIdx inst =
      some (s', st', d', r')) :
    (0 ≤ A.updatedReg → A.updatedReg.toNat < state.registers.length) ∧
    st'.registers =
      (if A.isCall then
        clearRegs (if 0 ≤ A.updatedReg then
          state.registers.set A.updatedReg.toNat [instIdx] else state.registers)
      else
        (if 0 ≤ A.updatedReg then
          state.registers.set A.updatedReg.toNat [instIdx] else state.registers)) := by
  unfold buildRegStep at hres
  rw [if_neg (by simpa using hop0)] at hres
  dsimp only at hres
  rw [hana] at hres
  split at hres
  · cases hres
  rename_i st1 hst1
  have hr1 : st1.registers = state.registers := aliasReset_registers inst state st1 hst1
  split at hres
  · cases hres
  rename_i s2 st2 hq
  have hr2 : st2.registers = st1.registers := PUR_registers _ _ _ _ _ _ hq
  split at hres
  · cases hres
  rename_i st3 hst3
  rw [hupd] at hres
  rw [if_neg (by norm_num)] at hres
  split at hst3
  · rename_i hup
    rcases hset : setIdx st2.registers A.updatedReg [instIdx] with _ | regs3 <;>
      rw [hset] at hst3
    · cases hst3
    dsimp only [Option.map] at hst3
    cases hst3
    unfold setIdx at hset
    split at hset
    · cases hset
    rename_i hcond
    cases hset
    have hlen : A.updatedReg.toNat < state.registers.length := by
      rw [← hr1, ← hr2]
      omega
    refine ⟨fun _ => hlen, ?_⟩
    split at hres <;> rename_i hic <;> cases hres
    · rw [if_pos hic, if_pos hup, PUS_state _ _ _ _ hus,
        clearCallerSaved_registers]
      dsimp only
      rw [hr2, hr1]
    · rw [if_neg hic, if_pos hup, PUS_state _ _ _ _ hus]
      dsimp only
      rw [hr2, hr1]
  · rename_i hup
    cases hst3
    refine ⟨fun hc => absurd hc hup, ?_⟩
    split at hres <;> rename_i hic <;> cases hres
    · rw [if_pos hic, if_neg hup, PUS_state _ _ _ _ hus,
        clearCallerSaved_registers, hr2, hr1]
    · rw [if_neg hic, if_neg hup, PUS_state _ _ _ _ hus, hr2, hr1]

end BPFOpt

namespace BPFOpt

theorem set_getD_eq {α : Type} (l : List α) (n : Nat) (v d : α)
    (h : n < l.length) : (l.set n v).getD n d = v := by
  induction l generalizing n with
  | nil => simp at h
  | cons x r ih =>
    cases n with
    | zero => rfl
    | succ m =>
      simp only [List.set_cons_succ, List.getD_cons_succ]
      exact ih m (by simp at h; omega)

theorem set_getD_ne {α : Type} (l : List α) (m n : Nat) (v d : α)
    (h : m ≠ n) : (l.set n v).getD m d = l.getD m d := by
  induction l generalizing m n with
  | nil => rfl
  | cons x r ih =>
    cases n with
    | zero =>
      cases m with
      | zero => exact absurd rfl h
      | succ k => rfl
    | succ j =>
      cases m with
      | zero => rfl
      | succ k =>
        simp only [List.set_cons_succ, List.getD_cons_succ]
        exact ih k j (by omega)

theorem listModify_oob {α : Type} (l : List α) (j : Nat) (f : α → α)
    (h : l.length ≤ j) : listModify l j f = l := by
  induction l generalizing j with
  | nil => rfl
  | cons x r ih =>
    cases j with
    | zero => simp at h
    | succ m =>
      simp only [listModify]
      rw [ih m (by simp at h; omega)]

theorem getD_oob {α : Type} (l : List α) (n : Nat) (d : α)
    (h : l.length ≤ n) : l.getD n d = d := by
  induction l generalizing n with
  | nil => rfl
  | cons x r ih =>
    cases n with
    | zero => simp at h
    | succ m =>
      simp only [List.getD_cons_succ]
      exact ih m (by simp at h; omega)

theorem listModify_getD_clear (l : List (List Int)) (j : Nat) :
    (listModify l j (fun _ => ([] : List Int))).getD j [] = [] := by
  by_cases h : j < l.length
  · rw [listModify_getD_eq _ _ _ _ h]
  · rw [listModify_oob _ _ _ (by omega), getD_oob _ _ _ (by omega)]

theorem clearRegs_getD0 (l : List (List Int)) :
    (clearRegs l).getD 0 [] = l.getD 0 [] := by
  unfold clearRegs
  rw [listModify_getD_ne _ _ _ _ _ (by omega),
    listModify_getD_ne _ _ _ _ _ (by omega),
    listModify_getD_ne _ _ _ _ _ (by omega),
    listModify_getD_ne _ _ _ _ _ (by omega),
    listModify_getD_ne _ _ _ _ _ (by omega)]

theorem clearRegs_getD_r (l : List (List Int)) (r : Nat) (h1 : 1 ≤ r)
    (h5 : r ≤ 5) : (clearRegs l).getD r [] = [] := by
  unfold clearRegs
  interval_cases r
  · rw [listModify_getD_ne _ _ _ _ _ (by omega),
      listModify_getD_ne _ _ _ _ _ (by omega),
      listModify_getD_ne _ _ _ _ _ (by omega),
      listModify_getD_ne _ _ _ _ _ (by omega)]
    exact listModify_getD_clear l 1
  · rw [listModify_getD_ne _ _ _ _ _ (by omega),
      listModify_getD_ne _ _ _ _ _ (by omega),
      listModify_getD_ne _ _ _ _ _ (by omega)]
    exact listModify_getD_clear _ 2
  · rw [listModify_getD_ne _ _ _ _ _ (by omega),
      listModify_getD_ne _ _ _ _ _ (by omega)]
    exact listModify_getD_clear _ 3
  · rw [listModify_getD_ne _ _ _ _ _ (by omega)]
    exact listModify_getD_clear _ 4
  · exact listModify_getD_clear _ 5

theorem analyzeInstruction_jmp (inst : Instruction)
    (h : inst.opcode &&& 0x07 = 0x05) :
    analyzeInstruction inst = analysisJMP inst.opcode (inst.dstReg : Int)
      (inst.srcReg : Int) inst.off inst.imm := by
  unfold analyzeInstruction
  dsimp only
  rw [h]
  norm_num

theorem opcode_call_ne5 (opcode : Nat) (h : opcode &&& 0xF0 = 0x80) :
    opcode ≠ 5 := by
  intro h5
  rw [h5] at h
  cases h

theorem opcode_call_ne0 (opcode : Nat) (h : opcode &&& 0xF0 = 0x80) :
    opcode ≠ 0 := by
  intro h0
  rw [h0] at h
  cases h

theorem analysisJMP_default (opcode : Nat) (dst src off imm : Int)
    (hmsb : opcode &&& 0xF0 = 0x80)
    (h : imm ∉ ([12, 1, 3, 23, 44, 2, 69, 4, 51, 5, 7, 8, 9, 10, 11] : List Int)) :
    analysisJMP opcode dst src off imm =
      { usedReg := [1, 2, 3, 4, 5], updatedReg := 0, isCall := true } := by
  simp only [List.mem_cons, List.not_mem_nil, or_false, not_or] at h
  obtain ⟨h12, h1, h3, h23, h44, h2, h69, h4, h51, h5, h7, h8, h9, h10, h11⟩ := h
  unfold analysisJMP
  rw [if_neg (opcode_call_ne5 opcode hmsb)]
  dsimp only
  rw [if_pos hmsb, if_neg h12, if_neg (by tauto), if_neg (by tauto),
    if_neg (by tauto), if_neg (by tauto), if_neg (by tauto)]

theorem analysisJMP_special (opcode : Nat) (dst src off imm : Int)
    (hmsb : opcode &&& 0xF0 = 0x80)
    (h : imm ∈ ([1, 3, 23, 44, 2, 69, 4, 51, 5, 7, 8, 9, 10, 11] : List Int)) :
    ∃ ur, analysisJMP opcode dst src off imm =
      { usedReg := ur, updatedReg := 0 } := by
  unfold analysisJMP
  rw [if_neg (opcode_call_ne5 opcode hmsb)]
  dsimp only
  rw [if_pos hmsb]
  simp only [List.mem_cons, List.not_mem_nil, or_false] at h
  have h12 : ¬ imm = 12 := by omega
  rw [if_neg h12]
  rcases h with h | h | h | h | h | h | h | h | h | h | h | h | h | h <;> subst h
  · exact ⟨[1, 2], by norm_num⟩
  · exact ⟨[1, 2], by norm_num⟩
  · exact ⟨[1, 2], by norm_num⟩
  · exact ⟨[1, 2], by norm_num⟩
  · exact ⟨[1, 2, 3, 4], by norm_num⟩
  · exact ⟨[1, 2, 3, 4], by norm_num⟩
  · exact ⟨[1, 2, 3], by norm_num⟩
  · exact ⟨[1, 2, 3], by norm_num⟩
  · exact ⟨[], by norm_num⟩
  · exact ⟨[], by norm_num⟩
  · exact ⟨[], by norm_num⟩
  · exact ⟨[1, 2, 3, 4, 5], by norm_num⟩
  · exact ⟨[1, 2, 3, 4, 5], by norm_num⟩
  · exact ⟨[1, 2, 3, 4, 5], by norm_num⟩

theorem analysisJMP_tail (opcode : Nat) (dst src off imm : Int)
    (hmsb : opcode &&& 0xF0 = 0x80) (h : imm = 12) :
    analysisJMP opcode dst src off imm =
      { usedReg := [1, 2, 3], usedStack := [0, 0] } := by
  unfold analysisJMP
  rw [if_neg (opcode_call_ne5 opcode hmsb)]
  dsimp only
  rw [if_pos hmsb, if_pos h]

end BPFOpt

namespace BPFOpt

/-- Claim C4 (amended: only the default-helper-id calls clear the
caller-saved registers, because the live `InstructionAnalysis.JMP` sets
`IsCall` only in its `default` branch): for a CALL instruction processed
by one engine step, (1) with a helper id outside the special table the
state after the step has `regs[0] = {call index}` and `regs[1..5] = ∅`;
(2) with a special non-tail-call helper id `regs[0] = {call index}` but
`regs[1..5]` keep their previous values; (3) with the tail-call helper id
12 the whole register array is unchanged — so the claimed universal
clearing of `regs[1..5]` and setting of `regs[0]` fails for special ids. -/
theorem C4_call_register_effect (s : Section) (state : RegisterState)
    (done : List Int) (sr : Bool) (nrl : Nat) (base instIdx : Int)
    (inst : Instruction) (s' : Section) (st' : RegisterState)
    (d' : List Int) (r' : Bool)
    (hclass : inst.opcode &&& 0x07 = 0x05)
    (hmsb : inst.opcode &&& 0xF0 = 0x80)
    (hres : buildRegStep s state done sr nrl base instIdx inst =
      some (s', st', d', r')) :
    (inst.imm ∉ ([12, 1, 3, 23, 44, 2, 69, 4, 51, 5, 7, 8, 9, 10, 11] : List Int) →
      st'.registers.getD 0 [] = [instIdx] ∧
      ∀ r : Nat, 1 ≤ r → r ≤ 5 → st'.registers.getD r [] = []) ∧
    (inst.imm ∈ ([1, 3, 23, 44, 2, 69, 4, 51, 5, 7, 8, 9, 10, 11] : List Int) →
      st'.registers.getD 0 [] = [instIdx] ∧
      ∀ r : Nat, 1 ≤ r → r ≤ 5 →
        st'.registers.getD r [] = state.registers.getD r []) ∧
    (inst.imm = 12 → st'.registers = state.registers) := by
  have hana := analyzeInstruction_jmp inst hclass
  refine ⟨?_, ?_, ?_⟩
  · intro himm
    have hA := analysisJMP_default inst.opcode (inst.dstReg : Int)
      (inst.srcReg : Int) inst.off inst.imm hmsb himm
    have hm := buildRegStep_registers s state done sr nrl base instIdx inst _
      s' st' d' r' (opcode_call_ne0 _ hmsb) (hana.trans hA)
      (Or.inl rfl) rfl hres
    have hlen : (0 : Nat) < state.registers.length := by
      have := hm.1 (by norm_num)
      simpa using this
    have h2 := hm.2
    norm_num at h2
    constructor
    · rw [h2, clearRegs_getD0, set_getD_eq _ _ _ _ hlen]
    · intro r hr1 hr5
      rw [h2]
      exact clearRegs_getD_r _ r hr1 hr5
  · intro himm
    obtain ⟨ur, hA⟩ := analysisJMP_special inst.opcode (inst.dstReg : Int)
      (inst.srcReg : Int) inst.off inst.imm hmsb himm
    have hm := buildRegStep_registers s state done sr nrl base instIdx inst _
      s' st' d' r' (opcode_call_ne0 _ hmsb) (hana.trans hA)
      (Or.inl rfl) rfl hres
    have hlen : (0 : Nat) < state.registers.length := by
      have := hm.1 (by norm_num)
      simpa using this
    have h2 := hm.2
    norm_num at h2
    constructor
    · rw [h2, set_getD_eq _ _ _ _ hlen]
    · intro r hr1 hr5
      rw [h2]
      exact set_getD_ne _ _ _ _ _ (by omega)
  · intro h12
    have hA := analysisJMP_tail inst.opcode (inst.dstReg : Int)
      (inst.srcReg : Int) inst.off inst.imm hmsb h12
    have hm := buildRegStep_registers s state done sr nrl base instIdx inst _
      s' st' d' r' (opcode_call_ne0 _ hmsb) (hana.trans hA)
      (Or.inr rfl) rfl hres
    have h2 := hm.2
    norm_num at h2
    exact h2

end BPFOpt

namespace BPFOpt

/-- Default-helper-id CALL instruction (helper id 0x63) for the C4
witness. -/
def c4wInst : Instruction :=
  (newInstruction ("8500000063000000".toList)).getD deadInstruction

/-- One-instruction section for the C4 witness. -/
def c4wSec : Section := { instructions := [c4wInst], dependencies := [{}] }

/-- The engine step of the C4 witness. -/
def c4wOut : Section × RegisterState × List Int × Bool :=
  (buildRegStep c4wSec initialRegisterState [] false 1 0 0 c4wInst).getD
    (c4wSec, initialRegisterState, [], false)

/-- Concrete run discharging the hypotheses of the C4 theorem: after the
default-helper-id call at index 0, `regs[0] = {0}` and `regs[3] = ∅`. -/
theorem C4_call_register_effect_witness :
    (c4wOut.2.1.registers.getD 0 [] = [(0 : Int)]) ∧
    c4wOut.2.1.registers.getD 3 [] = [] := by
  have h := (C4_call_register_effect c4wSec initialRegisterState [] false 1 0 0
    c4wInst c4wOut.1 c4wOut.2.1 c4wOut.2.2.1 c4wOut.2.2.2
    (by decide) (by decide) (by decide)).1 (by decide)
  exact ⟨h.1, h.2 3 (by norm_num) (by norm_num)⟩

end BPFOpt
namespace BPFOpt

theorem contains_iff_mem (l : List Int) (a : Int) :
    l.contains a = true ↔ a ∈ l := by
  induction l with
  | nil => simp
  | cons x r ih =>
    simp [List.contains_cons, ih, List.mem_cons]

theorem contains_append_left (l l2 : List Int) (a : Int)
    (h : l.contains a = true) : (l ++ l2).contains a = true := by
  rw [contains_iff_mem] at h ⊢
  exact List.mem_append.mpr (Or.inl h)

theorem mapGet_mem_keys {α : Type} (m : List (Int × α)) (k : Int) (v : α)
    (h : mapGet m k = some v) : k ∈ mapKeys m := by
  induction m with
  | nil => cases h
  | cons p r ih =>
    rw [mapGet] at h
    split at h
    · rename_i he
      subst he
      exact List.mem_cons_self _ _
    · exact List.mem_cons_of_mem _ (ih h)

theorem mapSet_get_ne {α : Type} (m : List (Int × α)) (k k' : Int) (v : α)
    (h : k ≠ k') : mapGet (mapSet m k v) k' = mapGet m k' := by
  induction m with
  | nil =>
    simp only [mapSet, mapGet]
    rw [if_neg h]
  | cons p r ih =>
    obtain ⟨a, b⟩ := p
    rw [mapSet]
    split
    · rename_i he
      subst he
      rw [mapGet, mapGet, if_neg h, if_neg h]
    · rw [mapGet, mapGet]
      split
      · rfl
      · exact ih

theorem deps_len_appendDep (s : Section) (i d : Int) :
    (depsAppendDep s i d).dependencies.length = s.dependencies.length := by
  unfold depsAppendDep
  split
  · rfl
  · dsimp only
    rw [listModify_length]

theorem deps_len_appendBy (s : Section) (i d : Int) :
    (depsAppendBy s i d).dependencies.length = s.dependencies.length := by
  unfold depsAppendBy
  split
  · rfl
  · dsimp only
    rw [listModify_length]

theorem FoundDependency_appendDep_self (s : Section) (i d : Int)
    (hi : 0 ≤ i) (hlen : i.toNat < s.dependencies.length) :
    FoundDependency (depsAppendDep s i d) i d = true := by
  unfold FoundDependency depsAppendDep
  rw [if_neg (by omega), if_neg (by omega)]
  dsimp only
  rw [listModify_getD_eq _ _ _ _ hlen]
  dsimp only
  rw [contains_iff_mem]
  simp

theorem FoundDependency_appendDep_mono (s : Section) (i d i' d' : Int)
    (h : FoundDependency s i d = true) :
    FoundDependency (depsAppendDep s i' d') i d = true := by
  unfold FoundDependency at h ⊢
  split at h
  · cases h
  rename_i hi
  rw [if_neg hi]
  unfold depsAppendDep
  split
  · exact h
  dsimp only
  by_cases he : i.toNat = i'.toNat
  · rw [← he]
    by_cases hlt : i.toNat < s.dependencies.length
    · rw [listModify_getD_eq _ _ _ _ hlt]
      dsimp only
      exact contains_append_left _ _ _ h
    · rw [listModify_oob _ _ _ (by omega)]
      exact h
  · rw [listModify_getD_ne _ _ _ _ _ he]
    exact h

end BPFOpt

namespace BPFOpt

theorem FoundDependedBy_appendDep_inv (s : Section) (i d i' d' : Int) :
    FoundDependedBy (depsAppendDep s i' d') i d = FoundDependedBy s i d := by
  unfold FoundDependedBy depsAppendDep
  split
  · rfl
  split
  · rfl
  rename_i hi _
  dsimp only
  by_cases he : i.toNat = i'.toNat
  · rw [← he]
    by_cases hlt : i.toNat < s.dependencies.length
    · rw [listModify_getD_eq _ _ _ _ hlt]
    · rw [listModify_oob _ _ _ (by omega)]
  · rw [listModify_getD_ne _ _ _ _ _ he]

theorem FoundDependency_appendBy_inv (s : Section) (i d i' d' : Int) :
    FoundDependency (depsAppendBy s i' d') i d = FoundDependency s i d := by
  unfold FoundDependency depsAppendBy
  split
  · rfl
  split
  · rfl
  rename_i hi _
  dsimp only
  by_cases he : i.toNat = i'.toNat
  · rw [← he]
    by_cases hlt : i.toNat < s.dependencies.length
    · rw [listModify_getD_eq _ _ _ _ hlt]
    · rw [listModify_oob _ _ _ (by omega)]
  · rw [listModify_getD_ne _ _ _ _ _ he]

theorem FoundDependedBy_appendBy_self (s : Section) (i d : Int)
    (hi : 0 ≤ i) (hlen : i.toNat < s.dependencies.length) :
    FoundDependedBy (depsAppendBy s i d) i d = true := by
  unfold FoundDependedBy depsAppendBy
  rw [if_neg (by omega), if_neg (by omega)]
  dsimp only
  rw [listModify_getD_eq _ _ _ _ hlen]
  dsimp only
  rw [contains_iff_mem]
  simp

theorem FoundDependedBy_appendBy_mono (s : Section) (i d i' d' : Int)
    (h : FoundDependedBy s i d = true) :
    FoundDependedBy (depsAppendBy s i' d') i d = true := by
  unfold FoundDependedBy at h ⊢
  split at h
  · cases h
  rename_i hi
  rw [if_neg hi]
  unfold depsAppendBy
  split
  · exact h
  dsimp only
  by_cases he : i.toNat = i'.toNat
  · rw [← he]
    by_cases hlt : i.toNat < s.dependencies.length
    · rw [listModify_getD_eq _ _ _ _ hlt]
      dsimp only
      exact contains_append_left _ _ _ h
    · rw [listModify_oob _ _ _ (by omega)]
      exact h
  · rw [listModify_getD_ne _ _ _ _ _ he]
    exact h

/-- `pusTailOne` preserves both kinds of recorded edges and the length. -/
theorem pusTailOne_len (s : Section) (i x : Int) :
    (pusTailOne s i x).dependencies.length = s.dependencies.length := by
  unfold pusTailOne
  split
  · rfl
  split
  · dsimp only
    split
    · split
      · rfl
      · rw [deps_len_appendBy]
    · split
      · rw [deps_len_appendDep]
      · rw [deps_len_appendBy, deps_len_appendDep]
  · rfl

theorem pusTailOne_presDep (s : Section) (i x a b : Int)
    (h : FoundDependency s a b = true) :
    FoundDependency (pusTailOne s i x) a b = true := by
  unfold pusTailOne
  split
  · exact h
  split
  · dsimp only
    split
    · split
      · exact h
      · rw [FoundDependency_appendBy_inv]
        exact h
    · split
      · exact FoundDependency_appendDep_mono _ _ _ _ _ h
      · rw [FoundDependency_appendBy_inv]
        exact FoundDependency_appendDep_mono _ _ _ _ _ h
  · exact h

theorem pusTailOne_presBy (s : Section) (i x a b : Int)
    (h : FoundDependedBy s a b = true) :
    FoundDependedBy (pusTailOne s i x) a b = true := by
  unfold pusTailOne
  split
  · exact h
  split
  · dsimp only
    split
    · split
      · exact h
      · exact FoundDependedBy_appendBy_mono _ _ _ _ _ h
    · split
      · rw [FoundDependedBy_appendDep_inv]
        exact h
      · apply FoundDependedBy_appendBy_mono
        rw [FoundDependedBy_appendDep_inv]
        exact h
  · exact h

theorem pusTailOne_estab (s : Section) (i S : Int)
    (hSne : S ≠ -1) (hSb : 0 ≤ S ∧ S < (s.dependencies.length : Int))
    (hi : 0 ≤ i ∧ i < (s.dependencies.length : Int)) :
    FoundDependency (pusTailOne s i S) i S = true ∧
    FoundDependedBy (pusTailOne s i S) S i = true := by
  unfold pusTailOne
  rw [if_neg hSne, if_pos hSb]
  dsimp only
  have hidep : ∀ t : Section, t.dependencies.length = s.dependencies.length →
      FoundDependency t i S = true →
      (FoundDependency (if FoundDependedBy t S i then t else depsAppendBy t S i) i S = true ∧
       FoundDependedBy (if FoundDependedBy t S i then t else depsAppendBy t S i) S i = true) := by
    intro t hlen hdep
    split
    · rename_i hfb
      exact ⟨hdep, hfb⟩
    · refine ⟨?_, ?_⟩
      · rw [FoundDependency_appendBy_inv]
        exact hdep
      · exact FoundDependedBy_appendBy_self t S i hSb.1 (by omega)
  split
  · rename_i hfd
    exact hidep s rfl hfd
  · rename_i hfd
    apply hidep (depsAppendDep s i S) (deps_len_appendDep s i S)
    exact FoundDependency_appendDep_self s i S hi.1 (by omega)

/-- A fold establishes a property at a member and keeps it afterwards. -/
theorem foldl_estab {α β : Type} (Inv P : α → Prop) (f : α → β → α)
    (l : List β) (x : β) (hx : x ∈ l)
    (hInv : ∀ a b, b ∈ l → Inv a → Inv (f a b))
    (hEst : ∀ a, Inv a → P (f a x))
    (hPres : ∀ a b, b ∈ l → P a → P (f a b)) :
    ∀ a0, Inv a0 → P (l.foldl f a0) := by
  induction l with
  | nil => cases hx
  | cons y r ih =>
    intro a0 h0
    rw [List.foldl_cons]
    rcases List.mem_cons.mp hx with rfl | hx2
    · have hP : P (f a0 x) := hEst a0 h0
      clear ih
      have : ∀ (c : α), P c → P (r.foldl f c) := by
        intro c hc
        apply foldl_pres P f r
        · intro a b hb ha
          exact hPres a b (List.mem_cons_of_mem _ hb) ha
        · exact hc
      exact this _ hP
    · exact ih hx2
        (fun a b hb ha => hInv a b (List.mem_cons_of_mem y hb) ha)
        (fun a b hb ha => hPres a b (List.mem_cons_of_mem y hb) ha)
        (f a0 y) (hInv a0 y (List.mem_cons_self y r) h0)

end BPFOpt

namespace BPFOpt

theorem purAliasUpdate_stackMap (r : Int) (inst : Instruction)
    (st st' : RegisterState) (h : purAliasUpdate r inst st = some st') :
    st'.stackMap = st.stackMap := by
  unfold purAliasUpdate at h
  split at h
  · rcases hs : setIdx st.regAlias (inst.dstReg : Int) 0 with _ | ra <;> rw [hs] at h
    · cases h
    · cases h
      rfl
  · rcases hg : getIdx st.regAlias (inst.dstReg : Int) with _ | a <;> rw [hg] at h
    · cases h
    dsimp only at h
    split at h
    · rcases hs : setIdx st.regAlias (inst.dstReg : Int)
          (wrap16 (a + wrap16 inst.imm)) with _ | ra <;> rw [hs] at h
      · cases h
      · cases h
        rfl
    split at h
    · rcases hs : setIdx st.regAlias (inst.dstReg : Int) (-1) with _ | ra <;>
        rw [hs] at h
      · cases h
      · cases h
        rfl
    · cases h
      rfl

theorem purAliasStack_slot (s : Section) (i al : Int) (st : RegisterState)
    (k : Int) (l : List Int) (h : mapGet st.stackMap k = some l) :
    mapGet (purAliasStack s i al st).2.stackMap k = some l := by
  unfold purAliasStack
  rcases hm : mapGet st.stackMap al with _ | sl
  · dsimp only
    by_cases he : al = k
    · subst he
      rw [hm] at h
      cases h
    · rw [mapSet_get_ne _ _ _ _ he]
      exact h
  · exact h

theorem purAliasStack_dlen (s : Section) (i al : Int) (st : RegisterState) :
    (purAliasStack s i al st).1.dependencies.length = s.dependencies.length := by
  unfold purAliasStack
  rcases hm : mapGet st.stackMap al with _ | sl
  · dsimp only
    rw [deps_len_appendDep]
  · dsimp only
    clear hm
    induction sl generalizing s with
    | nil => rfl
    | cons z rest ih =>
      rw [List.foldl_cons]
      rw [ih]
      split
      · rw [deps_len_appendBy, deps_len_appendDep]
      · rw [deps_len_appendDep]

theorem purOneDep_slot (s : Section) (i r d : Int) (st : RegisterState)
    (k : Int) (l : List Int) (h : mapGet st.stackMap k = some l) :
    mapGet (purOneDep s i r d st).2.stackMap k = some l := by
  unfold purOneDep
  dsimp only
  split
  · exact purAliasStack_slot _ _ _ _ _ _ h
  · exact h

theorem purOneDep_dlen (s : Section) (i r d : Int) (st : RegisterState) :
    (purOneDep s i r d st).1.dependencies.length = s.dependencies.length := by
  unfold purOneDep
  dsimp only
  by_cases hc : (getIdx st.regAlias r).getD (-1) ≠ -1 ∧
      (getIdx st.regAlias r).getD (-1) ≠ 0
  · rw [if_pos hc]
    have hq := purAliasStack_dlen s i ((getIdx st.regAlias r).getD (-1)) st
    split
    · exact hq
    · split
      · split
        · rw [deps_len_appendDep, hq]
        · rw [deps_len_appendBy, deps_len_appendDep, hq]
      · rw [deps_len_appendDep, hq]
  · rw [if_neg hc]
    split
    · rfl
    · split
      · split
        · rw [deps_len_appendDep]
        · rw [deps_len_appendBy, deps_len_appendDep]
      · rw [deps_len_appendDep]

theorem foldl_purOneDep_slot (ds : List Int) (i r : Int) (k : Int) (l : List Int) :
    ∀ (acc : Section × RegisterState),
      mapGet acc.2.stackMap k = some l →
      mapGet ((ds.foldl (fun acc dep => purOneDep acc.1 i r dep acc.2) acc).2).stackMap k
        = some l := by
  induction ds with
  | nil => intro acc h; exact h
  | cons d rest ih =>
    intro acc h
    rw [List.foldl_cons]
    exact ih _ (purOneDep_slot _ _ _ _ _ _ _ h)

theorem foldl_purOneDep_dlen (ds : List Int) (i r : Int) :
    ∀ (acc : Section × RegisterState),
      ((ds.foldl (fun acc dep => purOneDep acc.1 i r dep acc.2) acc).1).dependencies.length
        = acc.1.dependencies.length := by
  induction ds with
  | nil => intro acc; rfl
  | cons d rest ih =>
    intro acc
    rw [List.foldl_cons]
    rw [ih]
    exact purOneDep_dlen _ _ _ _ _

theorem purOneReg_slot (s : Section) (i r : Int) (inst : Instruction)
    (st : RegisterState) (p : Section × RegisterState) (k : Int) (l : List Int)
    (hp : purOneReg s i r inst st = some p)
    (h : mapGet st.stackMap k = some l) :
    mapGet p.2.stackMap k = some l := by
  unfold purOneReg at hp
  split at hp
  · cases hp
    exact h
  · rcases ha : purAliasUpdate r inst st with _ | st1 <;> rw [ha] at hp
    · cases hp
    have hsm := purAliasUpdate_stackMap r inst st st1 ha
    dsimp only at hp
    split at hp
    · cases hp
      rw [hsm]
      exact h
    · cases hp
      apply foldl_purOneDep_slot
      rw [hsm]
      exact h

theorem purOneReg_dlen (s : Section) (i r : Int) (inst : Instruction)
    (st : RegisterState) (p : Section × RegisterState)
    (hp : purOneReg s i r inst st = some p) :
    p.1.dependencies.length = s.dependencies.length := by
  unfold purOneReg at hp
  split at hp
  · cases hp
    rfl
  · rcases ha : purAliasUpdate r inst st with _ | st1 <;> rw [ha] at hp
    · cases hp
    dsimp only at hp
    split at hp
    · cases hp
      rfl
    · cases hp
      rw [foldl_purOneDep_dlen]

theorem PUR_slot (ur : List Int) (i : Int) (inst : Instruction) :
    ∀ (acc : Section × RegisterState) (p : Section × RegisterState)
      (k : Int) (l : List Int),
      (ur.foldlM (fun acc regIdx => purOneReg acc.1 i regIdx inst acc.2) acc =
        some p) → mapGet acc.2.stackMap k = some l →
      mapGet p.2.stackMap k = some l := by
  induction ur with
  | nil =>
    intro acc p k l h hm
    cases h
    exact hm
  | cons r rest ih =>
    intro acc p k l h hm
    rw [List.foldlM_cons] at h
    rcases h1 : purOneReg acc.1 i r inst acc.2 with _ | q <;> rw [h1] at h
    · cases h
    · exact ih q p k l h (purOneReg_slot _ _ _ _ _ _ _ _ h1 hm)

theorem PUR_dlen (ur : List Int) (i : Int) (inst : Instruction) :
    ∀ (acc : Section × RegisterState) (p : Section × RegisterState),
      (ur.foldlM (fun acc regIdx => purOneReg acc.1 i regIdx inst acc.2) acc =
        some p) → p.1.dependencies.length = acc.1.dependencies.length := by
  induction ur with
  | nil =>
    intro acc p h
    cases h
    rfl
  | cons r rest ih =>
    intro acc p h
    rw [List.foldlM_cons] at h
    rcases h1 : purOneReg acc.1 i r inst acc.2 with _ | q <;> rw [h1] at h
    · cases h
    · rw [ih q p h]
      exact purOneReg_dlen _ _ _ _ _ _ h1

theorem aliasReset_stackMap (inst : Instruction) (state st1 : RegisterState)
    (h : (if inst.opcode ≠ 0xBF ∧ inst.opcode ≠ 0x07 then
        (setIdx state.regAlias (inst.dstReg : Int) (-1)).map
          (fun ra => { state with regAlias := ra })
      else some state) = some st1) :
    st1.stackMap = state.stackMap := by
  split at h
  · rcases hs : setIdx state.regAlias (inst.dstReg : Int) (-1) with _ | ra <;>
      rw [hs] at h
    · cases h
    · cases h
      rfl
  · cases h
    rfl

end BPFOpt

namespace BPFOpt

theorem PUS_tail_estab (s2 : Section) (instIdx : Int) (A : InstructionAnalysis)
    (st2 : RegisterState) (S off : Int) (l : List Int)
    (hA2 : A.usedStack = [0, 0])
    (hslot : mapGet st2.stackMap off = some l) (hS : S ∈ l) (hSne : S ≠ -1)
    (hSb : 0 ≤ S ∧ S < (s2.dependencies.length : Int))
    (hi : 0 ≤ instIdx ∧ instIdx < (s2.dependencies.length : Int)) :
    FoundDependency (ProcessUsedStack s2 instIdx A st2).1 instIdx S = true ∧
    FoundDependedBy (ProcessUsedStack s2 instIdx A st2).1 S instIdx = true := by
  unfold ProcessUsedStack
  rw [hA2]
  norm_num
  have hInner : ∀ (off2 : Int) (acc : Section),
      acc.dependencies.length = s2.dependencies.length →
      (((mapGet st2.stackMap off2).getD []).foldl
        (fun acc2 x => pusTailOne acc2 instIdx x) acc).dependencies.length =
        s2.dependencies.length := by
    intro off2 acc hacc
    exact foldl_pres (fun t : Section => t.dependencies.length = s2.dependencies.length)
      (fun acc2 x => pusTailOne acc2 instIdx x) ((mapGet st2.stackMap off2).getD [])
      (fun a b _ ha => by dsimp only; rw [pusTailOne_len]; exact ha) acc hacc
  have hPresP : ∀ (off2 : Int) (acc : Section),
      (FoundDependency acc instIdx S = true ∧
        FoundDependedBy acc S instIdx = true) →
      (FoundDependency (((mapGet st2.stackMap off2).getD []).foldl
          (fun acc2 x => pusTailOne acc2 instIdx x) acc) instIdx S = true ∧
        FoundDependedBy (((mapGet st2.stackMap off2).getD []).foldl
          (fun acc2 x => pusTailOne acc2 instIdx x) acc) S instIdx = true) := by
    intro off2 acc hacc
    exact foldl_pres (fun t : Section => FoundDependency t instIdx S = true ∧
        FoundDependedBy t S instIdx = true)
      (fun acc2 x => pusTailOne acc2 instIdx x) ((mapGet st2.stackMap off2).getD [])
      (fun a b _ ha =>
        ⟨pusTailOne_presDep _ _ _ _ _ ha.1, pusTailOne_presBy _ _ _ _ _ ha.2⟩)
      acc hacc
  have hEstOff : ∀ (acc : Section),
      acc.dependencies.length = s2.dependencies.length →
      (FoundDependency (((mapGet st2.stackMap off).getD []).foldl
          (fun acc2 x => pusTailOne acc2 instIdx x) acc) instIdx S = true ∧
        FoundDependedBy (((mapGet st2.stackMap off).getD []).foldl
          (fun acc2 x => pusTailOne acc2 instIdx x) acc) S instIdx = true) := by
    intro acc hacc
    rw [hslot]
    dsimp only [Option.getD]
    exact foldl_estab (fun t : Section => t.dependencies.length = s2.dependencies.length)
      (fun t : Section => FoundDependency t instIdx S = true ∧
        FoundDependedBy t S instIdx = true)
      (fun acc2 x => pusTailOne acc2 instIdx x) l S hS
      (fun a b _ ha => by dsimp only; rw [pusTailOne_len]; exact ha)
      (fun a2 ha2 => pusTailOne_estab a2 instIdx S hSne (by omega) (by omega))
      (fun a b _ ha =>
        ⟨pusTailOne_presDep _ _ _ _ _ ha.1, pusTailOne_presBy _ _ _ _ _ ha.2⟩)
      acc hacc
  exact foldl_estab (fun t : Section => t.dependencies.length = s2.dependencies.length)
    (fun t : Section => FoundDependency t instIdx S = true ∧
      FoundDependedBy t S instIdx = true)
    (fun acc off2 => ((mapGet st2.stackMap off2).getD []).foldl
      (fun acc2 x => pusTailOne acc2 instIdx x) acc)
    (sortInts (mapKeys st2.stackMap)) off
    ((mem_sortInts off _).mpr (mapGet_mem_keys _ _ _ hslot))
    (fun a b _ ha => hInner b a ha)
    (fun a ha => hEstOff a ha)
    (fun a b _ ha => hPresP b a ha)
    s2 rfl

end BPFOpt

namespace BPFOpt

/-- Claim C5: when the engine processes a tail call (CALL with helper-id
immediate 12) while `S` is still a recorded writer of some stack slot (and
both indices are in range of the dependency arrays), the step records `S`
in `dependencies[call]` and the call's index in `depended_by[S]` — the
`used_stack = (0, 0)` convention makes the offset-0 branch of
`ProcessUsedStack` walk every recorded stack slot. -/
theorem C5_tailcall_stack_dependency (s : Section) (state : RegisterState)
    (done : List Int) (sr : Bool) (nrl : Nat) (base instIdx : Int)
    (inst : Instruction) (s' : Section) (st' : RegisterState)
    (d' : List Int) (r' : Bool) (S off : Int) (l : List Int)
    (hclass : inst.opcode &&& 0x07 = 0x05)
    (hmsb : inst.opcode &&& 0xF0 = 0x80)
    (himm : inst.imm = 12)
    (hslot : mapGet state.stackMap off = some l)
    (hS : S ∈ l) (hSne : S ≠ -1)
    (hSb : 0 ≤ S ∧ S < (s.dependencies.length : Int))
    (hi : 0 ≤ instIdx ∧ instIdx < (s.dependencies.length : Int))
    (hres : buildRegStep s state done sr nrl base instIdx inst =
      some (s', st', d', r')) :
    S ∈ depsAtI s' instIdx ∧ instIdx ∈ depByAtI s' S := by
  have hana := (analyzeInstruction_jmp inst hclass).trans
    (analysisJMP_tail inst.opcode (inst.dstReg : Int) (inst.srcReg : Int)
      inst.off inst.imm hmsb himm)
  unfold buildRegStep at hres
  rw [if_neg (by simpa using opcode_call_ne0 inst.opcode hmsb)] at hres
  dsimp only at hres
  rw [hana] at hres
  norm_num at hres
  split at hres
  · cases hres
  rename_i st1 hst1
  have hsm1 : st1.stackMap = state.stackMap := aliasReset_stackMap inst state st1 hst1
  split at hres
  · cases hres
  rename_i s2 st2 hq
  unfold ProcessUsedRegisters at hq
  have hslot2 : mapGet st2.stackMap off = some l := by
    have := PUR_slot _ instIdx inst (s, st1) (s2, st2) off l hq
    apply this
    dsimp only
    rw [hsm1]
    exact hslot
  have hdlen2 : s2.dependencies.length = s.dependencies.length :=
    PUR_dlen _ instIdx inst (s, st1) (s2, st2) hq
  cases hres
  have hfinal := PUS_tail_estab s2 instIdx
    { usedReg := [1, 2, 3], usedStack := [0, 0] } st2 S off l rfl hslot2 hS hSne
    (by omega) (by omega)
  constructor
  · unfold depsAtI
    rw [if_pos hi.1]
    have h1 := hfinal.1
    unfold FoundDependency at h1
    rw [if_neg (by omega)] at h1
    exact (contains_iff_mem _ _).mp h1
  · unfold depByAtI
    rw [if_pos hSb.1]
    have h2 := hfinal.2
    unfold FoundDependedBy at h2
    rw [if_neg (by omega)] at h2
    exact (contains_iff_mem _ _).mp h2

end BPFOpt

namespace BPFOpt

/-- Tail-call instruction (helper id 12) for the C5 witness. -/
def c5wInst : Instruction :=
  (newInstruction ("850000000c000000".toList)).getD deadInstruction

/-- Pre-state of the C5 witness: instruction 0 is the recorded writer of
stack slot -8. -/
def c5wState : RegisterState :=
  { newRegisterState with stackMap := [(-8, [0])] }

/-- Two-instruction section of the C5 witness. -/
def c5wSec : Section :=
  { instructions := [deadInstruction, c5wInst], dependencies := [{}, {}] }

/-- The engine step of the C5 witness. -/
def c5wOut : Section × RegisterState × List Int × Bool :=
  (buildRegStep c5wSec c5wState [] false 1 0 1 c5wInst).getD
    (c5wSec, c5wState, [], false)

/-- Concrete run discharging the hypotheses of the C5 theorem: the tail
call at index 1 depends on the stack store at index 0 and vice versa. -/
theorem C5_tailcall_stack_dependency_witness :
    (0 : Int) ∈ depsAtI c5wOut.1 1 ∧ (1 : Int) ∈ depByAtI c5wOut.1 0 :=
  C5_tailcall_stack_dependency c5wSec c5wState [] false 1 0 1 c5wInst
    c5wOut.1 c5wOut.2.1 c5wOut.2.2.1 c5wOut.2.2.2 0 (-8) [0]
    (by decide) (by decide) (by decide) (by decide) (by decide) (by decide)
    (by decide) (by decide) (by decide)

end BPFOpt
namespace BPFOpt

/-- A value recorded during analysis: the `-1` sentinel or an instruction
index in range. -/
def ValIdx (n : Nat) (v : Int) : Prop := v = -1 ∨ (0 ≤ v ∧ v < (n : Int))

/-- Dependency list of instruction `k` (Nat index form). -/
def depsN (sec : Section) (k : Nat) : List Int :=
  (sec.dependencies.getD k {}).dependencies

/-- Depended-by list of instruction `k` (Nat index form). -/
def depByN (sec : Section) (k : Nat) : List Int :=
  (sec.dependencies.getD k {}).dependedBy

/-- All `depended_by` entries are in-range instruction indices (so the
`-1` sentinel never appears there). -/
def DepB (sec : Section) : Prop :=
  ∀ k : Nat, k < sec.dependencies.length →
    ∀ v ∈ depByN sec k, 0 ≤ v ∧ v < (sec.dependencies.length : Int)

/-- Forward symmetry: every non-sentinel dependency is mirrored in the
target's `depended_by`. -/
def DepC (sec : Section) : Prop :=
  ∀ k : Nat, k < sec.dependencies.length →
    ∀ v ∈ depsN sec k, 0 ≤ v → (k : Int) ∈ depByN sec v.toNat

/-- The provable part of the symmetric-dependency invariant. -/
def SecInv (sec : Section) : Prop := DepB sec ∧ DepC sec

theorem depsN_appendDep (sec : Section) (i d : Int) (k : Nat) :
    depsN (depsAppendDep sec i d) k =
      if 0 ≤ i ∧ k = i.toNat ∧ k < sec.dependencies.length
      then depsN sec k ++ [d] else depsN sec k := by
  unfold depsN depsAppendDep
  split
  · rename_i hi
    rw [if_neg (by omega)]
  · rename_i hi
    dsimp only
    by_cases hk : k = i.toNat
    · rw [hk]
      by_cases hlt : i.toNat < sec.dependencies.length
      · rw [listModify_getD_eq _ _ _ _ hlt, if_pos ⟨by omega, rfl, hlt⟩]
      · rw [listModify_oob _ _ _ (by omega),
          if_neg (by intro hcon; exact hlt hcon.2.2)]
    · rw [listModify_getD_ne _ _ _ _ _ hk,
        if_neg (by intro hcon; exact hk hcon.2.1)]

theorem depByN_appendDep (sec : Section) (i d : Int) (k : Nat) :
    depByN (depsAppendDep sec i d) k = depByN sec k := by
  unfold depByN depsAppendDep
  split
  · rfl
  · dsimp only
    by_cases hk : k = i.toNat
    · rw [hk]
      by_cases hlt : i.toNat < sec.dependencies.length
      · rw [listModify_getD_eq _ _ _ _ hlt]
      · rw [listModify_oob _ _ _ (by omega)]
    · rw [listModify_getD_ne _ _ _ _ _ hk]

theorem depByN_appendBy (sec : Section) (i d : Int) (k : Nat) :
    depByN (depsAppendBy sec i d) k =
      if 0 ≤ i ∧ k = i.toNat ∧ k < sec.dependencies.length
      then depByN sec k ++ [d] else depByN sec k := by
  unfold depByN depsAppendBy
  split
  · rename_i hi
    rw [if_neg (by omega)]
  · rename_i hi
    dsimp only
    by_cases hk : k = i.toNat
    · rw [hk]
      by_cases hlt : i.toNat < sec.dependencies.length
      · rw [listModify_getD_eq _ _ _ _ hlt, if_pos ⟨by omega, rfl, hlt⟩]
      · rw [listModify_oob _ _ _ (by omega),
          if_neg (by intro hcon; exact hlt hcon.2.2)]
    · rw [listModify_getD_ne _ _ _ _ _ hk,
        if_neg (by intro hcon; exact hk hcon.2.1)]

theorem depsN_appendBy (sec : Section) (i d : Int) (k : Nat) :
    depsN (depsAppendBy sec i d) k = depsN sec k := by
  unfold depsN depsAppendBy
  split
  · rfl
  · dsimp only
    by_cases hk : k = i.toNat
    · rw [hk]
      by_cases hlt : i.toNat < sec.dependencies.length
      · rw [listModify_getD_eq _ _ _ _ hlt]
      · rw [listModify_oob _ _ _ (by omega)]
    · rw [listModify_getD_ne _ _ _ _ _ hk]

/-- B1: appending the `-1` sentinel to a dependency list keeps the
invariant. -/
theorem SecInv_appendDep_neg1 (sec : Section) (i : Int)
    (hInv : SecInv sec) : SecInv (depsAppendDep sec i (-1)) := by
  obtain ⟨hB, hC⟩ := hInv
  constructor
  · intro k hk v hv
    rw [deps_len_appendDep] at hk ⊢
    rw [depByN_appendDep] at hv
    exact hB k hk v hv
  · intro k hk v hv hv0
    rw [deps_len_appendDep] at hk
    rw [depsN_appendDep] at hv
    rw [depByN_appendDep]
    split at hv
    · rcases List.mem_append.mp hv with hv | hv
      · exact hC k hk v hv hv0
      · simp at hv
        omega
    · exact hC k hk v hv hv0

/-- B3: appending an in-range index to any `depended_by` list keeps the
invariant. -/
theorem SecInv_appendBy_mono (sec : Section) (t i : Int)
    (hInv : SecInv sec) (hi : 0 ≤ i ∧ i < (sec.dependencies.length : Int)) :
    SecInv (depsAppendBy sec t i) := by
  obtain ⟨hB, hC⟩ := hInv
  constructor
  · intro k hk v hv
    rw [deps_len_appendBy] at hk ⊢
    rw [depByN_appendBy] at hv
    split at hv
    · rcases List.mem_append.mp hv with hv | hv
      · exact hB k hk v hv
      · simp at hv
        subst hv
        exact hi
    · exact hB k hk v hv
  · intro k hk v hv hv0
    rw [deps_len_appendBy] at hk
    rw [depsN_appendBy] at hv
    rw [depByN_appendBy]
    split
    · exact List.mem_append.mpr (Or.inl (hC k hk v hv hv0))
    · exact hC k hk v hv hv0

/-- B2: appending an in-range index `v` to `deps[i]` immediately followed
by appending `i` to `depBy[v]` keeps the invariant. -/
theorem SecInv_appendDep_appendBy (sec : Section) (i v : Int)
    (hInv : SecInv sec)
    (hi : 0 ≤ i ∧ i.toNat < sec.dependencies.length)
    (hv : 0 ≤ v ∧ v.toNat < sec.dependencies.length) :
    SecInv (depsAppendBy (depsAppendDep sec i v) v i) := by
  obtain ⟨hB, hC⟩ := hInv
  constructor
  · intro k hk w hw
    rw [deps_len_appendBy, deps_len_appendDep] at hk ⊢
    rw [depByN_appendBy, deps_len_appendDep, depByN_appendDep] at hw
    split at hw
    · rcases List.mem_append.mp hw with hw | hw
      · exact hB k hk w hw
      · simp at hw
        subst hw
        omega
    · exact hB k hk w hw
  · intro k hk w hw hw0
    rw [deps_len_appendBy, deps_len_appendDep] at hk
    rw [depsN_appendBy, depsN_appendDep] at hw
    rw [depByN_appendBy, deps_len_appendDep, depByN_appendDep]
    by_cases hkv : k = i.toNat ∧ w = v
    · obtain ⟨hk1, hw1⟩ := hkv
      rw [hk1, hw1, if_pos ⟨hv.1, rfl, hv.2⟩]
      apply List.mem_append.mpr
      apply Or.inr
      simp
      omega
    · have hold : w ∈ depsN sec k := by
        split at hw
        · rename_i hcond
          rcases List.mem_append.mp hw with hw | hw
          · exact hw
          · simp at hw
            exact absurd ⟨hcond.2.1, hw⟩ hkv
        · exact hw
      have := hC k hk w hold hw0
      split
      · exact List.mem_append.mpr (Or.inl this)
      · exact this

/-- B2': appending `v` to `deps[i]` when `i` is already recorded in
`depBy[v]` keeps the invariant. -/
theorem SecInv_appendDep_found (sec : Section) (i v : Int)
    (hInv : SecInv sec)
    (hi : 0 ≤ i ∧ i.toNat < sec.dependencies.length)
    (hv : 0 ≤ v ∧ v.toNat < sec.dependencies.length)
    (hfound : (i : Int) ∈ depByN sec v.toNat) :
    SecInv (depsAppendDep sec i v) := by
  obtain ⟨hB, hC⟩ := hInv
  constructor
  · intro k hk w hw
    rw [deps_len_appendDep] at hk ⊢
    rw [depByN_appendDep] at hw
    exact hB k hk w hw
  · intro k hk w hw hw0
    rw [deps_len_appendDep] at hk
    rw [depsN_appendDep] at hw
    rw [depByN_appendDep]
    split at hw
    · rename_i hcond
      rcases List.mem_append.mp hw with hw | hw
      · exact hC k hk w hw hw0
      · simp at hw
        subst hw
        rw [hcond.2.1]
        have hti : ((i.toNat : Nat) : Int) = i := by omega
        rw [hti]
        exact hfound
    · exact hC k hk w hw hw0

end BPFOpt

namespace BPFOpt

/-- All values recorded in the abstract state are sentinels or in-range
instruction indices. -/
def RegsOK (n : Nat) (st : RegisterState) : Prop :=
  (∀ l ∈ st.registers, ∀ v ∈ l, ValIdx n v) ∧
  (∀ p ∈ st.stackMap, ∀ v ∈ p.2, ValIdx n v)

/-- Every state recorded in the CFG's node statistics is well-formed. -/
def StatsOK (n : Nat) (cfg : ControlFlowGraph) : Prop :=
  ∀ p ∈ cfg.nodeStats, RegsOK n p.2

theorem mem_set {α : Type} (l : List α) (n : Nat) (v x : α)
    (h : x ∈ l.set n v) : x ∈ l ∨ x = v := by
  induction l generalizing n with
  | nil => cases h
  | cons y r ih =>
    cases n with
    | zero =>
      rcases List.mem_cons.mp h with rfl | h
      · exact Or.inr rfl
      · exact Or.inl (List.mem_cons_of_mem _ h)
    | succ m =>
      rcases List.mem_cons.mp h with rfl | h
      · exact Or.inl (List.mem_cons_self _ _)
      · rcases ih m h with h | h
        · exact Or.inl (List.mem_cons_of_mem _ h)
        · exact Or.inr h

theorem mem_mapSet {α : Type} (m : List (Int × α)) (k : Int) (v : α)
    (p : Int × α) (h : p ∈ mapSet m k v) : p ∈ m ∨ p = (k, v) := by
  induction m with
  | nil =>
    rw [mapSet] at h
    rcases List.mem_cons.mp h with rfl | h
    · exact Or.inr rfl
    · cases h
  | cons q r ih =>
    rw [mapSet] at h
    split at h
    · rcases List.mem_cons.mp h with rfl | h
      · exact Or.inr rfl
      · exact Or.inl (List.mem_cons_of_mem _ h)
    · rcases List.mem_cons.mp h with rfl | h
      · exact Or.inl (List.mem_cons_self _ _)
      · rcases ih h with h | h
        · exact Or.inl (List.mem_cons_of_mem _ h)
        · exact Or.inr h

theorem mapGet_mem_pair {α : Type} (m : List (Int × α)) (k : Int) (v : α)
    (h : mapGet m k = some v) : (k, v) ∈ m := by
  induction m with
  | nil => cases h
  | cons q r ih =>
    rw [mapGet] at h
    split at h
    · rename_i he
      cases h
      rcases q with ⟨k1, v1⟩
      dsimp only at he
      subst he
      exact List.mem_cons_self _ _
    · exact List.mem_cons_of_mem _ (ih h)

theorem mem_removeDupAux (l seen : List Int) (x : Int)
    (h : x ∈ removeDupAux l seen) : x ∈ l := by
  induction l generalizing seen with
  | nil => cases h
  | cons y r ih =>
    rw [removeDupAux] at h
    split at h
    · exact List.mem_cons_of_mem _ (ih _ h)
    · rcases List.mem_cons.mp h with rfl | h
      · exact List.mem_cons_self _ _
      · exact List.mem_cons_of_mem _ (ih _ h)

theorem mem_removeDuplicates (l : List Int) (x : Int)
    (h : x ∈ removeDuplicates l) : x ∈ l :=
  mem_removeDupAux l [] x h

theorem getD_values {α : Type} (l : List (List α)) (k : Nat) (x : α)
    (h : x ∈ l.getD k []) : ∃ ll ∈ l, x ∈ ll := by
  by_cases hk : k < l.length
  · exact ⟨l.getD k [], getD_mem_of_lt _ _ _ hk, h⟩
  · rw [getD_oob _ _ _ (by omega)] at h
    cases h

/-- `purAliasStack` keeps the dependency invariant and the state
invariant. -/
theorem purAliasStack_inv (s : Section) (i al : Int) (st : RegisterState)
    (n : Nat) (hn : n = s.dependencies.length)
    (hInv : SecInv s) (hi : 0 ≤ i ∧ i.toNat < n) (hst : RegsOK n st) :
    SecInv (purAliasStack s i al st).1 ∧
    (purAliasStack s i al st).1.dependencies.length = n ∧
    RegsOK n (purAliasStack s i al st).2 := by
  unfold purAliasStack
  rcases hm : mapGet st.stackMap al with _ | sl
  · dsimp only
    refine ⟨SecInv_appendDep_neg1 _ _ hInv, by rw [deps_len_appendDep]; omega, ?_, ?_⟩
    · exact hst.1
    · intro p hp v hv
      rcases mem_mapSet _ _ _ _ hp with hp | hp
      · exact hst.2 p hp v hv
      · subst hp
        simp at hv
        subst hv
        exact Or.inl rfl
  · dsimp only
    have hsl : ∀ v ∈ sl, ValIdx n v := by
      intro v hv
      exact hst.2 (al, sl) (mapGet_mem_pair _ _ _ hm) v hv
    refine ⟨?_, ?_, hst⟩
    · have hfold : ∀ (t : Section), SecInv t → t.dependencies.length = n →
          SecInv (sl.foldl
            (fun acc stackInstIdx =>
              let acc := depsAppendDep acc i stackInstIdx
              let ai := calculateActualIndex stackInstIdx acc.dependencies.length
              if 0 ≤ ai ∧ ai < (acc.dependencies.length : Int) then
                depsAppendBy acc ai i
              else acc) t) := by
        clear hm
        induction sl with
        | nil => intro t ht _; exact ht
        | cons z rest ih =>
          intro t ht htl
          rw [List.foldl_cons]
          have hz : ValIdx n z := hsl z (List.mem_cons_self _ _)
          have hstep : SecInv (let acc := depsAppendDep t i z
              let ai := calculateActualIndex z acc.dependencies.length
              if 0 ≤ ai ∧ ai < (acc.dependencies.length : Int) then
                depsAppendBy acc ai i
              else acc) ∧
              (let acc := depsAppendDep t i z
              let ai := calculateActualIndex z acc.dependencies.length
              if 0 ≤ ai ∧ ai < (acc.dependencies.length : Int) then
                depsAppendBy acc ai i
              else acc).dependencies.length = n := by
            dsimp only
            rcases hz with hz | hz
            · subst hz
              constructor
              · split
                · apply SecInv_appendBy_mono
                  · exact SecInv_appendDep_neg1 _ _ ht
                  · rw [deps_len_appendDep]
                    omega
                · exact SecInv_appendDep_neg1 _ _ ht
              · split
                · rw [deps_len_appendBy, deps_len_appendDep]
                  omega
                · rw [deps_len_appendDep]
                  omega
            · have hcab : calculateActualIndex z
                  (depsAppendDep t i z).dependencies.length = z := by
                unfold calculateActualIndex
                rw [if_neg (by omega)]
              rw [hcab]
              rw [if_pos (by rw [deps_len_appendDep]; omega)]
              constructor
              · apply SecInv_appendDep_appendBy t i z ht (by omega) (by omega)
              · rw [deps_len_appendBy, deps_len_appendDep]
                omega
          have := ih (fun v hv => hsl v (List.mem_cons_of_mem _ hv)) _ hstep.1 hstep.2
          exact this
      exact hfold s hInv hn.symm
    · have hfold : ∀ (t : Section), t.dependencies.length = n →
          (sl.foldl
            (fun acc stackInstIdx =>
              let acc := depsAppendDep acc i stackInstIdx
              let ai := calculateActualIndex stackInstIdx acc.dependencies.length
              if 0 ≤ ai ∧ ai < (acc.dependencies.length : Int) then
                depsAppendBy acc ai i
              else acc) t).dependencies.length = n := by
        clear hm hsl
        induction sl with
        | nil => intro t ht; exact ht
        | cons z rest ih =>
          intro t ht
          rw [List.foldl_cons]
          apply ih
          dsimp only
          split
          · rw [deps_len_appendBy, deps_len_appendDep]
            omega
          · rw [deps_len_appendDep]
            omega
      exact hfold s hn.symm

end BPFOpt

namespace BPFOpt

/-- Invariant preservation for the shared edge-insertion tail of
`purOneDep` (append dependency, then the bounds-checked mirrored
depended-by insertion). -/
theorem oneDepCore_inv (t : Section) (i d : Int) (n : Nat)
    (ht : SecInv t) (htl : t.dependencies.length = n)
    (hi : 0 ≤ i ∧ i.toNat < n) (hd : ValIdx n d) :
    SecInv (if FoundDependency t i d = true then t
      else
        if 0 ≤ calculateActualIndex d (depsAppendDep t i d).dependencies.length ∧
            calculateActualIndex d (depsAppendDep t i d).dependencies.length <
              ((depsAppendDep t i d).dependencies.length : Int) then
          if FoundDependedBy (depsAppendDep t i d)
              (calculateActualIndex d (depsAppendDep t i d).dependencies.length)
              i = true then depsAppendDep t i d
          else depsAppendBy (depsAppendDep t i d)
            (calculateActualIndex d (depsAppendDep t i d).dependencies.length) i
        else depsAppendDep t i d) ∧
    (if FoundDependency t i d = true then t
      else
        if 0 ≤ calculateActualIndex d (depsAppendDep t i d).dependencies.length ∧
            calculateActualIndex d (depsAppendDep t i d).dependencies.length <
              ((depsAppendDep t i d).dependencies.length : Int) then
          if FoundDependedBy (depsAppendDep t i d)
              (calculateActualIndex d (depsAppendDep t i d).dependencies.length)
              i = true then depsAppendDep t i d
          else depsAppendBy (depsAppendDep t i d)
            (calculateActualIndex d (depsAppendDep t i d).dependencies.length) i
        else depsAppendDep t i d).dependencies.length = n := by
  split
  · exact ⟨ht, htl⟩
  rcases hd with hd | hd
  · subst hd
    split
    · split
      · refine ⟨SecInv_appendDep_neg1 _ _ ht, ?_⟩
        rw [deps_len_appendDep]
        exact htl
      · refine ⟨?_, ?_⟩
        · apply SecInv_appendBy_mono
          · exact SecInv_appendDep_neg1 _ _ ht
          · rw [deps_len_appendDep]
            omega
        · rw [deps_len_appendBy, deps_len_appendDep]
          exact htl
    · refine ⟨SecInv_appendDep_neg1 _ _ ht, ?_⟩
      rw [deps_len_appendDep]
      exact htl
  · have hcab : calculateActualIndex d (depsAppendDep t i d).dependencies.length = d := by
      unfold calculateActualIndex
      rw [if_neg (by omega)]
    rw [hcab]
    rw [if_pos (by rw [deps_len_appendDep]; omega)]
    split
    · rename_i hfb
      refine ⟨?_, ?_⟩
      · apply SecInv_appendDep_found t i d ht (by omega) (by omega)
        unfold FoundDependedBy at hfb
        rw [if_neg (by omega)] at hfb
        have := (contains_iff_mem _ _).mp hfb
        rw [show ((depsAppendDep t i d).dependencies.getD d.toNat
            { dependencies := [], dependedBy := [] }).dependedBy = depByN (depsAppendDep t i d) d.toNat from rfl] at this
        rw [depByN_appendDep] at this
        exact this
      · rw [deps_len_appendDep]
        exact htl
    · refine ⟨?_, ?_⟩
      · exact SecInv_appendDep_appendBy t i d ht (by omega) (by omega)
      · rw [deps_len_appendBy, deps_len_appendDep]
        exact htl

/-- `purOneDep` keeps the invariants. -/
theorem purOneDep_inv (s : Section) (i r d : Int) (st : RegisterState)
    (n : Nat) (hn : s.dependencies.length = n) (hInv : SecInv s)
    (hi : 0 ≤ i ∧ i.toNat < n) (hst : RegsOK n st) (hd : ValIdx n d) :
    SecInv (purOneDep s i r d st).1 ∧
    (purOneDep s i r d st).1.dependencies.length = n ∧
    RegsOK n (purOneDep s i r d st).2 := by
  unfold purOneDep
  dsimp only
  by_cases hc : (getIdx st.regAlias r).getD (-1) ≠ -1 ∧
      (getIdx st.regAlias r).getD (-1) ≠ 0
  · rw [if_pos hc]
    obtain ⟨hp1, hp2, hp3⟩ :=
      purAliasStack_inv s i ((getIdx st.regAlias r).getD (-1)) st n hn.symm hInv hi hst
    have hcore := oneDepCore_inv _ i d n hp1 hp2 hi hd
    exact ⟨hcore.1, hcore.2, hp3⟩
  · rw [if_neg hc]
    have hcore := oneDepCore_inv s i d n hInv hn hi hd
    exact ⟨hcore.1, hcore.2, hst⟩

end BPFOpt

namespace BPFOpt

theorem purAliasUpdate_RegsOK (r : Int) (inst : Instruction)
    (st st' : RegisterState) (n : Nat) (h : purAliasUpdate r inst st = some st')
    (hst : RegsOK n st) : RegsOK n st' := by
  have h1 := purAliasUpdate_registers r inst st st' h
  have h2 := purAliasUpdate_stackMap r inst st st' h
  constructor
  · rw [h1]
    exact hst.1
  · rw [h2]
    exact hst.2

theorem purOneReg_inv (s : Section) (i r : Int) (inst : Instruction)
    (st : RegisterState) (n : Nat) (p : Section × RegisterState)
    (hp : purOneReg s i r inst st = some p)
    (hn : s.dependencies.length = n) (hInv : SecInv s)
    (hi : 0 ≤ i ∧ i.toNat < n) (hst : RegsOK n st) :
    SecInv p.1 ∧ p.1.dependencies.length = n ∧ RegsOK n p.2 := by
  unfold purOneReg at hp
  split at hp
  · cases hp
    exact ⟨hInv, hn, hst⟩
  · rcases ha : purAliasUpdate r inst st with _ | st1 <;> rw [ha] at hp
    · cases hp
    have hst1 : RegsOK n st1 := purAliasUpdate_RegsOK r inst st st1 n ha hst
    dsimp only at hp
    split at hp
    · cases hp
      exact ⟨hInv, hn, hst1⟩
    · cases hp
      have hvals : ∀ v ∈ (getIdx st1.registers r).getD [], ValIdx n v := by
        rcases hg : getIdx st1.registers r with _ | l
        · intro v hv
          cases hv
        · intro v hv
          dsimp only [Option.getD] at hv
          unfold getIdx at hg
          split at hg
          · cases hg
          · exact hst1.1 l (List.get?_mem hg) v hv
      have hfold : ∀ (ds : List Int), (∀ v ∈ ds, ValIdx n v) →
          ∀ (acc : Section × RegisterState), SecInv acc.1 →
            acc.1.dependencies.length = n → RegsOK n acc.2 →
          SecInv ((ds.foldl (fun acc dep => purOneDep acc.1 i r dep acc.2) acc).1) ∧
          ((ds.foldl (fun acc dep => purOneDep acc.1 i r dep acc.2) acc).1).dependencies.length = n ∧
          RegsOK n ((ds.foldl (fun acc dep => purOneDep acc.1 i r dep acc.2) acc).2) := by
        intro ds
        induction ds with
        | nil =>
          intro _ acc h1 h2 h3
          exact ⟨h1, h2, h3⟩
        | cons z rest ih =>
          intro hds acc h1 h2 h3
          rw [List.foldl_cons]
          have hz := purOneDep_inv acc.1 i r z acc.2 n h2 h1 hi h3
            (hds z (List.mem_cons_self _ _))
          exact ih (fun v hv => hds v (List.mem_cons_of_mem _ hv)) _ hz.1 hz.2.1 hz.2.2
      exact hfold _ hvals (s, st1) hInv hn hst1

theorem PUR_inv (ur : List Int) (i : Int) (inst : Instruction) :
    ∀ (acc : Section × RegisterState) (p : Section × RegisterState) (n : Nat),
      (ur.foldlM (fun acc regIdx => purOneReg acc.1 i regIdx inst acc.2) acc =
        some p) →
      acc.1.dependencies.length = n → SecInv acc.1 →
      (0 ≤ i ∧ i.toNat < n) → RegsOK n acc.2 →
      SecInv p.1 ∧ p.1.dependencies.length = n ∧ RegsOK n p.2 := by
  induction ur with
  | nil =>
    intro acc p n h hn hInv hi hst
    cases h
    exact ⟨hInv, hn, hst⟩
  | cons r rest ih =>
    intro acc p n h hn hInv hi hst
    rw [List.foldlM_cons] at h
    rcases h1 : purOneReg acc.1 i r inst acc.2 with _ | q <;> rw [h1] at h
    · cases h
    · have hq := purOneReg_inv acc.1 i r inst acc.2 n q h1 hn hInv hi hst
      exact ih q p n h hq.2.1 hq.1 hi hq.2.2

end BPFOpt

namespace BPFOpt

theorem pusTailOne_inv (s : Section) (i x : Int) (n : Nat)
    (hn : s.dependencies.length = n) (hInv : SecInv s)
    (hi : 0 ≤ i ∧ i.toNat < n) :
    SecInv (pusTailOne s i x) ∧ (pusTailOne s i x).dependencies.length = n := by
  unfold pusTailOne
  split
  · exact ⟨hInv, hn⟩
  split
  · rename_i hne hb
    dsimp only
    split
    · rename_i hfd
      split
      · exact ⟨hInv, hn⟩
      · refine ⟨SecInv_appendBy_mono s x i hInv (by omega), ?_⟩
        rw [deps_len_appendBy]
        exact hn
    · rename_i hfd
      split
      · rename_i hfb
        refine ⟨?_, ?_⟩
        · apply SecInv_appendDep_found s i x hInv (by omega) (by omega)
          unfold FoundDependedBy at hfb
          rw [if_neg (by omega)] at hfb
          have := (contains_iff_mem _ _).mp hfb
          rw [show ((depsAppendDep s i x).dependencies.getD x.toNat
              { dependencies := [], dependedBy := [] }).dependedBy =
            depByN (depsAppendDep s i x) x.toNat from rfl] at this
          rw [depByN_appendDep] at this
          exact this
        · rw [deps_len_appendDep]
          exact hn
      · refine ⟨SecInv_appendDep_appendBy s i x hInv (by omega) (by omega), ?_⟩
        rw [deps_len_appendBy, deps_len_appendDep]
        exact hn
  · exact ⟨hInv, hn⟩

theorem pusNonTailOne_len (s : Section) (i x : Int) :
    (pusNonTailOne s i x).dependencies.length = s.dependencies.length := by
  unfold pusNonTailOne
  dsimp only
  split
  · split
    · split
      · rfl
      · rw [deps_len_appendBy]
    · rfl
  · split
    · split
      · rw [deps_len_appendDep]
      · rw [deps_len_appendBy, deps_len_appendDep]
    · rw [deps_len_appendDep]

theorem pusNonTailOne_inv (s : Section) (i x : Int) (n : Nat)
    (hn : s.dependencies.length = n) (hInv : SecInv s)
    (hi : 0 ≤ i ∧ i.toNat < n) (hx : ValIdx n x) :
    SecInv (pusNonTailOne s i x) ∧
    (pusNonTailOne s i x).dependencies.length = n := by
  refine ⟨?_, by rw [pusNonTailOne_len]; exact hn⟩
  unfold pusNonTailOne
  dsimp only
  rcases hx with hx | hx
  · subst hx
    split
    · rename_i hfd
      have hcab : calculateActualIndex (-1) s.dependencies.length =
          (s.dependencies.length : Int) + (-1) := by
        unfold calculateActualIndex
        rw [if_pos (by omega)]
      rw [hcab]
      rw [if_pos (by omega)]
      split
      · exact hInv
      · exact SecInv_appendBy_mono _ _ _ hInv (by omega)
    · rename_i hfd
      have hcab : calculateActualIndex (-1) (depsAppendDep s i (-1)).dependencies.length =
          ((depsAppendDep s i (-1)).dependencies.length : Int) + (-1) := by
        unfold calculateActualIndex
        rw [if_pos (by omega)]
      rw [hcab]
      rw [if_pos (by rw [deps_len_appendDep]; omega)]
      split
      · exact SecInv_appendDep_neg1 _ _ hInv
      · apply SecInv_appendBy_mono
        · exact SecInv_appendDep_neg1 _ _ hInv
        · rw [deps_len_appendDep]
          omega
  · split
    · rename_i hfd
      have hcab : calculateActualIndex x s.dependencies.length = x := by
        unfold calculateActualIndex
        rw [if_neg (by omega)]
      rw [hcab]
      rw [if_pos (by omega)]
      split
      · exact hInv
      · exact SecInv_appendBy_mono _ _ _ hInv (by omega)
    · rename_i hfd
      have hcab : calculateActualIndex x (depsAppendDep s i x).dependencies.length = x := by
        unfold calculateActualIndex
        rw [if_neg (by omega)]
      rw [hcab]
      rw [if_pos (by rw [deps_len_appendDep]; omega)]
      split
      · rename_i hfb
        apply SecInv_appendDep_found s i x hInv (by omega) (by omega)
        unfold FoundDependedBy at hfb
        rw [if_neg (by omega)] at hfb
        have := (contains_iff_mem _ _).mp hfb
        rw [show ((depsAppendDep s i x).dependencies.getD x.toNat
            { dependencies := [], dependedBy := [] }).dependedBy =
          depByN (depsAppendDep s i x) x.toNat from rfl] at this
        rw [depByN_appendDep] at this
        exact this
      · exact SecInv_appendDep_appendBy s i x hInv (by omega) (by omega)

theorem PUS_inv (s : Section) (i : Int) (a : InstructionAnalysis)
    (st : RegisterState) (n : Nat)
    (hn : s.dependencies.length = n) (hInv : SecInv s)
    (hi : 0 ≤ i ∧ i.toNat < n) (hst : RegsOK n st) :
    SecInv (ProcessUsedStack s i a st).1 ∧
    (ProcessUsedStack s i a st).1.dependencies.length = n ∧
    RegsOK n (ProcessUsedStack s i a st).2 := by
  unfold ProcessUsedStack
  split
  · exact ⟨hInv, hn, hst⟩
  dsimp only
  split
  · refine ⟨?_, ?_⟩
    swap
    · refine ⟨?_, hst⟩
      have houter : ∀ (keys : List Int) (t : Section), SecInv t →
          t.dependencies.length = n →
          SecInv (keys.foldl
            (fun acc off => ((mapGet st.stackMap off).getD []).foldl
              (fun acc2 stackInstIdx => pusTailOne acc2 i stackInstIdx) acc) t) ∧
          (keys.foldl
            (fun acc off => ((mapGet st.stackMap off).getD []).foldl
              (fun acc2 stackInstIdx => pusTailOne acc2 i stackInstIdx) acc) t).dependencies.length = n := by
        intro keys
        induction keys with
        | nil => intro t h1 h2; exact ⟨h1, h2⟩
        | cons k rest ih =>
          intro t h1 h2
          rw [List.foldl_cons]
          have hinner : ∀ (l : List Int) (u : Section), SecInv u →
              u.dependencies.length = n →
              SecInv (l.foldl (fun acc2 x => pusTailOne acc2 i x) u) ∧
              (l.foldl (fun acc2 x => pusTailOne acc2 i x) u).dependencies.length = n := by
            intro l
            induction l with
            | nil => intro u hu1 hu2; exact ⟨hu1, hu2⟩
            | cons z zr ihz =>
              intro u hu1 hu2
              rw [List.foldl_cons]
              have hz := pusTailOne_inv u i z n hu2 hu1 hi
              exact ihz _ hz.1 hz.2
          have hk := hinner ((mapGet st.stackMap k).getD []) t h1 h2
          exact ih _ hk.1 hk.2
      exact (houter _ s hInv hn).2
    · have houter : ∀ (keys : List Int) (t : Section), SecInv t →
          t.dependencies.length = n →
          SecInv (keys.foldl
            (fun acc off => ((mapGet st.stackMap off).getD []).foldl
              (fun acc2 stackInstIdx => pusTailOne acc2 i stackInstIdx) acc) t) ∧
          (keys.foldl
            (fun acc off => ((mapGet st.stackMap off).getD []).foldl
              (fun acc2 stackInstIdx => pusTailOne acc2 i stackInstIdx) acc) t).dependencies.length = n := by
        intro keys
        induction keys with
        | nil => intro t h1 h2; exact ⟨h1, h2⟩
        | cons k rest ih =>
          intro t h1 h2
          rw [List.foldl_cons]
          have hinner : ∀ (l : List Int) (u : Section), SecInv u →
              u.dependencies.length = n →
              SecInv (l.foldl (fun acc2 x => pusTailOne acc2 i x) u) ∧
              (l.foldl (fun acc2 x => pusTailOne acc2 i x) u).dependencies.length = n := by
            intro l
            induction l with
            | nil => intro u hu1 hu2; exact ⟨hu1, hu2⟩
            | cons z zr ihz =>
              intro u hu1 hu2
              rw [List.foldl_cons]
              have hz := pusTailOne_inv u i z n hu2 hu1 hi
              exact ihz _ hz.1 hz.2
          have hk := hinner ((mapGet st.stackMap k).getD []) t h1 h2
          exact ih _ hk.1 hk.2
      exact (houter _ s hInv hn).1
  · rcases hm : mapGet st.stackMap (a.usedStack.getD 0 0) with _ | sl
    · dsimp only
      refine ⟨SecInv_appendDep_neg1 _ _ hInv, by rw [deps_len_appendDep]; exact hn, ?_, ?_⟩
      · exact hst.1
      · intro p hp v hv
        rcases mem_mapSet _ _ _ _ hp with hp | hp
        · exact hst.2 p hp v hv
        · subst hp
          simp at hv
          subst hv
          exact Or.inl rfl
    · dsimp only
      have hsl : ∀ v ∈ sl, ValIdx n v := by
        intro v hv
        exact hst.2 (_, sl) (mapGet_mem_pair _ _ _ hm) v hv
      have hfold : ∀ (l : List Int), (∀ v ∈ l, ValIdx n v) →
          ∀ (t : Section), SecInv t → t.dependencies.length = n →
          SecInv (l.foldl (fun acc x => pusNonTailOne acc i x) t) ∧
          (l.foldl (fun acc x => pusNonTailOne acc i x) t).dependencies.length = n := by
        intro l
        induction l with
        | nil => intro _ t h1 h2; exact ⟨h1, h2⟩
        | cons z zr ih =>
          intro hl t h1 h2
          rw [List.foldl_cons]
          have hz := pusNonTailOne_inv t i z n h2 h1 hi (hl z (List.mem_cons_self _ _))
          exact ih (fun v hv => hl v (List.mem_cons_of_mem _ hv)) _ hz.1 hz.2
      have := hfold sl hsl s hInv hn
      exact ⟨this.1, this.2, hst⟩

end BPFOpt

namespace BPFOpt

theorem aliasReset_RegsOK (inst : Instruction) (state st1 : RegisterState)
    (n : Nat)
    (h : (if inst.opcode ≠ 0xBF ∧ inst.opcode ≠ 0x07 then
        (setIdx state.regAlias (inst.dstReg : Int) (-1)).map
          (fun ra => { state with regAlias := ra })
      else some state) = some st1)
    (hst : RegsOK n state) : RegsOK n st1 := by
  have h1 := aliasReset_registers inst state st1 h
  have h2 := aliasReset_stackMap inst state st1 h
  constructor
  · rw [h1]
    exact hst.1
  · rw [h2]
    exact hst.2

theorem clearCallerSaved_RegsOK (st : RegisterState) (n : Nat)
    (hst : RegsOK n st) : RegsOK n (clearCallerSaved st) := by
  constructor
  · rw [clearCallerSaved_registers]
    unfold clearRegs
    intro l hl v hv
    rcases listModify_mem _ _ _ _ hl with hl | ⟨_, y, hy, rfl⟩
    rcases listModify_mem _ _ _ _ hl with hl | ⟨_, y, hy, rfl⟩
    rcases listModify_mem _ _ _ _ hl with hl | ⟨_, y, hy, rfl⟩
    rcases listModify_mem _ _ _ _ hl with hl | ⟨_, y, hy, rfl⟩
    rcases listModify_mem _ _ _ _ hl with hl | ⟨_, y, hy, rfl⟩
    · exact hst.1 l hl v hv
    all_goals cases hv
  · exact hst.2

theorem buildRegStep_inv (s : Section) (state : RegisterState)
    (done : List Int) (sr : Bool) (nrl : Nat) (base instIdx : Int)
    (inst : Instruction) (s' : Section) (st' : RegisterState)
    (d' : List Int) (r' : Bool) (n : Nat)
    (hres : buildRegStep s state done sr nrl base instIdx inst =
      some (s', st', d', r'))
    (hn : s.dependencies.length = n) (hInv : SecInv s)
    (hi : 0 ≤ instIdx ∧ instIdx.toNat < n) (hst : RegsOK n state) :
    SecInv s' ∧ s'.dependencies.length = n ∧ RegsOK n st' := by
  unfold buildRegStep at hres
  split at hres
  · cases hres
    exact ⟨hInv, hn, hst⟩
  dsimp only at hres
  split at hres
  · cases hres
  rename_i st1 hst1
  have hr1 : RegsOK n st1 := aliasReset_RegsOK inst state st1 n hst1 hst
  split at hres
  · cases hres
  rename_i s2 st2 hq
  unfold ProcessUsedRegisters at hq
  obtain ⟨h2Inv, h2n, h2st⟩ := PUR_inv _ instIdx inst (s, st1) (s2, st2) n hq hn hInv hi hr1
  split at hres
  · cases hres
  rename_i st3 hst3
  have hr3 : RegsOK n st3 := by
    split at hst3
    · rcases hset : setIdx st2.registers (analyzeInstruction inst).updatedReg
          [instIdx] with _ | regs3 <;> rw [hset] at hst3
      · cases hst3
      dsimp only [Option.map] at hst3
      cases hst3
      unfold setIdx at hset
      split at hset
      · cases hset
      cases hset
      constructor
      · intro l hl v hv
        rcases mem_set _ _ _ _ hl with hl | rfl
        · exact h2st.1 l hl v hv
        · simp at hv
          subst hv
          right
          omega
      · exact h2st.2
    · cases hst3
      exact h2st
  have hr4 : RegsOK n (if (analyzeInstruction inst).isCall then
      clearCallerSaved st3 else st3) := by
    split
    · exact clearCallerSaved_RegsOK st3 n hr3
    · exact hr3
  have hr5 : ∀ st4 : RegisterState, RegsOK n st4 → RegsOK n
      (if 2 ≤ (analyzeInstruction inst).updatedStack.length then
        RegisterState.mk st4.registers (mapSet st4.stackMap ((analyzeInstruction inst).updatedStack.getD 0 0) [instIdx]) st4.regAlias
      else st4) := by
    intro st4 h4
    split
    · constructor
      · exact h4.1
      · intro p hp v hv
        rcases mem_mapSet _ _ _ _ hp with hp | hp
        · exact h4.2 p hp v hv
        · subst hp
          simp at hv
          subst hv
          right
          omega
    · exact h4
  have hbig := hr5 (if (analyzeInstruction inst).isCall = true then
    clearCallerSaved st3 else st3) hr4
  cases hres
  exact PUS_inv s2 instIdx (analyzeInstruction inst) _ n h2n h2Inv hi hbig

end BPFOpt


namespace BPFOpt

theorem BRDLoop_inv (nrl : Nat) (base : Int) :
    ∀ (rem i : Nat) (s : Section) (state : RegisterState) (done : List Int)
      (sr : Bool) (r : Section × RegisterState × List Int × Bool) (n : Nat),
      BRDLoop nrl base rem i s state done sr = some r →
      s.dependencies.length = n → s.instructions.length = n →
      SecInv s → RegsOK n state →
      SecInv r.1 ∧ r.1.dependencies.length = n ∧
        r.1.instructions.length = n ∧ RegsOK n r.2.1 := by
  intro rem
  induction rem with
  | zero =>
    intro i s state done sr r n h h1 h2 h3 h4
    cases h
    exact ⟨h3, h1, h2, h4⟩
  | succ rem ih =>
    intro i s state done sr r n h h1 h2 h3 h4
    rw [BRDLoop] at h
    split at h
    · cases h
      exact ⟨h3, h1, h2, h4⟩
    · rename_i hlt
      split at h
      · cases h
      · rename_i inst hinst
        split at h
        · cases h
        · rename_i s1 state1 done1 sr1 hstep
          have hidx : 0 ≤ base + (i : Int) ∧ (base + (i : Int)).toNat < n := by
            unfold getIdx at hinst
            split at hinst
            · cases hinst
            · rename_i hneg
              have := List.get?_eq_some.mp hinst
              omega
          obtain ⟨hs1, hd1, hr1⟩ :=
            buildRegStep_inv s state done sr nrl base (base + (i : Int)) inst
              s1 state1 done1 sr1 n hstep h1 h3 hidx h4
          have hil1 : s1.instructions.length = n := by
            have := buildRegStep_instructions s state done sr nrl base
              (base + (i : Int)) inst (s1, state1, done1, sr1) hstep
            dsimp only at this
            rw [this]
            exact h2
          exact ih _ _ _ _ _ _ n h hd1 hil1 hs1 hr1

theorem BRD_inv (s : Section) (nrl : Nat) (nodeLen base : Int)
    (state : RegisterState) (done : List Int)
    (r : Section × RegisterState × List Int × Bool) (n : Nat)
    (h : BuildRegisterDependencies s nrl nodeLen base state done = some r)
    (h1 : s.dependencies.length = n) (h2 : s.instructions.length = n)
    (h3 : SecInv s) (h4 : RegsOK n state) :
    SecInv r.1 ∧ r.1.dependencies.length = n ∧
      r.1.instructions.length = n ∧ RegsOK n r.2.1 := by
  unfold BuildRegisterDependencies at h
  exact BRDLoop_inv nrl base _ _ _ _ _ _ _ n h h1 h2 h3 h4

theorem newRegisterState_RegsOK (n : Nat) : RegsOK n newRegisterState := by
  constructor
  · intro l hl v hv
    unfold newRegisterState at hl
    dsimp only at hl
    rw [List.eq_of_mem_replicate hl] at hv
    cases hv
  · intro p hp v hv
    unfold newRegisterState at hp
    cases hp

theorem MergeRegisterStates_RegsOK (states : List RegisterState) (n : Nat)
    (hs : ∀ st ∈ states, RegsOK n st) :
    RegsOK n (MergeRegisterStates states) := by
  unfold MergeRegisterStates
  split
  · exact newRegisterState_RegsOK n
  constructor
  · intro l hl v hv
    dsimp only at hl
    rcases List.mem_map.mp hl with ⟨idx, _, rfl⟩
    have hv2 := mem_removeDuplicates _ _ hv
    have hgen : ∀ (sts : List RegisterState), (∀ st ∈ sts, RegsOK n st) →
        ∀ (acc : List Int), (∀ w ∈ acc, ValIdx n w) →
        ∀ w ∈ sts.foldl (fun acc st => acc ++ st.registers.getD idx []) acc,
          ValIdx n w := by
      intro sts
      induction sts with
      | nil => intro _ acc hacc w hw; exact hacc w hw
      | cons st rest ihs =>
        intro hsts acc hacc w hw
        rw [List.foldl_cons] at hw
        apply ihs (fun t ht => hsts t (List.mem_cons_of_mem _ ht)) _ ?_ w hw
        intro u hu
        rcases List.mem_append.mp hu with hu | hu
        · exact hacc u hu
        · obtain ⟨ll, hll, hull⟩ := getD_values _ _ _ hu
          exact (hsts st (List.mem_cons_self _ _)).1 ll hll u hull
    exact hgen states hs [] (fun w hw => absurd hw (List.not_mem_nil w)) v hv2
  · intro p hp v hv
    dsimp only at hp
    have hgen : ∀ (sts : List RegisterState), (∀ st ∈ sts, RegsOK n st) →
        ∀ (m : List (Int × List Int)), (∀ q ∈ m, ∀ w ∈ q.2, ValIdx n w) →
        ∀ q ∈ sts.foldl
          (fun m st => st.stackMap.foldl
            (fun m p =>
              match mapGet m p.1 with
              | some existing => mapSet m p.1 (removeDuplicates (existing ++ p.2))
              | none => mapSet m p.1 p.2)
            m)
          m,
          ∀ w ∈ q.2, ValIdx n w := by
      intro sts
      induction sts with
      | nil => intro _ m hm q hq w hw; exact hm q hq w hw
      | cons st rest ihs =>
        intro hsts m hm q hq w hw
        rw [List.foldl_cons] at hq
        apply ihs (fun t ht => hsts t (List.mem_cons_of_mem _ ht)) _ ?_ q hq w hw
        have hstOK := hsts st (List.mem_cons_self _ _)
        have hinner : ∀ (sm : List (Int × List Int)),
            (∀ e ∈ sm, ∀ u ∈ e.2, ValIdx n u) →
            ∀ (m0 : List (Int × List Int)), (∀ e ∈ m0, ∀ u ∈ e.2, ValIdx n u) →
            ∀ e ∈ sm.foldl
              (fun m p =>
                match mapGet m p.1 with
                | some existing => mapSet m p.1 (removeDuplicates (existing ++ p.2))
                | none => mapSet m p.1 p.2)
              m0,
              ∀ u ∈ e.2, ValIdx n u := by
          intro sm
          induction sm with
          | nil => intro _ m0 hm0 e he u hu; exact hm0 e he u hu
          | cons pr rest2 ihm =>
            intro hsm m0 hm0 e he u hu
            rw [List.foldl_cons] at he
            apply ihm (fun t ht => hsm t (List.mem_cons_of_mem _ ht)) _ ?_ e he u hu
            intro e2 he2 u2 hu2
            have hprv : ∀ w ∈ pr.2, ValIdx n w :=
              hsm pr (List.mem_cons_self _ _)
            rcases hg : mapGet m0 pr.1 with _ | existing
            · rw [hg] at he2
              rcases mem_mapSet _ _ _ _ he2 with he2 | he2
              · exact hm0 e2 he2 u2 hu2
              · subst he2
                exact hprv u2 hu2
            · rw [hg] at he2
              rcases mem_mapSet _ _ _ _ he2 with he2 | he2
              · exact hm0 e2 he2 u2 hu2
              · subst he2
                dsimp only at hu2
                have := mem_removeDuplicates _ _ hu2
                rcases List.mem_append.mp this with h | h
                · exact hm0 (pr.1, existing) (mapGet_mem_pair _ _ _ hg) u2 h
                · exact hprv u2 h
        exact hinner st.stackMap (fun e he u hu => hstOK.2 e he u hu) m hm
    exact hgen states hs [] (fun q hq => absurd hq (List.not_mem_nil q)) p hp v hv

end BPFOpt

namespace BPFOpt

theorem StatsOK_mapSet (cfg : List (Int × RegisterState)) (k : Int)
    (st : RegisterState) (n : Nat)
    (h : ∀ p ∈ cfg, RegsOK n p.2) (hst : RegsOK n st) :
    ∀ p ∈ mapSet cfg k st, RegsOK n p.2 := by
  intro p hp
  rcases mem_mapSet _ _ _ _ hp with hp | hp
  · exact h p hp
  · subst hp
    exact hst

theorem filterMap_stats_RegsOK (stats : List (Int × RegisterState))
    (preds : List Int) (n : Nat) (h : ∀ p ∈ stats, RegsOK n p.2) :
    ∀ st ∈ preds.filterMap (fun p => mapGet stats p), RegsOK n st := by
  intro st hst
  rcases List.mem_filterMap.mp hst with ⟨p, _, hget⟩
  exact h (p, st) (mapGet_mem_pair _ _ _ hget)

theorem buildLoopState_RegsOK (cfg : ControlFlowGraph) (head : Int) (n : Nat)
    (h : StatsOK n cfg) : RegsOK n (buildLoopState cfg head) := by
  unfold buildLoopState
  exact MergeRegisterStates_RegsOK _ n (filterMap_stats_RegsOK _ _ n h)

theorem findNextNode_RegsOK (s : Section) (cfg : ControlFlowGraph)
    (done : List Int) (b : Bool) (n : Nat) (h : StatsOK n cfg) :
    ∀ ns, (findNextNode s cfg done b).2 = some ns → RegsOK n ns := by
  unfold findNextNode
  have := foldl_pres
    (fun acc : Int × Option RegisterState =>
      ∀ ns, acc.2 = some ns → RegsOK n ns)
    (fun acc node =>
      if done.contains node then acc
      else if b && containsExitBlock s.instructions cfg.nodesLen node then acc
      else
        let preds := (mapGet cfg.nodesRev node).getD []
        if preds.all (fun p => done.contains p) then
          let predStates := preds.filterMap (fun p => mapGet cfg.nodeStats p)
          (node, some (MergeRegisterStates predStates))
        else acc)
    (sortInts (mapKeys cfg.nodesRev))
    ?_ (0, none) ?_
  · exact this
  · intro a node _ ha
    dsimp only
    split
    · exact ha
    split
    · exact ha
    split
    · intro ns hns
      dsimp only at hns
      cases hns
      exact MergeRegisterStates_RegsOK _ n (filterMap_stats_RegsOK _ _ n h)
    · exact ha
  · intro ns hns
    cases hns

/-- The state carried by a pending engine step. -/
def stepState : EngineStep → RegisterState
  | EngineStep.main _ st _ _ => st
  | EngineStep.cont _ st _ => st

end BPFOpt

namespace BPFOpt

theorem updEngine_inv :
    ∀ (fuel : Nat) (s : Section) (cfg : ControlFlowGraph) (done : List Int)
      (step : EngineStep)
      (r : Section × ControlFlowGraph × List Int × RegisterState) (n : Nat),
      updEngine fuel s cfg done step = some r →
      s.dependencies.length = n → s.instructions.length = n → SecInv s →
      StatsOK n cfg → RegsOK n (stepState step) →
      SecInv r.1 ∧ r.1.dependencies.length = n ∧
        r.1.instructions.length = n ∧ StatsOK n r.2.1 ∧ RegsOK n r.2.2.2 := by
  intro fuel
  induction fuel with
  | zero =>
    intro s cfg done step r n h h1 h2 h3 h4 h5
    exact absurd h (by simp [updEngine])
  | succ fuel ih =>
    intro s cfg done step r n h h1 h2 h3 h4 h5
    cases step with
    | cont base state loops =>
      dsimp only [stepState] at h5
      rw [updEngine.eq_def] at h
      dsimp only at h
      split at h
      · split at h
        · exact ih _ _ _ _ _ n h h1 h2 h3 h4
            (by dsimp only [stepState]; exact buildLoopState_RegsOK _ _ n h4)
        · cases h
          exact ⟨h3, h1, h2, h4, h5⟩
      · split at h
        · split at h
          · rename_i ns2 hns2
            rcases Option.map_eq_some'.mp hns2 with ⟨ns, hns, hns2e⟩
            have hnsOK : RegsOK n ns := findNextNode_RegsOK s cfg done _ n h4 ns hns
            have hns2OK : RegsOK n ns2 := by
              rw [← hns2e]
              exact ⟨hnsOK.1, hnsOK.2⟩
            exact ih _ _ _ _ _ n h h1 h2 h3 h4
              (by dsimp only [stepState]; exact hns2OK)
          · exact absurd h (by simp)
        · cases h
          exact ⟨h3, h1, h2, h4, h5⟩
    | main base state loops inferOnly =>
      dsimp only [stepState] at h5
      rw [updEngine.eq_def] at h
      dsimp only at h
      split at h
      · cases h
        exact ⟨h3, h1, h2, h4, h5⟩
      · split at h
        · exact absurd h (by simp)
        · rename_i s1 state1 done1 sr1 hbrd
          obtain ⟨hs1, hd1, hi1, hr1⟩ :=
            BRD_inv s _ _ _ _ _ (s1, state1, done1, sr1) n hbrd h1 h2 h3 h5
          dsimp only at hr1
          have hstats1 : StatsOK n { cfg with
              nodeStats := mapSet cfg.nodeStats base state1 } := by
            intro p hp
            exact StatsOK_mapSet cfg.nodeStats base state1 n h4 hr1 p hp
          split at h
          · cases h
            exact ⟨hs1, hd1, hi1, hstats1, hr1⟩
          · split at h
            · rename_i frame parents
              split at h
              · split at h
                · exact absurd h (by simp)
                · rename_i s2 cfg2 done2 sim hsim
                  have hmOK : RegsOK n (MergeRegisterStates
                      ((removeDuplicates ((mapGet { cfg with
                          nodeStats := mapSet cfg.nodeStats base state1 }.nodesRev
                            frame.head).getD [])).filterMap
                        (fun p => mapGet { cfg with
                          nodeStats := mapSet cfg.nodeStats base state1 }.nodeStats p))) :=
                    MergeRegisterStates_RegsOK _ n
                      (filterMap_stats_RegsOK _ _ n hstats1)
                  obtain ⟨hs2, hd2, hi2, hstats2, hsimOK⟩ :=
                    ih _ _ _ _ _ n hsim hd1 hi1 hs1 hstats1
                      (by dsimp only [stepState]; exact hmOK)
                  split at h
                  · have hstats3 : StatsOK n { cfg2 with
                        nodeStats := mapSet cfg2.nodeStats frame.head
                          (MergeRegisterStates
                            ((removeDuplicates ((mapGet { cfg with
                                nodeStats := mapSet cfg.nodeStats base state1 }.nodesRev
                                  frame.head).getD [])).filterMap
                              (fun p => mapGet { cfg with
                                nodeStats := mapSet cfg.nodeStats base state1 }.nodeStats p))) } := by
                      intro p hp
                      exact StatsOK_mapSet cfg2.nodeStats frame.head _ n hstats2 hmOK p hp
                    exact ih _ _ _ _ _ n h hd2 hi2 hs2 hstats3
                      (by dsimp only [stepState]; exact hmOK)
                  · split at h
                    · exact ih _ _ _ _ _ n h hd2 hi2 hs2 hstats2
                        (by dsimp only [stepState]; exact hr1)
                    · exact ih _ _ _ _ _ n h hd2 hi2 hs2 hstats2
                        (by dsimp only [stepState]; exact hr1)
              · exact ih _ _ _ _ _ n h hd1 hi1 hs1 hstats1
                  (by dsimp only [stepState]; exact hr1)
            · exact ih _ _ _ _ _ n h hd1 hi1 hs1 hstats1
                (by dsimp only [stepState]; exact hr1)

end BPFOpt

namespace BPFOpt

theorem initialRegisterState_RegsOK (n : Nat) :
    RegsOK n initialRegisterState := by
  constructor
  · intro l hl v hv
    unfold initialRegisterState at hl
    dsimp only at hl
    rcases listModify_mem _ _ _ _ hl with hl | ⟨_, y, hy, rfl⟩
    rcases listModify_mem _ _ _ _ hl with hl | ⟨_, y, hy, rfl⟩
    · have := List.eq_of_mem_replicate (by exact hl)
      rw [this] at hv
      cases hv
    all_goals
      simp at hv
      subst hv
      exact Or.inl rfl
  · intro p hp v hv
    unfold initialRegisterState at hp
    cases hp

theorem buildControlFlowGraph_stats (insts : List Instruction) (n : Nat) :
    StatsOK n (buildControlFlowGraph insts) := by
  intro p hp
  rw [show (buildControlFlowGraph insts).nodeStats = [] from rfl] at hp
  cases hp

theorem getD_replicate (n k : Nat) :
    (List.replicate n ({} : DependencyInfo)).getD k {} = {} := by
  induction n generalizing k with
  | zero =>
    cases k <;> rfl
  | succ m ih =>
    cases k with
    | zero => rfl
    | succ j =>
      rw [List.replicate_succ, List.getD_cons_succ]
      exact ih j

/-- Claim C1 (amended: the claimed equivalence holds only in the forward
direction — `calculateActualIndex` maps the `-1` entry sentinel to the
last slot, so `depended_by` can point at instructions whose dependency
list records only `-1`): after dependency analysis of any section, every
`depended_by` entry is an in-range instruction index (in particular the
sentinel `-1` never appears there), and every non-sentinel entry `j` of
`dependencies[i]` is mirrored by `i ∈ depended_by[j]`. -/
theorem C1_dependency_symmetry (hexData : List Char) (sec : Section)
    (h : newSection hexData true = some sec) :
    (∀ k : Nat, k < sec.dependencies.length → ∀ v ∈ depByN sec k,
        0 ≤ v ∧ v < (sec.dependencies.length : Int)) ∧
    (∀ k : Nat, k < sec.dependencies.length → ∀ v ∈ depsN sec k, 0 ≤ v →
        (k : Int) ∈ depByN sec v.toNat) := by
  unfold newSection at h
  split at h
  · cases h
  rcases hp : parseInstructions hexData with _ | insts <;> rw [hp] at h
  · cases h
  dsimp only at h
  split at h
  · cases h
  rename_i sec1 cfg1 hbd
  rw [if_pos rfl] at h
  cases h
  unfold buildDependencies at hbd
  dsimp only at hbd
  split at hbd
  · cases hbd
  rename_i s2 cfg2 done2 st2 heng
  unfold updateDependencies at heng
  have hinit : SecInv (Section.mk insts (List.replicate insts.length {})) := by
    constructor
    · intro k hk v hv
      unfold depByN at hv
      dsimp only at hv
      rw [getD_replicate] at hv
      cases hv
    · intro k hk v hv
      unfold depsN at hv
      dsimp only at hv
      rw [getD_replicate] at hv
      cases hv
  obtain ⟨hsec, hdlen, _, _, _⟩ :=
    updEngine_inv _ _ _ _ _ _ insts.length heng
      (by dsimp only; rw [List.length_replicate]) rfl hinit
      (buildControlFlowGraph_stats insts insts.length)
      (by dsimp only [stepState]; exact initialRegisterState_RegsOK _)
  simp only [Option.some.injEq, Prod.mk.injEq] at hbd
  rw [hbd.1] at hsec
  exact ⟨hsec.1, hsec.2⟩

end BPFOpt

namespace BPFOpt

/-- The analysed one-instruction section used to instantiate the C1
theorem. -/
def c1w : Section := (newSection c1hex true).getD default

/-- Concrete run discharging the hypothesis of the C1 theorem on the
`mov r2, r1` section. -/
theorem C1_dependency_symmetry_witness :
    (∀ k : Nat, k < c1w.dependencies.length → ∀ v ∈ depByN c1w k,
        0 ≤ v ∧ v < (c1w.dependencies.length : Int)) ∧
    (∀ k : Nat, k < c1w.dependencies.length → ∀ v ∈ depsN c1w k, 0 ≤ v →
        (k : Int) ∈ depByN c1w v.toNat) :=
  C1_dependency_symmetry c1hex c1w (by decide)

end BPFOpt
